import Mathlib

/-!
# SabriaOS kernel core: process table, selector, in-memory file system, page
structures, control-transfer table and syscall gate

A shallow embedding of `src/kernel.c`.  C `int` and `char` values are `Int`,
`unsigned int` values and addresses are `Nat`, fixed-size C arrays are lists
(`processes` has `MAX_PROCESSES` entries, `fds` has `MAX_FILES`), and every loop
with an early exit is a structurally recursive function whose first numeric
argument counts the iterations that remain; loops without one are folds over
`List.range`.  Counters that start at 0 and only grow (`i`, `j`, `pos`) are
`Nat`.  Array reads use `List.getD` and writes use `List.set`; both agree with C
whenever the index is inside the array.  Arrays reached through a fixed address
are functions to the 32-bit word stored there, written with `Function.update`:
from the byte address for the page structures, from the word index for the
interrupt table.
-/

namespace SabriaOS

/-! ## Constants (`#define`s of kernel.c) -/

def PAGE_SIZE : Nat := 4096
def MAX_PROCESSES : Nat := 8
def MAX_FILES : Nat := 32
def MAX_INODES : Nat := 8
def KERNEL_BASE : Nat := 0xC0000000
def USER_BASE : Nat := 0x100000

/-! ## Process table -/

/-- The `Process` record of kernel.c; `state` is 0 (ready), 1 (running) or
2 (terminated), `pid` 0 marks a free slot. -/
structure Process where
  task : Nat
  state : Int
  esp : Int
  pid : Int
  priority : Int
  user_stack : Nat
  code_segment : Nat
  privilege : Int
  page_dir : Nat
deriving DecidableEq

/-- A zero-filled record, the content of `processes[i]` in `.bss`. -/
def Process.zero : Process :=
  { task := 0, state := 0, esp := 0, pid := 0, priority := 0, user_stack := 0,
    code_segment := 0, privilege := 0, page_dir := 0 }

instance : Inhabited Process := ⟨Process.zero⟩

/-- The globals the process functions read and write: the table, the index of
the active unit, the scheduling request flag, the `kernel_page_dir` pointer and
the 32-bit words of physical memory that hold page structures (indexed by byte
address). -/
structure Kernel where
  processes : List Process
  current_process : Int
  schedule_flag : Int
  kernel_page_dir : Nat
  mem : Nat → Nat

/-- Read of `processes[i]`. -/
def Kernel.proc (k : Kernel) (i : Nat) : Process := k.processes.getD i default

/-- Body `page_dir[i] = 0` of the first loop of `create_user_page_dir`. -/
def zero_entry (base : Nat) (m : Nat → Nat) (i : Nat) : Nat → Nat :=
  Function.update m (base + 4 * i) 0

/-- Body `page_table[i] = (i * PAGE_SIZE + USER_BASE) | 0x7` of the second loop
of `create_user_page_dir`. -/
def user_entry (base : Nat) (m : Nat → Nat) (i : Nat) : Nat → Nat :=
  Function.update m (base + 4 * i) ((i * PAGE_SIZE + USER_BASE) ||| 0x7)

/-- Function `create_user_page_dir`: rebuilds the directory at 0x200000 and the table at
0x201000 and returns the directory's address. -/
def create_user_page_dir (k : Kernel) : Kernel × Nat :=
  let page_dir : Nat := 0x200000
  let m1 := (List.range 1024).foldl (zero_entry page_dir) k.mem
  let page_table : Nat := 0x201000
  let m2 := (List.range 1024).foldl (user_entry page_table) m1
  let m3 := Function.update m2 (page_dir + 4 * 0) (page_table ||| 0x7)
  let m4 := Function.update m3 (page_dir + 4 * 768)
    (m3 ((k.kernel_page_dir + 4 * 768) % 2 ^ 32))
  ({ k with mem := m4 }, page_dir)

/-- The loop of `create_process`: `n` iterations remain, `i` is the loop
variable.  Falling out of the loop returns -1. -/
def create_process_loop (task : Nat) (priority privilege : Int) :
    Nat → Nat → Kernel → Kernel × Int
  | 0, _, k => (k, -1)
  | n + 1, i, k =>
    if (k.proc i).pid = 0 then
      let user_stack : Nat := if privilege = 3 then USER_BASE + PAGE_SIZE * 2 else 0
      let r : Kernel × Nat :=
        if privilege = 3 then create_user_page_dir k else (k, k.kernel_page_dir)
      let p : Process :=
        { k.proc i with
          task := task, state := 0, pid := (i : Int) + 1, priority := priority,
          privilege := privilege, user_stack := user_stack, page_dir := r.2 }
      ({ r.1 with processes := k.processes.set i p }, (i : Int))
    else create_process_loop task priority privilege n (i + 1) k

/-- Function `create_process(task, priority, privilege)`. -/
def create_process (k : Kernel) (task : Nat) (priority privilege : Int) : Kernel × Int :=
  create_process_loop task priority privilege MAX_PROCESSES 0 k

/-- The loop of `kill_process`, with its `break` on the first match. -/
def kill_process_loop (pid : Int) : Nat → Nat → Kernel → Kernel
  | 0, _, k => k
  | n + 1, i, k =>
    if (k.proc i).pid = pid then
      let k1 : Kernel :=
        { k with processes := k.processes.set i { k.proc i with state := 2, pid := 0 } }
      if (i : Int) = k.current_process then { k1 with schedule_flag := 1 } else k1
    else kill_process_loop pid n (i + 1) k

/-- Function `kill_process(pid)`. -/
def kill_process (k : Kernel) (pid : Int) : Kernel :=
  kill_process_loop pid MAX_PROCESSES 0 k

/-- The scan of `schedule`: carries `next` and `max_priority`, returns the final
`next`. -/
def schedule_scan (ps : List Process) : Nat → Nat → Int → Int → Int
  | 0, _, next, _ => next
  | n + 1, i, next, max_priority =>
    if (ps.getD i default).state = 0 ∧ (ps.getD i default).priority > max_priority then
      schedule_scan ps n (i + 1) (i : Int) (ps.getD i default).priority
    else schedule_scan ps n (i + 1) next max_priority

/-- Assignment `processes[i].state = v`. -/
def set_state (ps : List Process) (i : Nat) (v : Int) : List Process :=
  ps.set i { ps.getD i default with state := v }

/-- Function `schedule()`. -/
def schedule (k : Kernel) : Kernel :=
  let next := schedule_scan k.processes MAX_PROCESSES 0 (-1) (-1)
  if next ≠ -1 ∧ next ≠ k.current_process then
    let ps1 := set_state k.processes k.current_process.toNat 0
    { k with processes := set_state ps1 next.toNat 1, current_process := next }
  else k

/-- The loop body of kmain that frees every slot:
`processes[i].pid = 0; processes[i].state = 2`. -/
def free_slot (ps : List Process) (i : Nat) : List Process :=
  ps.set i { ps.getD i default with pid := 0, state := 2 }

/-- The process set-up of `kmain`: every slot freed, the three sample units
created (their task addresses are parameters), slot 0 marked running. -/
def kmain_processes (task1 task2 user_task : Nat) (k : Kernel) : Kernel :=
  let k0 : Kernel := { k with processes := (List.range MAX_PROCESSES).foldl free_slot k.processes }
  let k1 := (create_process k0 task1 5 0).1
  let k2 := (create_process k1 task2 3 0).1
  let k3 := (create_process k2 user_task 2 3).1
  { k3 with processes := set_state k3.processes 0 1 }

/-- One call of a process-table operation, with arbitrary arguments. -/
inductive Step : Kernel → Kernel → Prop
  | create (k : Kernel) (task : Nat) (priority privilege : Int) :
      Step k (create_process k task priority privilege).1
  | kill (k : Kernel) (pid : Int) : Step k (kill_process k pid)
  | sched (k : Kernel) : Step k (schedule k)

/-- States reachable from `k0` by finitely many operations. -/
inductive Reach (k0 : Kernel) : Kernel → Prop
  | init : Reach k0 k0
  | step {k k' : Kernel} : Reach k0 k → Step k k' → Reach k0 k'

/-- The zero-filled process globals as `kmain` finds them, with `kernel_page_dir`
at 1 MB as `init_paging` sets it; the words of page-structure memory are taken
as zero. -/
def boot : Kernel :=
  { processes := List.replicate MAX_PROCESSES Process.zero, current_process := 0,
    schedule_flag := 0, kernel_page_dir := 0x100000, mem := fun _ => 0 }


/-! ## Virtual file system

`char` values are represented by their integer value.  A `const char*` argument
is the list of the bytes it points to; reading past the end of the list yields
the terminating NUL. -/

/-- The `Inode` record: `name` is `char name[32]`, `data` is `char data[128]`. -/
structure Inode where
  id : Int
  name : List Int
  size : Int
  used : Int
  data : List Int
deriving DecidableEq

/-- The `VFS_Mount` record. -/
structure VFS_Mount where
  device : List Int
  mount_point : List Int
  fs_type : List Int
  inodes_used : Int
  files : Int
  inodes : List Inode
deriving DecidableEq

/-- The `FileDescriptor` record. -/
structure FileDescriptor where
  inode_id : Int
  used : Int
  offset : Int
deriving DecidableEq

/-- The file-system globals `vfs`, `fds` and `vfs_initialized`. -/
structure VfsState where
  vfs : VFS_Mount
  fds : List FileDescriptor
  vfs_initialized : Int
deriving DecidableEq

instance : Inhabited Inode :=
  ⟨{ id := 0, name := List.replicate 32 0, size := 0, used := 0, data := List.replicate 128 0 }⟩

instance : Inhabited FileDescriptor := ⟨{ inode_id := 0, used := 0, offset := 0 }⟩

/-- Read of `vfs.inodes[i]`. -/
def VfsState.inode (s : VfsState) (i : Nat) : Inode := s.vfs.inodes.getD i default

/-- Read of `fds[j]`. -/
def VfsState.fd (s : VfsState) (j : Nat) : FileDescriptor := s.fds.getD j default

/-- Assignment to `vfs.inodes[i]`. -/
def VfsState.set_inode (s : VfsState) (i : Nat) (n : Inode) : VfsState :=
  { s with vfs := { s.vfs with inodes := s.vfs.inodes.set i n } }

/-- Assignment to `fds[j]`. -/
def VfsState.set_fd (s : VfsState) (j : Nat) (f : FileDescriptor) : VfsState :=
  { s with fds := s.fds.set j f }

/-- The loop of `custom_strcpy`, `i` bytes already copied. -/
def custom_strcpy_loop : List Int → Nat → List Int → List Int
  | [], i, dest => dest.set i 0
  | c :: src, i, dest =>
    if c ≠ 0 then custom_strcpy_loop src (i + 1) (dest.set i c) else dest.set i 0

/-- Function `custom_strcpy(dest, src)`. -/
def custom_strcpy (dest src : List Int) : List Int := custom_strcpy_loop src 0 dest

/-- Function `strcmp(s1, s2)`. -/
def strcmp : List Int → List Int → Int
  | [], [] => 0
  | [], b :: _ => 0 - b
  | a :: _, [] => a - 0
  | a :: s1, b :: s2 => if a ≠ 0 ∧ b ≠ 0 ∧ a = b then strcmp s1 s2 else a - b

/-- Body of the inode loop of `init_vfs`. -/
def init_inode (inodes : List Inode) (i : Nat) : List Inode :=
  let n := inodes.getD i default
  inodes.set i
    { n with
      used := 0, id := 0, size := 0,
      name := (List.range 32).foldl (fun nm j => nm.set j 0) n.name,
      data := (List.range 128).foldl (fun dt j => dt.set j 0) n.data }

/-- Body of the descriptor loop of `init_vfs`. -/
def init_fd (fds : List FileDescriptor) (i : Nat) : List FileDescriptor :=
  fds.set i { used := 0, inode_id := -1, offset := 0 }

/-- Function `init_vfs()`; the labels are "hda", "/" and "ext2". -/
def init_vfs (s : VfsState) : VfsState :=
  { vfs :=
      { device := custom_strcpy s.vfs.device [104, 100, 97],
        mount_point := custom_strcpy s.vfs.mount_point [47],
        fs_type := custom_strcpy s.vfs.fs_type [101, 120, 116, 50],
        inodes_used := 0,
        files := 0,
        inodes := (List.range MAX_INODES).foldl init_inode s.vfs.inodes },
    fds := (List.range MAX_FILES).foldl init_fd s.fds,
    vfs_initialized := 1 }

/-- The name-copy loop of `vfs_create_file`:
`while (name[j] && j < 31) { inode.name[j] = name[j]; j++; }`, returning the
buffer and the final `j`. -/
def copy_name (name : List Int) : Nat → Nat → List Int → List Int × Nat
  | 0, j, dest => (dest, j)
  | n + 1, j, dest =>
    if name.getD j 0 ≠ 0 ∧ j < 31 then copy_name name n (j + 1) (dest.set j (name.getD j 0))
    else (dest, j)

/-- The inode loop of `vfs_create_file`. -/
def vfs_create_file_loop (name : List Int) : Nat → Nat → VfsState → VfsState × Int
  | 0, _, s => (s, -1)
  | n + 1, i, s =>
    if (s.inode i).used = 0 then
      let r := copy_name name 32 0 (s.inode i).name
      let node : Inode :=
        { s.inode i with used := 1, id := (i : Int), name := r.1.set r.2 0, size := 0 }
      let s1 := s.set_inode i node
      ({ s1 with
          vfs := { s1.vfs with inodes_used := s1.vfs.inodes_used + 1, files := s1.vfs.files + 1 } },
        (i : Int))
    else vfs_create_file_loop name n (i + 1) s

/-- Function `vfs_create_file(name)`. -/
def vfs_create_file (s : VfsState) (name : List Int) : VfsState × Int :=
  if s.vfs_initialized = 0 then (s, -1)
  else if s.vfs.inodes_used ≥ (MAX_INODES : Int) then (s, -1)
  else vfs_create_file_loop name MAX_INODES 0 s

/-- The descriptor loop of `vfs_open_file`, entered once inode `i` matches. -/
def vfs_open_file_fds (i : Nat) : Nat → Nat → VfsState → VfsState × Int
  | 0, _, s => (s, -1)
  | n + 1, j, s =>
    if (s.fd j).used = 0 then
      (s.set_fd j { used := 1, inode_id := (i : Int), offset := 0 }, (j : Int))
    else vfs_open_file_fds i n (j + 1) s

/-- The inode loop of `vfs_open_file`. -/
def vfs_open_file_loop (name : List Int) : Nat → Nat → VfsState → VfsState × Int
  | 0, _, s => (s, -1)
  | n + 1, i, s =>
    if (s.inode i).used ≠ 0 ∧ strcmp (s.inode i).name name = 0 then
      vfs_open_file_fds i MAX_FILES 0 s
    else vfs_open_file_loop name n (i + 1) s

/-- Function `vfs_open_file(name)`. -/
def vfs_open_file (s : VfsState) (name : List Int) : VfsState × Int :=
  if s.vfs_initialized = 0 then (s, -1)
  else vfs_open_file_loop name MAX_INODES 0 s

/-- The copy loop of `vfs_read_file`:
`while (bytes < len && offset < inode->size && offset < 128)`; the state is
`(bytes, offset, buf)`. -/
def vfs_read_file_loop (inode : Inode) (len : Int) : Nat → Int → Int → List Int →
    Int × Int × List Int
  | 0, bytes, offset, buf => (bytes, offset, buf)
  | n + 1, bytes, offset, buf =>
    if bytes < len ∧ offset < inode.size ∧ offset < 128 then
      vfs_read_file_loop inode len n (bytes + 1) (offset + 1)
        (buf.set bytes.toNat (inode.data.getD offset.toNat 0))
    else (bytes, offset, buf)

/-- Function `vfs_read_file(fd, buf, len)`: the globals, the caller's buffer and the return
value.  The loop guard `offset < 128` bounds the iterations by `128 - offset`. -/
def vfs_read_file (s : VfsState) (fd : Int) (buf : List Int) (len : Int) :
    VfsState × List Int × Int :=
  if s.vfs_initialized = 0 then (s, buf, -1)
  else if fd < 0 ∨ fd ≥ (MAX_FILES : Int) ∨ (s.fd fd.toNat).used = 0 then (s, buf, -1)
  else
    let inode := s.inode (s.fd fd.toNat).inode_id.toNat
    if inode.used = 0 then (s, buf, -1)
    else if inode.size = 0 ∨ (s.fd fd.toNat).offset ≥ inode.size then (s, buf, 0)
    else
      let r := vfs_read_file_loop inode len (128 - (s.fd fd.toNat).offset).toNat 0
        (s.fd fd.toNat).offset buf
      (s.set_fd fd.toNat { s.fd fd.toNat with offset := r.2.1 }, r.2.2, r.1)

/-- The copy loop of `vfs_write_file`: `while (bytes < len && offset < 128)`; the
state is `(bytes, offset, data)`. -/
def vfs_write_file_loop (buf : List Int) (len : Int) : Nat → Int → Int → List Int →
    Int × Int × List Int
  | 0, bytes, offset, data => (bytes, offset, data)
  | n + 1, bytes, offset, data =>
    if bytes < len ∧ offset < 128 then
      vfs_write_file_loop buf len n (bytes + 1) (offset + 1)
        (data.set offset.toNat (buf.getD bytes.toNat 0))
    else (bytes, offset, data)

/-- Function `vfs_write_file(fd, buf, len)`. -/
def vfs_write_file (s : VfsState) (fd : Int) (buf : List Int) (len : Int) : VfsState × Int :=
  if s.vfs_initialized = 0 then (s, -1)
  else if fd < 0 ∨ fd ≥ (MAX_FILES : Int) ∨ (s.fd fd.toNat).used = 0 then (s, -1)
  else
    let id := (s.fd fd.toNat).inode_id.toNat
    let inode := s.inode id
    if inode.used = 0 then (s, -1)
    else
      let r := vfs_write_file_loop buf len (128 - (s.fd fd.toNat).offset).toNat 0
        (s.fd fd.toNat).offset inode.data
      let size := if r.2.1 > inode.size then r.2.1 else inode.size
      let s1 := s.set_fd fd.toNat { s.fd fd.toNat with offset := r.2.1 }
      (s1.set_inode id { inode with data := r.2.2, size := size }, r.1)

/-- Function `vfs_close_file(fd)`. -/
def vfs_close_file (s : VfsState) (fd : Int) : VfsState :=
  if s.vfs_initialized = 0 then s
  else if fd ≥ 0 ∧ fd < (MAX_FILES : Int) ∧ (s.fd fd.toNat).used ≠ 0 then
    s.set_fd fd.toNat { used := 0, inode_id := -1, offset := 0 }
  else s

/-- The name loop of `vfs_list_files`:
`while (name[j] && j < 31 && pos < 255) { c = name[j]; if (c >= 32 && c <= 126) buf[pos++] = c; j++; }`,
returning `pos` and the buffer. -/
def vfs_list_files_name (name : List Int) : Nat → Nat → Nat → List Int → Nat × List Int
  | 0, _, pos, buf => (pos, buf)
  | n + 1, j, pos, buf =>
    if name.getD j 0 ≠ 0 ∧ j < 31 ∧ pos < 255 then
      if name.getD j 0 ≥ 32 ∧ name.getD j 0 ≤ 126 then
        vfs_list_files_name name n (j + 1) (pos + 1) (buf.set pos (name.getD j 0))
      else vfs_list_files_name name n (j + 1) pos buf
    else (pos, buf)

/-- Body of the inode loop of `vfs_list_files`, on the pair `(pos, buf)`; 32 is the
space character. -/
def vfs_list_files_inode (s : VfsState) (st : Nat × List Int) (i : Nat) : Nat × List Int :=
  if (s.inode i).used ≠ 0 then
    let r := vfs_list_files_name (s.inode i).name 32 0 st.1 st.2
    if r.1 < 255 then (r.1 + 1, r.2.set r.1 32) else r
  else st

/-- Function `vfs_list_files(buf, len)`: the caller's buffer afterwards and the
value stored in `*len`. -/
def vfs_list_files (s : VfsState) (buf : List Int) : List Int × Int :=
  if s.vfs_initialized = 0 then (buf.set 0 0, 0)
  else
    let r := (List.range MAX_INODES).foldl (vfs_list_files_inode s) (0, buf)
    (r.2.set r.1 0, (r.1 : Int))

/-- The zero-filled file-system globals, as they are before `init_vfs` runs. -/
def vfs_bss : VfsState :=
  { vfs :=
      { device := List.replicate 16 0, mount_point := List.replicate 16 0,
        fs_type := List.replicate 16 0, inodes_used := 0, files := 0,
        inodes := List.replicate MAX_INODES default },
    fds := List.replicate MAX_FILES default,
    vfs_initialized := 0 }

/-- One file-system call that can change the globals, with arbitrary arguments
(`vfs_list_files` writes only to its caller's buffers). -/
inductive VStep : VfsState → VfsState → Prop
  | create (s : VfsState) (name : List Int) : VStep s (vfs_create_file s name).1
  | open_ (s : VfsState) (name : List Int) : VStep s (vfs_open_file s name).1
  | read (s : VfsState) (fd : Int) (buf : List Int) (len : Int) :
      VStep s (vfs_read_file s fd buf len).1
  | write (s : VfsState) (fd : Int) (buf : List Int) (len : Int) :
      VStep s (vfs_write_file s fd buf len).1
  | close (s : VfsState) (fd : Int) : VStep s (vfs_close_file s fd)

/-- States reachable from `init_vfs()` on the zero-filled globals. -/
inductive VReach : VfsState → Prop
  | init : VReach (init_vfs vfs_bss)
  | step {s s' : VfsState} : VReach s → VStep s s' → VReach s'


/-! ## Address-space bootstrap -/

/-- Body `page_table[i] = (i * PAGE_SIZE) | 0x3` of the second loop of `init_paging`. -/
def kernel_entry (base : Nat) (m : Nat → Nat) (i : Nat) : Nat → Nat :=
  Function.update m (base + 4 * i) ((i * PAGE_SIZE) ||| 0x3)

/-- Function `init_paging()`: the directory at 0x100000, the table at 0x101000, the
two directory entries and the entry of the VGA frame.  It reads no global; the
loads of `cr3` and `cr0` that end it are outside the model. -/
def init_paging (k : Kernel) : Kernel :=
  let kernel_page_dir : Nat := 0x100000
  let m1 := (List.range 1024).foldl (zero_entry kernel_page_dir) k.mem
  let page_table : Nat := 0x101000
  let m2 := (List.range 1024).foldl (kernel_entry page_table) m1
  let m3 := Function.update m2 (kernel_page_dir + 4 * 0) (page_table ||| 0x3)
  let m4 := Function.update m3 (kernel_page_dir + 4 * 768) (page_table ||| 0x3)
  let vga_addr : Nat := 0xB8000
  let pt_index : Nat := vga_addr / PAGE_SIZE
  let m5 := Function.update m4 (page_table + 4 * pt_index) (vga_addr ||| 0x3)
  { k with kernel_page_dir := kernel_page_dir, mem := m5 }

/-! ## Control-transfer table -/

/-- The addresses of the five assembly entry points that `setup_idt` installs
(kernel.c declares them and takes their addresses as `unsigned int`). -/
structure Handlers where
  default_handler_wrapper : Nat
  timer_handler_wrapper : Nat
  keyboard_handler_wrapper : Nat
  double_fault_handler_wrapper : Nat
  syscall_handler_wrapper : Nat

/-- Body of the loop of `setup_idt`:
`idt[i * 2] = (handler & 0xFFFF) | (0x08 << 16); idt[i * 2 + 1] = (handler & 0xFFFF0000) | 0x8E00`. -/
def idt_default (handler : Nat) (idt : Nat → Nat) (i : Nat) : Nat → Nat :=
  Function.update (Function.update idt (i * 2) ((handler &&& 0xFFFF) ||| (0x08 <<< 16)))
    (i * 2 + 1) ((handler &&& 0xFFFF0000) ||| 0x8E00)

/-- The table part of `setup_idt()`: `idt j` is the word `idt[j]` of the array at
0x10000.  The `lidt` and the programming of the interrupt controllers that
follow are port and register operations outside the model. -/
def setup_idt (h : Handlers) (idt : Nat → Nat) : Nat → Nat :=
  let idt0 := (List.range 256).foldl (idt_default h.default_handler_wrapper) idt
  let df_addr := h.double_fault_handler_wrapper
  let idt1 := Function.update idt0 (0x08 * 2) ((df_addr &&& 0xFFFF) ||| (0x08 <<< 16))
  let idt2 := Function.update idt1 (0x08 * 2 + 1) ((df_addr &&& 0xFFFF0000) ||| 0x8E00)
  let timer_addr := h.timer_handler_wrapper
  let idt3 := Function.update idt2 (0x20 * 2) ((timer_addr &&& 0xFFFF) ||| (0x08 <<< 16))
  let idt4 := Function.update idt3 (0x20 * 2 + 1) ((timer_addr &&& 0xFFFF0000) ||| 0x8E00)
  let kb_addr := h.keyboard_handler_wrapper
  let idt5 := Function.update idt4 (0x21 * 2) ((kb_addr &&& 0xFFFF) ||| (0x08 <<< 16))
  let idt6 := Function.update idt5 (0x21 * 2 + 1) ((kb_addr &&& 0xFFFF0000) ||| 0x8E00)
  let syscall_addr := h.syscall_handler_wrapper
  let idt7 := Function.update idt6 (0x80 * 2) ((syscall_addr &&& 0xFFFF) ||| (0x08 <<< 16))
  Function.update idt7 (0x80 * 2 + 1) ((syscall_addr &&& 0xFFFF0000) ||| 0xEE00)

/-! ## Syscall gate -/

def SYS_WRITE : Nat := 1
def SYS_OPEN : Nat := 2
def SYS_EXIT : Nat := 3
def SYS_PS : Nat := 4
def SYS_KILL : Nat := 5
def SYS_READ : Nat := 6
def SYS_CLOSE : Nat := 7
def SYS_CREATE : Nat := 8
def SYS_LS : Nat := 9

/-- Conversion of an `unsigned int` argument to the `int` parameter it is passed
for (two's complement, 32 bits). -/
def to_int (n : Nat) : Int := if n < 2 ^ 31 then (n : Int) else (n : Int) - 2 ^ 32

/-- What `syscall_handler` reads and writes besides the registers: the process
globals, the file-system globals and the caller's memory, where `chars p` is the
`char` array that the pointer value `p` designates and `ints p` the `int` at `p`. -/
structure Machine where
  kernel : Kernel
  fs : VfsState
  chars : Nat → List Int
  ints : Nat → Int

/-- The general-purpose registers: those the entry asm of `syscall_handler` reads and
those the compiler can give to an `"=r"` operand. -/
inductive Reg where
  | eax
  | ebx
  | ecx
  | edx
  | esi
  | edi
deriving DecidableEq

/-- The entry asm of `syscall_handler`,
`mov %%eax, %0; mov %%ebx, %1; mov %%ecx, %2; mov %%edx, %3`, run on the register
file `regs` when the compiler has given the registers `o0`, `o1`, `o2`, `o3` to
the four output operands.  No output is marked early-clobber, so an output may be
a register that a later instruction of the asm still reads.  The result is the
values of `syscall_num`, `arg1`, `arg2`, `arg3`. -/
def read_registers (regs : Reg → Nat) (o0 o1 o2 o3 : Reg) : Nat × Nat × Nat × Nat :=
  let r1 := Function.update regs o0 (regs Reg.eax)
  let r2 := Function.update r1 o1 (r1 Reg.ebx)
  let r3 := Function.update r2 o2 (r2 Reg.ecx)
  let r4 := Function.update r3 o3 (r3 Reg.edx)
  (r4 o0, r4 o1, r4 o2, r4 o3)

/-- The loop of the `SYS_PS` case: `if (processes[i].pid) result++`. -/
def count_live (k : Kernel) (result : Int) (i : Nat) : Int :=
  if (k.proc i).pid ≠ 0 then result + 1 else result

/-- The `switch` of `syscall_handler` on the four values read at entry: the globals
and the caller's memory afterwards, and the value of the variable `result`.
`print_string` writes to the display only. -/
def syscall_dispatch (m : Machine) (syscall_num arg1 arg2 arg3 : Nat) : Machine × Int :=
  let result : Int := 0
  if syscall_num = SYS_WRITE then (m, result)
  else if syscall_num = SYS_OPEN then
    let r := vfs_open_file m.fs (m.chars arg1)
    ({ m with fs := r.1 }, r.2)
  else if syscall_num = SYS_READ then
    let r := vfs_read_file m.fs (to_int arg1) (m.chars arg2) (to_int arg3)
    ({ m with fs := r.1, chars := Function.update m.chars arg2 r.2.1 }, r.2.2)
  else if syscall_num = SYS_CLOSE then
    ({ m with fs := vfs_close_file m.fs (to_int arg1) }, result)
  else if syscall_num = SYS_CREATE then
    let r := vfs_create_file m.fs (m.chars arg1)
    ({ m with fs := r.1 }, r.2)
  else if syscall_num = SYS_LS then
    let r := vfs_list_files m.fs (m.chars arg1)
    ({ m with
        chars := Function.update m.chars arg1 r.1,
        ints := Function.update m.ints arg2 r.2 },
      result)
  else if syscall_num = SYS_PS then
    (m, (List.range MAX_PROCESSES).foldl (count_live m.kernel) 0)
  else if syscall_num = SYS_KILL then
    ({ m with kernel := kill_process m.kernel (to_int arg1) }, result)
  else if syscall_num = SYS_EXIT then
    ({ m with
        kernel :=
          kill_process m.kernel (m.kernel.proc m.kernel.current_process.toNat).pid },
      result)
  else (m, result)

/-- Function `syscall_handler()` entered with the register file `regs`, the compiler
having given `o0..o3` to the outputs of the entry asm: the globals and the
caller's memory afterwards, and the content of eax when the function returns.
After the `switch`, `mov %0, %%eax` stores `result` in eax as a 32-bit word, and
the end-of-interrupt sequence `mov $0x20, %%al; out %%al, $0x20` then replaces
the low byte of eax by 0x20 (the port write itself is outside the model). -/
def syscall_handler (m : Machine) (regs : Reg → Nat) (o0 o1 o2 o3 : Reg) : Machine × Nat :=
  let a := read_registers regs o0 o1 o2 o3
  let r := syscall_dispatch m a.1 a.2.1 a.2.2.1 a.2.2.2
  let eax : Nat := (r.2 % 2 ^ 32).toNat
  (r.1, eax / 256 * 256 + 0x20)

/-! ## File-system calls, `vfs_list_files` included -/

/-- One file-system call, `vfs_list_files` included: it reads the globals and
writes only to its caller's buffers, so the globals stay as they are. -/
inductive VCall : VfsState → VfsState → Prop
  | op {s s' : VfsState} : VStep s s' → VCall s s'
  | list (s : VfsState) (buf : List Int) : VCall s s

/-- States reachable from `init_vfs()` on the zero-filled globals by any sequence
of the six file-system calls. -/
inductive VReachAll : VfsState → Prop
  | init : VReachAll (init_vfs vfs_bss)
  | step {s s' : VfsState} : VReachAll s → VCall s s' → VReachAll s'

/-! ## Predicates and sample tables used to state the properties -/

/-- Invariant of the scan of `schedule` after the slots below `i` are examined. -/
def ScanInv (ps : List Process) (i : Nat) (next m : Int) : Prop :=
  (next = -1 ∧ m = -1 ∧
    ∀ j < i, (ps.getD j default).state = 0 → (ps.getD j default).priority ≤ -1) ∨
  (∃ x : Nat, next = x ∧ x < i ∧ (ps.getD x default).state = 0 ∧
    (ps.getD x default).priority = m ∧ -1 < m ∧
    (∀ j < i, (ps.getD j default).state = 0 → (ps.getD j default).priority ≤ m) ∧
    (∀ j < x, (ps.getD j default).state = 0 → (ps.getD j default).priority < m))

/-- The value `next` that `schedule` computes. -/
def pick (k : Kernel) : Int := schedule_scan k.processes MAX_PROCESSES 0 (-1) (-1)

/-- The record `create_process` leaves in slot `i`. -/
def created_slot (k : Kernel) (i : Nat) (task : Nat) (priority privilege : Int) : Process :=
  { k.proc i with
    task := task, state := 0, pid := (i : Int) + 1, priority := priority, privilege := privilege,
    user_stack := if privilege = 3 then USER_BASE + PAGE_SIZE * 2 else 0,
    page_dir := if privilege = 3 then (create_user_page_dir k).2 else k.kernel_page_dir }

/-- Number of free slots (`pid == 0`). -/
def free_count (k : Kernel) : Nat := k.processes.countP (fun p => p.pid = 0)

/-- The table `kmain` builds from the zero-filled globals, with sample task
addresses 1, 2, 3: pids 1, 2, 3 with priorities 5, 3, 2 at slots 0, 1, 2, slot 0
running. -/
def kmain_state : Kernel := kmain_processes 1 2 3 boot

/-- A table given by the `(pid, state, priority)` of its slots, with active index `cur`. -/
def table (l : List (Int × Int × Int)) (cur : Int) : Kernel :=
  { boot with
    processes :=
      l.map (fun e => { Process.zero with pid := e.1, state := e.2.1, priority := e.2.2 }),
    current_process := cur }

/-- Ready units of priorities 5, 3, 2 at slots 0, 1, 2; slot 2 active. -/
def table_532 : Kernel :=
  table [(1, 0, 5), (2, 0, 3), (3, 0, 2), (0, 2, 0), (0, 2, 0), (0, 2, 0), (0, 2, 0), (0, 2, 0)] 2

/-- Ready units of equal priority 5 at slots 1 and 2; slot 0 active. -/
def table_55 : Kernel :=
  table [(1, 1, 1), (2, 0, 5), (3, 0, 5), (0, 2, 0), (0, 2, 0), (0, 2, 0), (0, 2, 0), (0, 2, 0)] 0

/-- A full table: pids 1..8, slot 0 running. -/
def table_full : Kernel :=
  table [(1, 1, 5), (2, 0, 3), (3, 0, 2), (4, 0, 1), (5, 0, 1), (6, 0, 1), (7, 0, 1), (8, 0, 1)] 0

/-- The table after every unit of `kmain_state` has been killed (pids 2, 3, then
the active pid 1), the main loop has cleared `schedule_flag` and `schedule()`
has run: every slot free, slot 0 still the active index. -/
def all_killed : Kernel :=
  schedule
    { kill_process (kill_process (kill_process kmain_state 2) 3) 1 with schedule_flag := 0 }

/-- Running slots are the active one. -/
def RunningInv (k : Kernel) : Prop :=
  ∀ i, (k.proc i).state = 1 → (i : Int) = k.current_process

/-- Every pid field is 0 or the slot index plus one. -/
def PidInv (k : Kernel) : Prop :=
  k.processes.length = MAX_PROCESSES ∧
  ∀ i, (k.proc i).pid = 0 ∨ (k.proc i).pid = (i : Int) + 1

/-- Calls `create_process` once per argument triple, in order, and returns the final
globals and the list of return values. -/
def create_all (k : Kernel) : List (Nat × Int × Int) → Kernel × List Int
  | [] => (k, [])
  | a :: as =>
    let r := create_process k a.1 a.2.1 a.2.2
    let r' := create_all r.1 as
    (r'.1, r.2 :: r'.2)

/-- The first `m` slots hold pids `1..m`, the remaining slots are free. -/
def Filled (m : Nat) (k : Kernel) : Prop :=
  k.processes.length = MAX_PROCESSES ∧ (∀ j, j < m → (k.proc j).pid = (j : Int) + 1) ∧
  (∀ j, m ≤ j → j < MAX_PROCESSES → (k.proc j).pid = 0)

/-- The table right after the loop of `kmain` that frees every slot. -/
def free_table : Kernel :=
  { boot with processes := (List.range MAX_PROCESSES).foldl free_slot boot.processes }

/-! ## Predicates used to state the file-system properties -/

/-- The C string held in a buffer: the bytes before the first NUL. -/
def c_string : List Int → List Int
  | [] => []
  | c :: cs => if c = 0 then [] else c :: c_string cs

/-- The globals after `vfs_create_file` has claimed inode `x` for `name`. -/
def created (s : VfsState) (x : Nat) (name : List Int) : VfsState :=
  let r := copy_name name 32 0 (s.inode x).name
  let s1 := s.set_inode x
    { s.inode x with used := 1, id := (x : Int), name := r.1.set r.2 0, size := 0 }
  { s1 with
    vfs := { s1.vfs with inodes_used := s1.vfs.inodes_used + 1, files := s1.vfs.files + 1 } }

/-- Shape of the file-system globals: initialised, tables and buffers of their
declared sizes, and `inodes_used` counting the used inodes. -/
def VfsWF (s : VfsState) : Prop :=
  s.vfs_initialized = 1 ∧ s.vfs.inodes.length = MAX_INODES ∧ s.fds.length = MAX_FILES ∧
  (∀ n ∈ s.vfs.inodes, n.name.length = 32 ∧ n.data.length = 128) ∧
  s.vfs.inodes_used = ((s.vfs.inodes.countP (fun n => n.used ≠ 0) : Nat) : Int)

/-- The values observed along create, open, write, close, open, read. -/
structure RoundTrip where
  inode_id : Int
  fd : Int
  written : Int
  size_after_write : Int
  fd2 : Int
  read : Int
  buf : List Int
deriving DecidableEq

/-- The call sequence `vfs_create_file(name); fd = vfs_open_file(name);
vfs_write_file(fd, d, n); vfs_close_file(fd); fd2 = vfs_open_file(name);
vfs_read_file(fd2, buf, n)` with `n` the length of `d`. -/
def round_trip (s : VfsState) (name d buf : List Int) : RoundTrip :=
  let c := vfs_create_file s name
  let o1 := vfs_open_file c.1 name
  let w := vfs_write_file o1.1 o1.2 d d.length
  let s4 := vfs_close_file w.1 o1.2
  let o2 := vfs_open_file s4 name
  let r := vfs_read_file o2.1 o2.2 buf d.length
  { inode_id := c.2, fd := o1.2, written := w.2, size_after_write := (w.1.inode c.2.toNat).size,
    fd2 := o2.2, read := r.2.2, buf := r.2.1 }

/-- The file system right after `init_vfs()`, then with file "f" created, then
with "f" opened (descriptor 0), then with "abc" written through descriptor 0. -/
def vfs_abc : VfsState :=
  (vfs_write_file
    (vfs_open_file (vfs_create_file (init_vfs vfs_bss) [102]).1 [102]).1 0 [97, 98, 99] 3).1

/-- Eight files "a".."h" created after `init_vfs()`: every inode used. -/
def vfs_full_inodes : VfsState :=
  [97, 98, 99, 100, 101, 102, 103, 104].foldl (fun s c => (vfs_create_file s [c]).1)
    (init_vfs vfs_bss)

/-- File "f" created and opened `MAX_FILES` times: every descriptor used. -/
def vfs_full_fds : VfsState :=
  (List.range MAX_FILES).foldl (fun s _ => (vfs_open_file s [102]).1)
    (vfs_create_file (init_vfs vfs_bss) [102]).1

/-- The tables and buffers have their declared sizes. -/
def VfsShape (s : VfsState) : Prop :=
  s.vfs.inodes.length = MAX_INODES ∧ s.fds.length = MAX_FILES ∧
  ∀ n ∈ s.vfs.inodes, n.name.length = 32 ∧ n.data.length = 128

/-- Descriptor `y` is in range and used, bound by a valid index to a used inode,
with a non-negative offset. -/
def DescOK (s : VfsState) (y : Nat) : Prop :=
  y < MAX_FILES ∧ (s.fd y).used ≠ 0 ∧ 0 ≤ (s.fd y).inode_id ∧
  (s.fd y).inode_id < (MAX_INODES : Int) ∧ (s.inode (s.fd y).inode_id.toNat).used ≠ 0 ∧
  0 ≤ (s.fd y).offset

/-- The state `vfs_abc` after "f" is opened a second time: descriptor 0 at offset
3 and descriptor 1 at offset 0, both bound to inode 0 (size 3, data "abc"). -/
def vfs_abc_two : VfsState := (vfs_open_file vfs_abc [102]).1

/-- The file system after `init_vfs()` and the creation of file "f": no
descriptor is used. -/
def vfs_f : VfsState := (vfs_create_file (init_vfs vfs_bss) [102]).1

/-- Printable bytes, 32..126. -/
def printable (c : Int) : Bool := decide (32 ≤ c ∧ c ≤ 126)

/-- What inode `i` contributes to the listing: nothing when unused, else the
printable bytes of its name and one space. -/
def listing_entry (s : VfsState) (i : Nat) : List Int :=
  if (s.inode i).used ≠ 0 then (c_string (s.inode i).name).filter printable ++ [32] else []

/-- Concatenation of the entries of the inodes `is`, in order. -/
def listing_of (s : VfsState) : List Nat → List Int
  | [] => []
  | i :: is => listing_entry s i ++ listing_of s is

/-- The untruncated listing: the entries of inodes 0..MAX_INODES-1 in slot order. -/
def listing (s : VfsState) : List Int := listing_of s (List.range MAX_INODES)

/-- The output cursor: `out` has been produced so far into a buffer that started
as `buf0`, of which at most 255 bytes were stored. -/
def Emitted (buf0 out : List Int) (pos : Nat) (buf : List Int) : Prop :=
  pos = min 255 out.length ∧ buf.length = buf0.length ∧
  ∀ idx, buf.getD idx 0 = if idx < pos then out.getD idx 0 else buf0.getD idx 0

/-- Every stored name has its NUL within the first 32 bytes. -/
def NameInv (s : VfsState) : Prop :=
  ∀ n ∈ s.vfs.inodes, (c_string n.name).length ≤ 31

/-- Eight files with 31-byte names "aaa...a", "bbb...b", ..., "hhh...h". -/
def vfs_long_names : VfsState :=
  [97, 98, 99, 100, 101, 102, 103, 104].foldl
    (fun s c => (vfs_create_file s (List.replicate 31 c)).1) (init_vfs vfs_bss)


/-! ## Predicates and sample states for the scheduler, the file-system invariants,
the page structures and the gates -/

/-- The active index designates a slot of the table. -/
def CurInv (k : Kernel) : Prop :=
  0 ≤ k.current_process ∧ k.current_process < (MAX_PROCESSES : Int)

/-- A table whose only Ready unit (slot 1) has priority -1; slot 0 is running. -/
def table_negative : Kernel :=
  table [(1, 1, 0), (2, 0, -1), (0, 2, 0), (0, 2, 0), (0, 2, 0), (0, 2, 0), (0, 2, 0), (0, 2, 0)] 0

/-- No two used inodes hold the same name (compared as C strings). -/
def NamesUnique (s : VfsState) : Prop :=
  ∀ i j, i < MAX_INODES → j < MAX_INODES → (s.inode i).used ≠ 0 → (s.inode j).used ≠ 0 →
    c_string (s.inode i).name = c_string (s.inode j).name → i = j

/-- No used inode holds the first 31 bytes of `name`, the form in which
`vfs_create_file` stores it. -/
def Fresh (s : VfsState) (name : List Int) : Prop :=
  ∀ i, i < MAX_INODES → (s.inode i).used ≠ 0 →
    c_string (s.inode i).name ≠ (c_string name).take 31

/-- States reachable from `init_vfs()` by file-system calls among which every
`vfs_create_file(name)` is made while `name` is fresh. -/
inductive VReachFresh : VfsState → Prop
  | init : VReachFresh (init_vfs vfs_bss)
  | create {s : VfsState} (name : List Int) :
      VReachFresh s → Fresh s name → VReachFresh (vfs_create_file s name).1
  | open_ {s : VfsState} (name : List Int) : VReachFresh s → VReachFresh (vfs_open_file s name).1
  | read {s : VfsState} (fd : Int) (buf : List Int) (len : Int) :
      VReachFresh s → VReachFresh (vfs_read_file s fd buf len).1
  | write {s : VfsState} (fd : Int) (buf : List Int) (len : Int) :
      VReachFresh s → VReachFresh (vfs_write_file s fd buf len).1
  | close {s : VfsState} (fd : Int) : VReachFresh s → VReachFresh (vfs_close_file s fd)
  | list {s : VfsState} (buf : List Int) : VReachFresh s → VReachFresh s

/-- File "f" created twice after `init_vfs()`. -/
def vfs_two_f : VfsState :=
  (vfs_create_file (vfs_create_file (init_vfs vfs_bss) [102]).1 [102]).1

/-- Files "f" and "g" created after `init_vfs()`. -/
def vfs_f_g : VfsState :=
  (vfs_create_file (vfs_create_file (init_vfs vfs_bss) [102]).1 [103]).1

/-- Well-formedness of the inode and descriptor tables: every size is within the
capacity of `data`, and every used descriptor is bound by a valid index to a
used inode, with its offset inside that inode's valid bytes. -/
def DescInv (s : VfsState) : Prop :=
  (∀ i, 0 ≤ (s.inode i).size ∧ (s.inode i).size ≤ 128) ∧
  ∀ y, y < MAX_FILES → (s.fd y).used ≠ 0 →
    0 ≤ (s.fd y).inode_id ∧ (s.fd y).inode_id < (MAX_INODES : Int) ∧
    (s.inode (s.fd y).inode_id.toNat).used ≠ 0 ∧
    0 ≤ (s.fd y).offset ∧ (s.fd y).offset ≤ (s.inode (s.fd y).inode_id.toNat).size

/-- The memory after the two loops of `create_user_page_dir` and its store to
`page_dir[0]`, started on memory `m`. -/
def user_tables (m : Nat → Nat) : Nat → Nat :=
  Function.update
    ((List.range 1024).foldl (user_entry 0x201000) ((List.range 1024).foldl (zero_entry 0x200000) m))
    (0x200000 + 4 * 0) (0x201000 ||| 0x7)

/-- Every slot marked as a user unit holds the directory address 0x200000. -/
def PageDirInv (k : Kernel) : Prop :=
  ∀ i, (k.proc i).privilege = 3 → (k.proc i).page_dir = 0x200000

/-- The kmain table with one more user unit created (task address 4, priority 1). -/
def kmain_two_users : Kernel := (create_process kmain_state 4 1 3).1

/-- The handler the table is meant to hold for vector `v`. -/
def handler_of (h : Handlers) (v : Nat) : Nat :=
  if v = 0x08 then h.double_fault_handler_wrapper
  else if v = 0x20 then h.timer_handler_wrapper
  else if v = 0x21 then h.keyboard_handler_wrapper
  else if v = 0x80 then h.syscall_handler_wrapper
  else h.default_handler_wrapper

/-- The type and privilege bits of the gate of vector `v`. -/
def gate_flags (v : Nat) : Nat := if v = 0x80 then 0xEE00 else 0x8E00

/-- Sample entry points at distinct 32-bit addresses. -/
def sample_handlers : Handlers :=
  { default_handler_wrapper := 0x00101234, timer_handler_wrapper := 0x00102468,
    keyboard_handler_wrapper := 0x0010369C, double_fault_handler_wrapper := 0x001048D0,
    syscall_handler_wrapper := 0xC0105B04 }

/-- The kmain table together with the file system right after `init_vfs()`. -/
def kmain_machine : Machine :=
  { kernel := kmain_state, fs := init_vfs vfs_bss, chars := fun _ => [], ints := fun _ => 0 }

/-- A register file at the trap `int $0x80` with eax = 3 (`SYS_EXIT`) and the
other registers zero. -/
def exit_regs : Reg → Nat := fun r => if r = Reg.eax then SYS_EXIT else 0

/-! ## Lemmas on array reads and writes -/

theorem getD_set_eq {α : Type} (l : List α) (i : Nat) (a d : α) (h : i < l.length) :
    (l.set i a).getD i d = a := by
  simp [List.getD_eq_getElem?_getD, List.getElem?_set, h]

theorem getD_set_ne {α : Type} (l : List α) (i j : Nat) (a d : α) (h : i ≠ j) :
    (l.set i a).getD j d = l.getD j d := by
  simp [List.getD_eq_getElem?_getD, List.getElem?_set, h]

theorem getD_set {α : Type} (l : List α) (i j : Nat) (a d : α) :
    (l.set i a).getD j d = if i = j ∧ i < l.length then a else l.getD j d := by
  by_cases h : i = j
  · subst h
    by_cases hl : i < l.length
    · simp [getD_set_eq, hl]
    · simp [hl, List.set_eq_of_length_le (Nat.le_of_not_lt hl)]
  · simp [h, getD_set_ne]

/-! ## The scan of `schedule` -/

theorem schedule_scan_inv (ps : List Process) (n : Nat) :
    ∀ (i : Nat) (next m : Int), ScanInv ps i next m →
      ∃ m', ScanInv ps (i + n) (schedule_scan ps n i next m) m' := by
  induction n with
  | zero => intro i next m h; exact ⟨m, by simpa [schedule_scan] using h⟩
  | succ n ih =>
    intro i next m h
    simp only [schedule_scan]
    have e : i + (n + 1) = (i + 1) + n := by omega
    rw [e]
    split_ifs with hc
    · apply ih
      right
      refine ⟨i, rfl, by omega, hc.1, rfl, ?_, ?_, ?_⟩
      · rcases h with ⟨_, hm, _⟩ | ⟨x, _, _, _, _, hm, _, _⟩ <;> omega
      · intro j hj hs
        rcases Nat.lt_succ_iff_lt_or_eq.mp hj with hlt | heq
        · rcases h with ⟨_, hm, hall⟩ | ⟨x, _, _, _, _, _, hall, _⟩
          · have := hall j hlt hs; omega
          · have := hall j hlt hs; omega
        · subst heq; exact le_refl _
      · intro j hj hs
        rcases h with ⟨_, hm, hall⟩ | ⟨x, _, _, _, _, _, hall, _⟩
        · have := hall j hj hs; omega
        · have := hall j hj hs; omega
    · apply ih
      have hc' : (ps.getD i default).state = 0 → (ps.getD i default).priority ≤ m := by
        intro hs
        by_contra hlt
        exact hc ⟨hs, by omega⟩
      rcases h with ⟨hn, hm, hall⟩ | ⟨x, hx, hxi, hxs, hxp, hm, hall, hlow⟩
      · left
        refine ⟨hn, hm, ?_⟩
        intro j hj hs
        rcases Nat.lt_succ_iff_lt_or_eq.mp hj with hlt | heq
        · exact hall j hlt hs
        · subst heq; have := hc' hs; omega
      · right
        refine ⟨x, hx, by omega, hxs, hxp, hm, ?_, hlow⟩
        intro j hj hs
        rcases Nat.lt_succ_iff_lt_or_eq.mp hj with hlt | heq
        · exact hall j hlt hs
        · subst heq; exact hc' hs

theorem pick_spec (k : Kernel) :
    (pick k = -1 ∧ ∀ j < MAX_PROCESSES, (k.proc j).state = 0 → (k.proc j).priority ≤ -1) ∨
    (∃ x : Nat, pick k = x ∧ x < MAX_PROCESSES ∧ (k.proc x).state = 0 ∧ -1 < (k.proc x).priority ∧
      (∀ j < MAX_PROCESSES, (k.proc j).state = 0 → (k.proc j).priority ≤ (k.proc x).priority) ∧
      (∀ j < x, (k.proc j).state = 0 → (k.proc j).priority < (k.proc x).priority)) := by
  have h0 : ScanInv k.processes 0 (-1) (-1) := Or.inl ⟨rfl, rfl, by intro j hj; omega⟩
  obtain ⟨m', h⟩ := schedule_scan_inv k.processes MAX_PROCESSES 0 (-1) (-1) h0
  simp only [Nat.zero_add] at h
  rcases h with ⟨hn, _, hall⟩ | ⟨x, hx, hxi, hxs, hxp, hm, hall, hlow⟩
  · exact Or.inl ⟨hn, hall⟩
  · right
    refine ⟨x, hx, hxi, hxs, by simp only [Kernel.proc]; omega, ?_, ?_⟩
    · intro j hj hs; simp only [Kernel.proc] at hs ⊢; rw [hxp]; exact hall j hj hs
    · intro j hj hs; simp only [Kernel.proc] at hs ⊢; rw [hxp]; exact hlow j hj hs

theorem schedule_noswitch (k : Kernel) (h : pick k = -1 ∨ pick k = k.current_process) :
    schedule k = k := by
  unfold schedule
  simp only [pick] at h
  rw [if_neg]
  rintro ⟨h1, h2⟩
  rcases h with h | h
  · exact h1 h
  · exact h2 h

theorem schedule_switch (k : Kernel) (h1 : pick k ≠ -1) (h2 : pick k ≠ k.current_process) :
    schedule k =
      { k with
        processes := set_state (set_state k.processes k.current_process.toNat 0) (pick k).toNat 1,
        current_process := pick k } := by
  unfold schedule
  simp only [pick] at h1 h2 ⊢
  rw [if_pos ⟨h1, h2⟩]

theorem schedule_current (k : Kernel) (h : pick k ≠ -1) :
    (schedule k).current_process = pick k := by
  by_cases h2 : pick k = k.current_process
  · rw [schedule_noswitch k (Or.inr h2), h2]
  · rw [schedule_switch k h h2]

theorem length_set_state (ps : List Process) (i : Nat) (v : Int) :
    (set_state ps i v).length = ps.length := by
  simp [set_state]

theorem getD_set_state (ps : List Process) (i j : Nat) (v : Int) :
    (set_state ps i v).getD j default =
      if i = j ∧ i < ps.length then { ps.getD j default with state := v } else ps.getD j default := by
  unfold set_state
  rw [getD_set]
  by_cases h : i = j ∧ i < ps.length
  · rw [if_pos h, if_pos h, h.1]
  · rw [if_neg h, if_neg h]

theorem schedule_changes (k : Kernel) (h : schedule k ≠ k) :
    pick k ≠ -1 ∧ pick k ≠ k.current_process := by
  constructor
  · intro h1; exact h (schedule_noswitch k (Or.inl h1))
  · intro h1; exact h (schedule_noswitch k (Or.inr h1))

/-! ## The loops of `create_process` and `kill_process` -/

theorem create_process_loop_full (task : Nat) (priority privilege : Int) (k : Kernel) (n : Nat) :
    ∀ i : Nat, (∀ j, i ≤ j → j < i + n → (k.proc j).pid ≠ 0) →
      create_process_loop task priority privilege n i k = (k, -1) := by
  induction n with
  | zero => intro i _; rfl
  | succ n ih =>
    intro i h
    simp only [create_process_loop]
    rw [if_neg (h i (le_refl i) (by omega))]
    exact ih (i + 1) (fun j h1 h2 => h j (by omega) (by omega))

theorem create_process_loop_first (task : Nat) (priority privilege : Int) (k : Kernel) (x : Nat)
    (hx : (k.proc x).pid = 0) (n : Nat) :
    ∀ i : Nat, i ≤ x → x < i + n → (∀ j, i ≤ j → j < x → (k.proc j).pid ≠ 0) →
      create_process_loop task priority privilege n i k =
        ({ (if privilege = 3 then (create_user_page_dir k).1 else k) with
            processes := k.processes.set x (created_slot k x task priority privilege) },
          (x : Int)) := by
  induction n with
  | zero => intro i h1 h2 _; omega
  | succ n ih =>
    intro i h1 h2 h
    simp only [create_process_loop]
    by_cases hix : i = x
    · subst hix
      rw [if_pos hx]
      by_cases hp : privilege = 3 <;> simp [hp, created_slot]
    · rw [if_neg (h i (le_refl i) (by omega))]
      exact ih (i + 1) (by omega) (by omega) (fun j h3 h4 => h j (by omega) h4)

theorem kill_process_loop_none (pid : Int) (k : Kernel) (n : Nat) :
    ∀ i : Nat, (∀ j, i ≤ j → j < i + n → (k.proc j).pid ≠ pid) →
      kill_process_loop pid n i k = k := by
  induction n with
  | zero => intro i _; rfl
  | succ n ih =>
    intro i h
    simp only [kill_process_loop]
    rw [if_neg (h i (le_refl i) (by omega))]
    exact ih (i + 1) (fun j h1 h2 => h j (by omega) (by omega))

theorem kill_process_loop_first (pid : Int) (k : Kernel) (x : Nat)
    (hx : (k.proc x).pid = pid) (n : Nat) :
    ∀ i : Nat, i ≤ x → x < i + n → (∀ j, i ≤ j → j < x → (k.proc j).pid ≠ pid) →
      kill_process_loop pid n i k =
        { k with
          processes := k.processes.set x { k.proc x with state := 2, pid := 0 },
          schedule_flag := if (x : Int) = k.current_process then 1 else k.schedule_flag } := by
  induction n with
  | zero => intro i h1 h2 _; omega
  | succ n ih =>
    intro i h1 h2 h
    simp only [kill_process_loop]
    by_cases hix : i = x
    · subst hix
      rw [if_pos hx]
      by_cases hc : (i : Int) = k.current_process <;> simp [hc]
    · rw [if_neg (h i (le_refl i) (by omega))]
      exact ih (i + 1) (by omega) (by omega) (fun j h3 h4 => h j (by omega) h4)

theorem exists_lowest (P : Nat → Prop) (n : Nat) (h : ∃ i, i < n ∧ P i) :
    ∃ x, x < n ∧ P x ∧ ∀ j, j < x → ¬ P j := by
  classical
  have h' : ∃ i, P i := by obtain ⟨i, _, hi⟩ := h; exact ⟨i, hi⟩
  refine ⟨Nat.find h', ?_, Nat.find_spec h', fun j hj => Nat.find_min h' hj⟩
  obtain ⟨i, hi, hp⟩ := h
  exact lt_of_le_of_lt (Nat.find_min' h' hp) hi

theorem create_process_cases (k : Kernel) (task : Nat) (priority privilege : Int) :
    create_process k task priority privilege = (k, -1) ∨
    ∃ x, x < MAX_PROCESSES ∧ (k.proc x).pid = 0 ∧ (∀ j, j < x → (k.proc j).pid ≠ 0) ∧
      create_process k task priority privilege =
        ({ (if privilege = 3 then (create_user_page_dir k).1 else k) with
            processes := k.processes.set x (created_slot k x task priority privilege) },
          (x : Int)) := by
  by_cases h : ∃ i, i < MAX_PROCESSES ∧ (k.proc i).pid = 0
  · right
    obtain ⟨x, hx, hp, hlow⟩ := exists_lowest (fun i => (k.proc i).pid = 0) MAX_PROCESSES h
    exact ⟨x, hx, hp, hlow,
      create_process_loop_first task priority privilege k x hp MAX_PROCESSES 0 (Nat.zero_le x)
        (by omega) (fun j _ hj => hlow j hj)⟩
  · left
    apply create_process_loop_full
    intro i _ hi hp
    exact h ⟨i, by omega, hp⟩

theorem kill_process_cases (k : Kernel) (pid : Int) :
    kill_process k pid = k ∨
    ∃ x, x < MAX_PROCESSES ∧ (k.proc x).pid = pid ∧ (∀ j, j < x → (k.proc j).pid ≠ pid) ∧
      kill_process k pid =
        { k with
          processes := k.processes.set x { k.proc x with state := 2, pid := 0 },
          schedule_flag := if (x : Int) = k.current_process then 1 else k.schedule_flag } := by
  by_cases h : ∃ i, i < MAX_PROCESSES ∧ (k.proc i).pid = pid
  · right
    obtain ⟨x, hx, hp, hlow⟩ := exists_lowest (fun i => (k.proc i).pid = pid) MAX_PROCESSES h
    exact ⟨x, hx, hp, hlow,
      kill_process_loop_first pid k x hp MAX_PROCESSES 0 (Nat.zero_le x)
        (by omega) (fun j _ hj => hlow j hj)⟩
  · left
    apply kill_process_loop_none
    intro i _ hi hp
    exact h ⟨i, by omega, hp⟩

theorem countP_set_gain {α : Type} (p : α → Bool) (d : α) :
    ∀ (l : List α) (i : Nat) (a : α), i < l.length → p (l.getD i d) = false → p a = true →
      (l.set i a).countP p = l.countP p + 1 := by
  intro l
  induction l with
  | nil => intro i a h; simp at h
  | cons b l ih =>
    intro i a h hold hnew
    cases i with
    | zero =>
      simp only [List.getD_cons_zero] at hold
      simp [List.countP_cons, hold, hnew]
    | succ i =>
      simp only [List.getD_cons_succ] at hold
      simp only [List.length_cons, Nat.add_lt_add_iff_right] at h
      simp only [List.set_cons_succ, List.countP_cons, ih i a h hold hnew]
      omega

/-! ## Invariants of the process table -/

theorem create_process_proc (k : Kernel) (task : Nat) (priority privilege : Int) (j : Nat) :
    (create_process k task priority privilege).1.proc j = k.proc j ∨
    ((k.proc j).pid = 0 ∧ j < MAX_PROCESSES ∧ (∀ i, i < j → (k.proc i).pid ≠ 0) ∧
      (create_process k task priority privilege).2 = (j : Int) ∧
      (create_process k task priority privilege).1.proc j =
        created_slot k j task priority privilege) := by
  rcases create_process_cases k task priority privilege with h | ⟨x, hx, hp, hlow, heq⟩
  · left; rw [h]
  · rw [heq]
    simp only [Kernel.proc]
    rw [getD_set]
    by_cases hxj : x = j ∧ x < k.processes.length
    · right
      rw [if_pos hxj]
      obtain ⟨rfl, _⟩ := hxj
      exact ⟨hp, hx, hlow, rfl, rfl⟩
    · left
      rw [if_neg hxj]

theorem create_process_frame (k : Kernel) (task : Nat) (priority privilege : Int) :
    (create_process k task priority privilege).1.current_process = k.current_process ∧
    (create_process k task priority privilege).1.processes.length = k.processes.length := by
  rcases create_process_cases k task priority privilege with h | ⟨x, _, _, _, heq⟩
  · rw [h]; exact ⟨rfl, rfl⟩
  · rw [heq]
    refine ⟨?_, by simp⟩
    split_ifs <;> rfl

theorem kill_process_proc (k : Kernel) (pid : Int) (j : Nat) :
    (kill_process k pid).proc j = k.proc j ∨
    (kill_process k pid).proc j = { k.proc j with state := 2, pid := 0 } := by
  rcases kill_process_cases k pid with h | ⟨x, _, _, _, heq⟩
  · left; rw [h]
  · rw [heq]
    simp only [Kernel.proc]
    rw [getD_set]
    by_cases hxj : x = j ∧ x < k.processes.length
    · right
      rw [if_pos hxj, hxj.1]
    · left
      rw [if_neg hxj]

theorem kill_process_frame (k : Kernel) (pid : Int) :
    (kill_process k pid).current_process = k.current_process ∧
    (kill_process k pid).processes.length = k.processes.length := by
  rcases kill_process_cases k pid with h | ⟨x, _, _, _, heq⟩
  · rw [h]; exact ⟨rfl, rfl⟩
  · rw [heq]
    exact ⟨rfl, by simp⟩

theorem schedule_proc (k : Kernel) (j : Nat) :
    ((schedule k).proc j).pid = (k.proc j).pid ∧
    (schedule k).processes.length = k.processes.length := by
  by_cases h : pick k = -1 ∨ pick k = k.current_process
  · rw [schedule_noswitch k h]; exact ⟨rfl, rfl⟩
  · have h1 : pick k ≠ -1 := fun e => h (Or.inl e)
    have h2 : pick k ≠ k.current_process := fun e => h (Or.inr e)
    rw [schedule_switch k h1 h2]
    simp only [Kernel.proc]
    refine ⟨?_, by simp [length_set_state]⟩
    rw [getD_set_state, getD_set_state]
    split_ifs <;> rfl

theorem runningInv_step {k k' : Kernel} (hs : Step k k') (h : RunningInv k) : RunningInv k' := by
  cases hs with
  | create task priority privilege =>
    intro i hi
    rw [(create_process_frame k task priority privilege).1]
    rcases create_process_proc k task priority privilege i with e | ⟨_, _, _, _, e⟩
    · rw [e] at hi; exact h i hi
    · rw [e] at hi; simp [created_slot] at hi
  | kill pid =>
    intro i hi
    rw [(kill_process_frame k pid).1]
    rcases kill_process_proc k pid i with e | e
    · rw [e] at hi; exact h i hi
    · rw [e] at hi; simp at hi
  | sched =>
    by_cases hc : pick k = -1 ∨ pick k = k.current_process
    · rw [schedule_noswitch k hc]; exact h
    · have h1 : pick k ≠ -1 := fun e => hc (Or.inl e)
      have h2 : pick k ≠ k.current_process := fun e => hc (Or.inr e)
      rw [schedule_switch k h1 h2]
      intro i hi
      simp only [Kernel.proc] at hi ⊢
      rcases pick_spec k with ⟨hm, _⟩ | ⟨x, hx, _, _, _, _, _⟩
      · exact absurd hm h1
      · rw [hx] at hi ⊢
        simp only [Int.toNat_ofNat] at hi
        rw [getD_set_state] at hi
        by_cases hxi : x = i
        · rw [hxi]
        · rw [if_neg (fun e => hxi e.1), getD_set_state] at hi
          by_cases hci : k.current_process.toNat = i ∧ k.current_process.toNat < k.processes.length
          · rw [if_pos hci] at hi; simp at hi
          · rw [if_neg hci] at hi
            have := h i hi
            exfalso
            apply hci
            have hl : i < k.processes.length := by
              by_contra hl
              have hd : k.processes.getD i default = default :=
                List.getD_eq_default _ _ (by omega)
              rw [hd] at hi
              exact absurd hi (by decide)
            constructor <;> omega

theorem pidInv_step {k k' : Kernel} (hs : Step k k') (h : PidInv k) : PidInv k' := by
  obtain ⟨hlen, hp⟩ := h
  cases hs with
  | create task priority privilege =>
    refine ⟨by rw [(create_process_frame k task priority privilege).2]; exact hlen, ?_⟩
    intro i
    rcases create_process_proc k task priority privilege i with e | ⟨_, _, _, _, e⟩
    · rw [e]; exact hp i
    · rw [e]; right; rfl
  | kill pid =>
    refine ⟨by rw [(kill_process_frame k pid).2]; exact hlen, ?_⟩
    intro i
    rcases kill_process_proc k pid i with e | e
    · rw [e]; exact hp i
    · rw [e]; left; rfl
  | sched =>
    refine ⟨by rw [(schedule_proc k 0).2]; exact hlen, ?_⟩
    intro i
    rw [(schedule_proc k i).1]
    exact hp i

theorem runningInv_reach {k0 k : Kernel} (hr : Reach k0 k) (h : RunningInv k0) : RunningInv k := by
  induction hr with
  | init => exact h
  | step _ hs ih => exact runningInv_step hs ih

theorem pidInv_reach {k0 k : Kernel} (hr : Reach k0 k) (h : PidInv k0) : PidInv k := by
  induction hr with
  | init => exact h
  | step _ hs ih => exact pidInv_step hs ih

theorem free_loop (ps : List Process) (n : Nat) :
    ((List.range n).foldl free_slot ps).length = ps.length ∧
    ∀ i, ((List.range n).foldl free_slot ps).getD i default =
      if i < n ∧ i < ps.length then { ps.getD i default with pid := 0, state := 2 }
      else ps.getD i default := by
  induction n with
  | zero => simp
  | succ n ih =>
    obtain ⟨ih1, ih2⟩ := ih
    rw [List.range_succ, List.foldl_append]
    simp only [List.foldl_cons, List.foldl_nil, free_slot]
    refine ⟨by simp [ih1], fun i => ?_⟩
    rw [getD_set, ih1]
    by_cases hni : n = i
    · subst hni
      by_cases hl : n < ps.length
      · rw [if_pos ⟨rfl, hl⟩, if_pos ⟨by omega, hl⟩, ih2, if_neg (by omega)]
      · rw [if_neg (fun e => hl e.2), if_neg (fun e => hl e.2), ih2, if_neg (fun e => hl e.2)]
    · rw [if_neg (fun e => hni e.1), ih2]
      by_cases hc : i < n ∧ i < ps.length
      · rw [if_pos hc, if_pos ⟨by omega, hc.2⟩]
      · rw [if_neg hc, if_neg (fun e => hc ⟨by omega, e.2⟩)]

theorem create_process_state (k : Kernel) (task : Nat) (priority privilege : Int)
    (h : ∀ i, (k.proc i).state ≠ 1) :
    ∀ i, ((create_process k task priority privilege).1.proc i).state ≠ 1 := by
  intro i
  rcases create_process_proc k task priority privilege i with e | ⟨_, _, _, _, e⟩
  · rw [e]; exact h i
  · rw [e]; simp [created_slot]

theorem kmain_running (task1 task2 user_task : Nat) (k0 : Kernel)
    (hlen : k0.processes.length = MAX_PROCESSES) (hcur : k0.current_process = 0) :
    RunningInv (kmain_processes task1 task2 user_task k0) := by
  have h0 : ∀ i, (({ k0 with
      processes := (List.range MAX_PROCESSES).foldl free_slot k0.processes } : Kernel).proc i).state
        ≠ 1 := by
    intro i
    simp only [Kernel.proc]
    rw [(free_loop k0.processes MAX_PROCESSES).2 i]
    by_cases hi : i < MAX_PROCESSES ∧ i < k0.processes.length
    · rw [if_pos hi]; simp
    · rw [if_neg hi, List.getD_eq_default _ _ (by omega)]
      decide
  have h3 := create_process_state _ user_task 2 3
    (create_process_state _ task2 3 0 (create_process_state _ task1 5 0 h0))
  intro i hi
  simp only [kmain_processes, Kernel.proc] at hi ⊢
  rw [(create_process_frame _ user_task 2 3).1, (create_process_frame _ task2 3 0).1,
    (create_process_frame _ task1 5 0).1, hcur]
  rw [getD_set_state] at hi
  by_cases h0i : 0 = i
  · rw [← h0i]; rfl
  · rw [if_neg (fun e => h0i e.1)] at hi
    exact absurd hi (h3 i)

theorem create_filled (m : Nat) (k : Kernel) (hm : m < MAX_PROCESSES) (h : Filled m k)
    (task : Nat) (priority privilege : Int) :
    (create_process k task priority privilege).2 = (m : Int) ∧
    Filled (m + 1) (create_process k task priority privilege).1 := by
  obtain ⟨hlen, hlow, hhigh⟩ := h
  have hp : (k.proc m).pid = 0 := hhigh m (le_refl m) hm
  have heq : create_process k task priority privilege = _ :=
    create_process_loop_first task priority privilege k m hp MAX_PROCESSES 0 (Nat.zero_le m)
      (by omega) (fun j _ hj => by rw [hlow j hj]; omega)
  rw [heq]
  refine ⟨rfl, by simpa using hlen, ?_, ?_⟩
  · intro j hj
    simp only [Kernel.proc]
    rw [getD_set]
    by_cases hmj : m = j
    · rw [if_pos ⟨hmj, by omega⟩, ← hmj]; rfl
    · rw [if_neg (fun e => hmj e.1)]
      exact hlow j (by omega)
  · intro j hj1 hj2
    simp only [Kernel.proc]
    rw [getD_set, if_neg (fun e => by omega)]
    exact hhigh j (by omega) hj2

theorem create_all_filled (args : List (Nat × Int × Int)) :
    ∀ (m : Nat) (k : Kernel), m + args.length = MAX_PROCESSES → Filled m k →
      (create_all k args).2 = (List.range' m args.length).map Int.ofNat ∧
      Filled MAX_PROCESSES (create_all k args).1 := by
  induction args with
  | nil =>
    intro m k hm h
    simp only [List.length_nil, Nat.add_zero] at hm
    subst hm
    exact ⟨rfl, h⟩
  | cons a as ih =>
    intro m k hm h
    simp only [List.length_cons] at hm
    obtain ⟨h1, h2⟩ := create_filled m k (by omega) h a.1 a.2.1 a.2.2
    obtain ⟨h3, h4⟩ := ih (m + 1) _ (by omega) h2
    refine ⟨?_, h4⟩
    simp only [create_all, List.length_cons, List.range'_succ, List.map_cons, h3, h1]
    rfl

/-! ## File-system lemmas -/

theorem strcmp_eq_zero_iff : ∀ a b : List Int, strcmp a b = 0 ↔ c_string a = c_string b := by
  intro a
  induction a with
  | nil =>
    intro b
    cases b with
    | nil => simp [strcmp, c_string]
    | cons b bs =>
      by_cases hb : b = 0
      · simp [strcmp, c_string, hb]
      · simp [strcmp, c_string, hb]
  | cons a as ih =>
    intro b
    cases b with
    | nil =>
      by_cases ha : a = 0
      · simp [strcmp, c_string, ha]
      · simp [strcmp, c_string, ha]
    | cons b bs =>
      simp only [strcmp]
      by_cases h : a ≠ 0 ∧ b ≠ 0 ∧ a = b
      · rw [if_pos h]
        obtain ⟨ha, hb, hab⟩ := h
        subst hab
        simp [c_string, ha, ih bs]
      · rw [if_neg h]
        by_cases ha : a = 0
        · subst ha
          by_cases hb : b = 0
          · simp [c_string, hb]
          · simp [c_string, hb]
        · by_cases hb : b = 0
          · subst hb
            simp [c_string, ha]
          · have hab : a ≠ b := fun e => h ⟨ha, hb, e⟩
            have hsub : a - b ≠ 0 := by omega
            simp [c_string, ha, hb, hab, hsub]

theorem c_string_of_pointwise : ∀ (name l : List Int), (∀ c ∈ name, c ≠ 0) →
    (∀ i, i < name.length → l.getD i 0 = name.getD i 0) → l.getD name.length 0 = 0 →
    c_string l = name := by
  intro name
  induction name with
  | nil =>
    intro l _ _ h0
    cases l with
    | nil => rfl
    | cons a as =>
      simp only [List.length_nil, List.getD_cons_zero] at h0
      simp [c_string, h0]
  | cons c cs ih =>
    intro l hnz hpt h0
    cases l with
    | nil =>
      have := hpt 0 (by simp)
      simp only [List.getD_nil, List.getD_cons_zero] at this
      exact absurd this.symm (hnz c (List.mem_cons_self c cs))
    | cons a as =>
      have ha := hpt 0 (by simp)
      simp only [List.getD_cons_zero] at ha
      subst ha
      have hne : a ≠ 0 := hnz a (List.mem_cons_self a cs)
      have htail := ih as (fun c hc => hnz c (List.mem_cons_of_mem a hc))
        (fun i hi => by
          have := hpt (i + 1) (by simp only [List.length_cons]; omega)
          simpa using this)
        (by simpa using h0)
      simp [c_string, hne, htail]

theorem c_string_of_nonzero : ∀ name : List Int, (∀ c ∈ name, c ≠ 0) → c_string name = name := by
  intro name
  induction name with
  | nil => intro _; rfl
  | cons c cs ih =>
    intro h
    have hc : c ≠ 0 := h c (List.mem_cons_self c cs)
    simp [c_string, hc, ih (fun d hd => h d (List.mem_cons_of_mem c hd))]

theorem copy_name_spec (name : List Int) (m : Nat) (hm : m ≤ 31)
    (hstop : m = 31 ∨ name.getD m 0 = 0) (n : Nat) :
    ∀ (j : Nat) (dest : List Int), j ≤ m → m < n + j →
      (∀ i, j ≤ i → i < m → name.getD i 0 ≠ 0) →
      (copy_name name n j dest).2 = m ∧
      (copy_name name n j dest).1.length = dest.length ∧
      ∀ idx, (copy_name name n j dest).1.getD idx 0 =
        if j ≤ idx ∧ idx < m ∧ idx < dest.length then name.getD idx 0 else dest.getD idx 0 := by
  induction n with
  | zero => intro j dest h1 h2; omega
  | succ n ih =>
    intro j dest h1 h2 hnz
    simp only [copy_name]
    by_cases hjm : j = m
    · subst hjm
      have hc : ¬ (name.getD j 0 ≠ 0 ∧ j < 31) := by
        rintro ⟨h3, h4⟩
        rcases hstop with e | e
        · omega
        · exact h3 e
      rw [if_neg hc]
      refine ⟨rfl, rfl, fun idx => ?_⟩
      rw [if_neg (by omega)]
    · have hc : name.getD j 0 ≠ 0 ∧ j < 31 := ⟨hnz j (le_refl j) (by omega), by omega⟩
      rw [if_pos hc]
      obtain ⟨r1, r2, r3⟩ := ih (j + 1) (dest.set j (name.getD j 0)) (by omega) (by omega)
        (fun i hi1 hi2 => hnz i (by omega) hi2)
      refine ⟨r1, by rw [r2]; simp, fun idx => ?_⟩
      rw [r3 idx, getD_set, List.length_set]
      by_cases hji : j = idx
      · subst hji
        have h3 : ¬ (j + 1 ≤ j ∧ j < m ∧ j < dest.length) := by omega
        rw [if_neg h3]
        by_cases hl : j < dest.length
        · rw [if_pos ⟨rfl, hl⟩, if_pos ⟨le_refl j, by omega, hl⟩]
        · rw [if_neg (fun e => hl e.2), if_neg (fun e => hl e.2.2)]
      · have h3 : ¬ (j = idx ∧ j < dest.length) := fun e => hji e.1
        rw [if_neg h3]
        by_cases hc2 : j + 1 ≤ idx ∧ idx < m ∧ idx < dest.length
        · rw [if_pos hc2, if_pos ⟨by omega, hc2.2⟩]
        · rw [if_neg hc2, if_neg (fun e => hc2 ⟨by omega, e.2⟩)]

theorem vfs_write_file_loop_spec (buf : List Int) (len : Int) (n : Nat) :
    ∀ (r b o : Nat) (data : List Int), r ≤ n →
      (r = 0 ∨ ((b : Int) + r ≤ len ∧ o + r ≤ 128)) →
      ¬ ((b : Int) + r < len ∧ o + r < 128) →
      (vfs_write_file_loop buf len n b o data).1 = ((b + r : Nat) : Int) ∧
      (vfs_write_file_loop buf len n b o data).2.1 = ((o + r : Nat) : Int) ∧
      (vfs_write_file_loop buf len n b o data).2.2.length = data.length ∧
      ∀ idx, (vfs_write_file_loop buf len n b o data).2.2.getD idx 0 =
        if o ≤ idx ∧ idx < o + r ∧ idx < data.length then buf.getD (b + (idx - o)) 0
        else data.getD idx 0 := by
  induction n with
  | zero =>
    intro r b o data hr _ _
    have : r = 0 := by omega
    subst this
    refine ⟨rfl, rfl, rfl, fun idx => ?_⟩
    rw [if_neg (by omega)]
    rfl
  | succ n ih =>
    intro r b o data hr h1 h2
    simp only [vfs_write_file_loop]
    by_cases hg : (b : Int) < len ∧ (o : Int) < 128
    · have hr0 : r ≠ 0 := by
        intro e
        subst e
        apply h2
        constructor <;> omega
      rw [if_pos hg]
      have e1 : (b : Int) + 1 = ((b + 1 : Nat) : Int) := by push_cast; rfl
      have e2 : (o : Int) + 1 = ((o + 1 : Nat) : Int) := by push_cast; rfl
      rw [e1, e2]
      simp only [Int.toNat_ofNat]
      obtain ⟨r1, r2, r3, r4⟩ := ih (r - 1) (b + 1) (o + 1) (data.set o (buf.getD b 0))
        (by omega) (by omega) (by omega)
      refine ⟨?_, ?_, ?_, fun idx => ?_⟩
      · rw [r1]; congr 1; omega
      · rw [r2]; congr 1; omega
      · rw [r3]; simp
      · rw [r4 idx, getD_set, List.length_set]
        by_cases hoi : o = idx
        · subst hoi
          have h3 : ¬ (o + 1 ≤ o ∧ o < o + 1 + (r - 1) ∧ o < data.length) := by omega
          rw [if_neg h3]
          by_cases hl : o < data.length
          · rw [if_pos ⟨rfl, hl⟩, if_pos ⟨le_refl o, by omega, hl⟩]
            simp
          · rw [if_neg (fun e => hl e.2), if_neg (fun e => hl e.2.2)]
        · have h3 : ¬ (o = idx ∧ o < data.length) := fun e => hoi e.1
          rw [if_neg h3]
          by_cases hc : o + 1 ≤ idx ∧ idx < o + 1 + (r - 1) ∧ idx < data.length
          · rw [if_pos hc, if_pos ⟨by omega, by omega, hc.2.2⟩]
            congr 1
            omega
          · rw [if_neg hc, if_neg (fun e => hc ⟨by omega, by omega, e.2.2⟩)]
    · have hr0 : r = 0 := by
        rcases h1 with e | ⟨e1, e2⟩
        · exact e
        · by_contra hne
          apply hg
          constructor <;> omega
      subst hr0
      rw [if_neg hg]
      refine ⟨rfl, rfl, rfl, fun idx => ?_⟩
      rw [if_neg (by omega)]

theorem vfs_read_file_loop_spec (inode : Inode) (len : Int) (n : Nat) :
    ∀ (r b o : Nat) (buf : List Int), r ≤ n →
      (r = 0 ∨ ((b : Int) + r ≤ len ∧ (o : Int) + r ≤ inode.size ∧ o + r ≤ 128)) →
      ¬ ((b : Int) + r < len ∧ (o : Int) + r < inode.size ∧ o + r < 128) →
      (vfs_read_file_loop inode len n b o buf).1 = ((b + r : Nat) : Int) ∧
      (vfs_read_file_loop inode len n b o buf).2.1 = ((o + r : Nat) : Int) ∧
      (vfs_read_file_loop inode len n b o buf).2.2.length = buf.length ∧
      ∀ idx, (vfs_read_file_loop inode len n b o buf).2.2.getD idx 0 =
        if b ≤ idx ∧ idx < b + r ∧ idx < buf.length then inode.data.getD (o + (idx - b)) 0
        else buf.getD idx 0 := by
  induction n with
  | zero =>
    intro r b o buf hr _ _
    have : r = 0 := by omega
    subst this
    refine ⟨rfl, rfl, rfl, fun idx => ?_⟩
    rw [if_neg (by omega)]
    rfl
  | succ n ih =>
    intro r b o buf hr h1 h2
    simp only [vfs_read_file_loop]
    by_cases hg : (b : Int) < len ∧ (o : Int) < inode.size ∧ (o : Int) < 128
    · have hr0 : r ≠ 0 := by
        intro e
        subst e
        apply h2
        refine ⟨?_, ?_, ?_⟩ <;> omega
      rw [if_pos hg]
      have e1 : (b : Int) + 1 = ((b + 1 : Nat) : Int) := by push_cast; rfl
      have e2 : (o : Int) + 1 = ((o + 1 : Nat) : Int) := by push_cast; rfl
      rw [e1, e2]
      simp only [Int.toNat_ofNat]
      obtain ⟨r1, r2, r3, r4⟩ := ih (r - 1) (b + 1) (o + 1) (buf.set b (inode.data.getD o 0))
        (by omega) (by omega) (by omega)
      refine ⟨?_, ?_, ?_, fun idx => ?_⟩
      · rw [r1]; congr 1; omega
      · rw [r2]; congr 1; omega
      · rw [r3]; simp
      · rw [r4 idx, getD_set, List.length_set]
        by_cases hbi : b = idx
        · subst hbi
          have h3 : ¬ (b + 1 ≤ b ∧ b < b + 1 + (r - 1) ∧ b < buf.length) := by omega
          rw [if_neg h3]
          by_cases hl : b < buf.length
          · rw [if_pos ⟨rfl, hl⟩, if_pos ⟨le_refl b, by omega, hl⟩]
            simp
          · rw [if_neg (fun e => hl e.2), if_neg (fun e => hl e.2.2)]
        · have h3 : ¬ (b = idx ∧ b < buf.length) := fun e => hbi e.1
          rw [if_neg h3]
          by_cases hc : b + 1 ≤ idx ∧ idx < b + 1 + (r - 1) ∧ idx < buf.length
          · rw [if_pos hc, if_pos ⟨by omega, by omega, hc.2.2⟩]
            congr 1
            omega
          · rw [if_neg hc, if_neg (fun e => hc ⟨by omega, by omega, e.2.2⟩)]
    · have hr0 : r = 0 := by
        rcases h1 with e | ⟨e1, e2, e3⟩
        · exact e
        · by_contra hne
          apply hg
          refine ⟨?_, ?_, ?_⟩ <;> omega
      subst hr0
      rw [if_neg hg]
      refine ⟨rfl, rfl, rfl, fun idx => ?_⟩
      rw [if_neg (by omega)]

theorem inode_set_inode (s : VfsState) (i j : Nat) (n : Inode) :
    (s.set_inode i n).inode j = if i = j ∧ i < s.vfs.inodes.length then n else s.inode j := by
  simp only [VfsState.set_inode, VfsState.inode]
  rw [getD_set]

theorem fd_set_fd (s : VfsState) (i j : Nat) (f : FileDescriptor) :
    (s.set_fd i f).fd j = if i = j ∧ i < s.fds.length then f else s.fd j := by
  simp only [VfsState.set_fd, VfsState.fd]
  rw [getD_set]

theorem fd_set_inode (s : VfsState) (i j : Nat) (n : Inode) :
    (s.set_inode i n).fd j = s.fd j := rfl

theorem inode_set_fd (s : VfsState) (i j : Nat) (f : FileDescriptor) :
    (s.set_fd i f).inode j = s.inode j := rfl

theorem inode_created (s : VfsState) (x j : Nat) (name : List Int) :
    (created s x name).inode j =
      if x = j ∧ x < s.vfs.inodes.length then
        { s.inode x with
          used := 1, id := (x : Int), size := 0,
          name := (copy_name name 32 0 (s.inode x).name).1.set
            (copy_name name 32 0 (s.inode x).name).2 0 }
      else s.inode j := by
  simp only [created, VfsState.set_inode, VfsState.inode]
  rw [getD_set]

theorem fd_created (s : VfsState) (x j : Nat) (name : List Int) :
    (created s x name).fd j = s.fd j := rfl

theorem copy_name_length (name : List Int) (n : Nat) :
    ∀ (j : Nat) (dest : List Int), (copy_name name n j dest).1.length = dest.length := by
  induction n with
  | zero => intro j dest; rfl
  | succ n ih =>
    intro j dest
    simp only [copy_name]
    split_ifs
    · rw [ih]; simp
    · rfl

theorem countP_set_same {α : Type} (p : α → Bool) (d : α) :
    ∀ (l : List α) (i : Nat) (a : α), p a = p (l.getD i d) →
      (l.set i a).countP p = l.countP p := by
  intro l
  induction l with
  | nil => intro i a _; rfl
  | cons b l ih =>
    intro i a h
    cases i with
    | zero =>
      simp only [List.getD_cons_zero] at h
      simp [List.countP_cons, h]
    | succ i =>
      simp only [List.getD_cons_succ] at h
      simp only [List.set_cons_succ, List.countP_cons, ih i a h]

theorem vfs_create_file_loop_full (name : List Int) (s : VfsState) (n : Nat) :
    ∀ i : Nat, (∀ j, i ≤ j → j < i + n → (s.inode j).used ≠ 0) →
      vfs_create_file_loop name n i s = (s, -1) := by
  induction n with
  | zero => intro i _; rfl
  | succ n ih =>
    intro i h
    simp only [vfs_create_file_loop]
    rw [if_neg (h i (le_refl i) (by omega))]
    exact ih (i + 1) (fun j h1 h2 => h j (by omega) (by omega))

theorem vfs_create_file_loop_first (name : List Int) (s : VfsState) (x : Nat)
    (hx : (s.inode x).used = 0) (n : Nat) :
    ∀ i : Nat, i ≤ x → x < i + n → (∀ j, i ≤ j → j < x → (s.inode j).used ≠ 0) →
      vfs_create_file_loop name n i s = (created s x name, (x : Int)) := by
  induction n with
  | zero => intro i h1 h2 _; omega
  | succ n ih =>
    intro i h1 h2 h
    simp only [vfs_create_file_loop]
    by_cases hix : i = x
    · subst hix
      rw [if_pos hx]
      rfl
    · rw [if_neg (h i (le_refl i) (by omega))]
      exact ih (i + 1) (by omega) (by omega) (fun j h3 h4 => h j (by omega) h4)

theorem vfs_open_file_fds_full (i : Nat) (s : VfsState) (n : Nat) :
    ∀ j0 : Nat, (∀ j, j0 ≤ j → j < j0 + n → (s.fd j).used ≠ 0) →
      vfs_open_file_fds i n j0 s = (s, -1) := by
  induction n with
  | zero => intro j0 _; rfl
  | succ n ih =>
    intro j0 h
    simp only [vfs_open_file_fds]
    rw [if_neg (h j0 (le_refl j0) (by omega))]
    exact ih (j0 + 1) (fun j h1 h2 => h j (by omega) (by omega))

theorem vfs_open_file_fds_first (i : Nat) (s : VfsState) (y : Nat)
    (hy : (s.fd y).used = 0) (n : Nat) :
    ∀ j0 : Nat, j0 ≤ y → y < j0 + n → (∀ j, j0 ≤ j → j < y → (s.fd j).used ≠ 0) →
      vfs_open_file_fds i n j0 s =
        (s.set_fd y { used := 1, inode_id := (i : Int), offset := 0 }, (y : Int)) := by
  induction n with
  | zero => intro j0 h1 h2 _; omega
  | succ n ih =>
    intro j0 h1 h2 h
    simp only [vfs_open_file_fds]
    by_cases hjy : j0 = y
    · subst hjy
      rw [if_pos hy]
    · rw [if_neg (h j0 (le_refl j0) (by omega))]
      exact ih (j0 + 1) (by omega) (by omega) (fun j h3 h4 => h j (by omega) h4)

theorem vfs_open_file_loop_none (name : List Int) (s : VfsState) (n : Nat) :
    ∀ i : Nat,
      (∀ j, i ≤ j → j < i + n → ¬ ((s.inode j).used ≠ 0 ∧ strcmp (s.inode j).name name = 0)) →
      vfs_open_file_loop name n i s = (s, -1) := by
  induction n with
  | zero => intro i _; rfl
  | succ n ih =>
    intro i h
    simp only [vfs_open_file_loop]
    rw [if_neg (h i (le_refl i) (by omega))]
    exact ih (i + 1) (fun j h1 h2 => h j (by omega) (by omega))

theorem vfs_open_file_loop_first (name : List Int) (s : VfsState) (x : Nat)
    (hx : (s.inode x).used ≠ 0 ∧ strcmp (s.inode x).name name = 0) (n : Nat) :
    ∀ i : Nat, i ≤ x → x < i + n →
      (∀ j, i ≤ j → j < x → ¬ ((s.inode j).used ≠ 0 ∧ strcmp (s.inode j).name name = 0)) →
      vfs_open_file_loop name n i s = vfs_open_file_fds x MAX_FILES 0 s := by
  induction n with
  | zero => intro i h1 h2 _; omega
  | succ n ih =>
    intro i h1 h2 h
    simp only [vfs_open_file_loop]
    by_cases hix : i = x
    · subst hix
      rw [if_pos hx]
    · rw [if_neg (h i (le_refl i) (by omega))]
      exact ih (i + 1) (by omega) (by omega) (fun j h3 h4 => h j (by omega) h4)

theorem vfs_open_file_success (s : VfsState) (name : List Int) (x y : Nat)
    (hinit : s.vfs_initialized ≠ 0) (hx : x < MAX_INODES) (hy : y < MAX_FILES)
    (hmatch : (s.inode x).used ≠ 0 ∧ strcmp (s.inode x).name name = 0)
    (hfirst : ∀ j, j < x → ¬ ((s.inode j).used ≠ 0 ∧ strcmp (s.inode j).name name = 0))
    (hfree : (s.fd y).used = 0) (hlow : ∀ j, j < y → (s.fd j).used ≠ 0) :
    vfs_open_file s name =
      (s.set_fd y { used := 1, inode_id := (x : Int), offset := 0 }, (y : Int)) := by
  unfold vfs_open_file
  rw [if_neg hinit,
    vfs_open_file_loop_first name s x hmatch MAX_INODES 0 (Nat.zero_le x) (by omega)
      (fun j _ hj => hfirst j hj),
    vfs_open_file_fds_first x s y hfree MAX_FILES 0 (Nat.zero_le y) (by omega)
      (fun j _ hj => hlow j hj)]

theorem inode_mem_or_default (s : VfsState) (i : Nat) :
    s.inode i ∈ s.vfs.inodes ∨ s.inode i = default := by
  simp only [VfsState.inode]
  by_cases h : i < s.vfs.inodes.length
  · left
    rw [List.getD_eq_getElem _ _ h]
    exact List.getElem_mem h
  · right
    exact List.getD_eq_default _ _ (by omega)

theorem vfsWF_inode (s : VfsState) (h : VfsWF s) (i : Nat) :
    (s.inode i).name.length = 32 ∧ (s.inode i).data.length = 128 := by
  rcases inode_mem_or_default s i with hm | hd
  · exact h.2.2.2.1 _ hm
  · rw [hd]; exact ⟨rfl, rfl⟩

theorem vfsWF_set_fd (s : VfsState) (j : Nat) (f : FileDescriptor) (h : VfsWF s) :
    VfsWF (s.set_fd j f) := by
  obtain ⟨h1, h2, h3, h4, h5⟩ := h
  exact ⟨h1, h2, by simpa [VfsState.set_fd] using h3, h4, h5⟩

theorem vfsWF_set_inode_data (s : VfsState) (id : Nat) (data' : List Int) (size' : Int)
    (h : VfsWF s) (hl : data'.length = (s.inode id).data.length) :
    VfsWF (s.set_inode id { s.inode id with data := data', size := size' }) := by
  have hi := vfsWF_inode s h id
  obtain ⟨h1, h2, h3, h4, h5⟩ := h
  refine ⟨h1, by simpa [VfsState.set_inode] using h2, h3, ?_, ?_⟩
  · intro n hn
    simp only [VfsState.set_inode] at hn
    rcases List.mem_or_eq_of_mem_set hn with hm | he
    · exact h4 n hm
    · rw [he]
      exact ⟨hi.1, by rw [hl]; exact hi.2⟩
  · simp only [VfsState.set_inode]
    rw [countP_set_same _ default]
    · exact h5
    · rfl

theorem vfsWF_created (s : VfsState) (x : Nat) (name : List Int) (h : VfsWF s)
    (hx : x < MAX_INODES) (hfree : (s.inode x).used = 0) : VfsWF (created s x name) := by
  have hi := vfsWF_inode s h x
  obtain ⟨h1, h2, h3, h4, h5⟩ := h
  refine ⟨h1, by simpa [created, VfsState.set_inode] using h2, h3, ?_, ?_⟩
  · intro n hn
    simp only [created, VfsState.set_inode] at hn
    rcases List.mem_or_eq_of_mem_set hn with hm | he
    · exact h4 n hm
    · rw [he]
      refine ⟨?_, hi.2⟩
      simp only [List.length_set]
      rw [copy_name_length]
      exact hi.1
  · simp only [created, VfsState.set_inode]
    rw [countP_set_gain _ default _ _ _ (by omega)]
    · rw [h5]
      push_cast
      rfl
    · simp only [VfsState.inode] at hfree
      show decide ((s.vfs.inodes.getD x default).used ≠ 0) = false
      rw [hfree]
      rfl
    · rfl

theorem vfs_write_file_loop_length (buf : List Int) (len : Int) (n : Nat) :
    ∀ (b o : Int) (data : List Int),
      (vfs_write_file_loop buf len n b o data).2.2.length = data.length := by
  induction n with
  | zero => intro b o data; rfl
  | succ n ih =>
    intro b o data
    simp only [vfs_write_file_loop]
    split_ifs
    · rw [ih]; simp
    · rfl

theorem vfs_create_file_state (s : VfsState) (name : List Int) :
    (vfs_create_file s name).1 = s ∨
    ∃ x, x < MAX_INODES ∧ (s.inode x).used = 0 ∧ (vfs_create_file s name).1 = created s x name := by
  unfold vfs_create_file
  split_ifs with h1 h2
  · left; rfl
  · left; rfl
  · by_cases h : ∃ i, i < MAX_INODES ∧ (s.inode i).used = 0
    · right
      obtain ⟨x, hx, hp, hlow⟩ := exists_lowest (fun i => (s.inode i).used = 0) MAX_INODES h
      refine ⟨x, hx, hp, ?_⟩
      rw [vfs_create_file_loop_first name s x hp MAX_INODES 0 (Nat.zero_le x) (by omega)
        (fun j _ hj => hlow j hj)]
    · left
      rw [vfs_create_file_loop_full name s MAX_INODES 0
        (fun j _ hj hp => h ⟨j, by omega, hp⟩)]

theorem vfs_open_file_fds_state (i : Nat) (n : Nat) :
    ∀ (j : Nat) (s : VfsState), (vfs_open_file_fds i n j s).1 = s ∨
      ∃ y f, (vfs_open_file_fds i n j s).1 = s.set_fd y f := by
  induction n with
  | zero => intro j s; left; rfl
  | succ n ih =>
    intro j s
    simp only [vfs_open_file_fds]
    split_ifs
    · right; exact ⟨j, _, rfl⟩
    · exact ih (j + 1) s

theorem vfs_open_file_loop_state (name : List Int) (n : Nat) :
    ∀ (i : Nat) (s : VfsState), (vfs_open_file_loop name n i s).1 = s ∨
      ∃ y f, (vfs_open_file_loop name n i s).1 = s.set_fd y f := by
  induction n with
  | zero => intro j s; left; rfl
  | succ n ih =>
    intro i s
    simp only [vfs_open_file_loop]
    split_ifs
    · exact vfs_open_file_fds_state i MAX_FILES 0 s
    · exact ih (i + 1) s

theorem vfs_open_file_state (s : VfsState) (name : List Int) :
    (vfs_open_file s name).1 = s ∨ ∃ y f, (vfs_open_file s name).1 = s.set_fd y f := by
  unfold vfs_open_file
  split_ifs
  · left; rfl
  · exact vfs_open_file_loop_state name MAX_INODES 0 s

theorem vfs_read_file_state (s : VfsState) (fd : Int) (buf : List Int) (len : Int) :
    (vfs_read_file s fd buf len).1 = s ∨
      ∃ y f, (vfs_read_file s fd buf len).1 = s.set_fd y f := by
  unfold vfs_read_file
  dsimp only
  split_ifs
  · left; rfl
  · left; rfl
  · left; rfl
  · left; rfl
  · right; exact ⟨_, _, rfl⟩

theorem vfs_close_file_state (s : VfsState) (fd : Int) :
    vfs_close_file s fd = s ∨ ∃ y f, vfs_close_file s fd = s.set_fd y f := by
  unfold vfs_close_file
  split_ifs
  · left; rfl
  · right; exact ⟨_, _, rfl⟩
  · left; rfl

theorem vfs_write_file_state (s : VfsState) (fd : Int) (buf : List Int) (len : Int) :
    (vfs_write_file s fd buf len).1 = s ∨
      ∃ y f id data' size', data'.length = (s.inode id).data.length ∧
        (vfs_write_file s fd buf len).1 =
          (s.set_fd y f).set_inode id { s.inode id with data := data', size := size' } := by
  unfold vfs_write_file
  dsimp only
  split_ifs
  · left; rfl
  · left; rfl
  · left; rfl
  · right
    exact ⟨_, _, _, _, _, vfs_write_file_loop_length buf len _ _ _ _, rfl⟩
  · right
    exact ⟨_, _, _, _, _, vfs_write_file_loop_length buf len _ _ _ _, rfl⟩

theorem vfsWF_step {s s' : VfsState} (hs : VStep s s') (h : VfsWF s) : VfsWF s' := by
  cases hs with
  | create name =>
    rcases vfs_create_file_state s name with e | ⟨x, hx, hfree, e⟩
    · rw [e]; exact h
    · rw [e]; exact vfsWF_created s x name h hx hfree
  | open_ name =>
    rcases vfs_open_file_state s name with e | ⟨y, f, e⟩
    · rw [e]; exact h
    · rw [e]; exact vfsWF_set_fd s y f h
  | read fd buf len =>
    rcases vfs_read_file_state s fd buf len with e | ⟨y, f, e⟩
    · rw [e]; exact h
    · rw [e]; exact vfsWF_set_fd s y f h
  | write fd buf len =>
    rcases vfs_write_file_state s fd buf len with e | ⟨y, f, id, data', size', hl, e⟩
    · rw [e]; exact h
    · rw [e]
      exact vfsWF_set_inode_data (s.set_fd y f) id data' size' (vfsWF_set_fd s y f h) hl
  | close fd =>
    rcases vfs_close_file_state s fd with e | ⟨y, f, e⟩
    · rw [e]; exact h
    · rw [e]; exact vfsWF_set_fd s y f h

theorem vfsWF_init : VfsWF (init_vfs vfs_bss) := by
  refine ⟨rfl, rfl, rfl, ?_, ?_⟩
  · decide
  · decide

theorem vfsWF_reach {s : VfsState} (hr : VReach s) : VfsWF s := by
  induction hr with
  | init => exact vfsWF_init
  | step _ hs ih => exact vfsWF_step hs ih

theorem countP_lt_of_unused (l : List Inode) (x : Nat) (hx : x < l.length)
    (h : (l.getD x default).used = 0) : l.countP (fun n => n.used ≠ 0) < l.length := by
  apply lt_of_le_of_ne (List.countP_le_length _)
  intro e
  rw [List.countP_eq_length] at e
  have := e (l.getD x default) (by rw [List.getD_eq_getElem _ _ hx]; exact List.getElem_mem hx)
  rw [h] at this
  exact absurd this (by decide)

theorem vfs_create_file_success (s : VfsState) (name : List Int) (x : Nat) (hwf : VfsWF s)
    (hx : x < MAX_INODES) (hfree : (s.inode x).used = 0)
    (hlow : ∀ j, j < x → (s.inode j).used ≠ 0) :
    vfs_create_file s name = (created s x name, (x : Int)) := by
  obtain ⟨h1, h2, _, _, h5⟩ := hwf
  unfold vfs_create_file
  have hc := countP_lt_of_unused s.vfs.inodes x (by omega) hfree
  rw [if_neg (by rw [h1]; decide), if_neg (by rw [h5]; omega)]
  exact vfs_create_file_loop_first name s x hfree MAX_INODES 0 (Nat.zero_le x) (by omega)
    (fun j _ hj => hlow j hj)

theorem vfs_write_file_valid (s : VfsState) (y : Nat) (buf : List Int) (len : Int)
    (hinit : s.vfs_initialized ≠ 0) (hy : y < MAX_FILES) (hused : (s.fd y).used ≠ 0)
    (hin : (s.inode (s.fd y).inode_id.toNat).used ≠ 0) :
    vfs_write_file s (y : Int) buf len =
      ((s.set_fd y
          { s.fd y with
            offset := (vfs_write_file_loop buf len (128 - (s.fd y).offset).toNat 0
              (s.fd y).offset (s.inode (s.fd y).inode_id.toNat).data).2.1 }).set_inode
        (s.fd y).inode_id.toNat
        { s.inode (s.fd y).inode_id.toNat with
          data := (vfs_write_file_loop buf len (128 - (s.fd y).offset).toNat 0
            (s.fd y).offset (s.inode (s.fd y).inode_id.toNat).data).2.2,
          size :=
            if (vfs_write_file_loop buf len (128 - (s.fd y).offset).toNat 0
                (s.fd y).offset (s.inode (s.fd y).inode_id.toNat).data).2.1 >
                (s.inode (s.fd y).inode_id.toNat).size then
              (vfs_write_file_loop buf len (128 - (s.fd y).offset).toNat 0
                (s.fd y).offset (s.inode (s.fd y).inode_id.toNat).data).2.1
            else (s.inode (s.fd y).inode_id.toNat).size },
        (vfs_write_file_loop buf len (128 - (s.fd y).offset).toNat 0
          (s.fd y).offset (s.inode (s.fd y).inode_id.toNat).data).1) := by
  unfold vfs_write_file
  simp only [Int.toNat_ofNat]
  have hr : ¬ ((y : Int) < 0 ∨ (y : Int) ≥ (MAX_FILES : Int) ∨ (s.fd y).used = 0) := by
    rintro (h | h | h)
    · omega
    · omega
    · exact hused h
  rw [if_neg hinit, if_neg hr, if_neg hin]

theorem vfs_read_file_valid (s : VfsState) (y : Nat) (buf : List Int) (len : Int)
    (hinit : s.vfs_initialized ≠ 0) (hy : y < MAX_FILES) (hused : (s.fd y).used ≠ 0)
    (hin : (s.inode (s.fd y).inode_id.toNat).used ≠ 0) :
    vfs_read_file s (y : Int) buf len =
      if (s.inode (s.fd y).inode_id.toNat).size = 0 ∨
          (s.fd y).offset ≥ (s.inode (s.fd y).inode_id.toNat).size then (s, buf, 0)
      else
        (s.set_fd y
          { s.fd y with
            offset := (vfs_read_file_loop (s.inode (s.fd y).inode_id.toNat) len
              (128 - (s.fd y).offset).toNat 0 (s.fd y).offset buf).2.1 },
          (vfs_read_file_loop (s.inode (s.fd y).inode_id.toNat) len
            (128 - (s.fd y).offset).toNat 0 (s.fd y).offset buf).2.2,
          (vfs_read_file_loop (s.inode (s.fd y).inode_id.toNat) len
            (128 - (s.fd y).offset).toNat 0 (s.fd y).offset buf).1) := by
  unfold vfs_read_file
  simp only [Int.toNat_ofNat]
  have hr : ¬ ((y : Int) < 0 ∨ (y : Int) ≥ (MAX_FILES : Int) ∨ (s.fd y).used = 0) := by
    rintro (h | h | h)
    · omega
    · omega
    · exact hused h
  rw [if_neg hinit, if_neg hr, if_neg hin]

theorem vfs_close_file_valid (s : VfsState) (y : Nat)
    (hinit : s.vfs_initialized ≠ 0) (hy : y < MAX_FILES) (hused : (s.fd y).used ≠ 0) :
    vfs_close_file s (y : Int) = s.set_fd y { used := 0, inode_id := -1, offset := 0 } := by
  unfold vfs_close_file
  simp only [Int.toNat_ofNat]
  rw [if_neg hinit, if_pos ⟨by omega, by omega, hused⟩]

theorem take_eq_of_pointwise (l d : List Int) (hl : d.length ≤ l.length)
    (h : ∀ idx, idx < d.length → l.getD idx 0 = d.getD idx 0) : l.take d.length = d := by
  apply List.ext_getElem
  · simp [hl]
  · intro i h1 h2
    have := h i h2
    rw [List.getD_eq_getElem _ _ (by omega), List.getD_eq_getElem _ _ h2] at this
    rw [List.getElem_take]
    exact this

theorem set_fd_shape (s : VfsState) (j : Nat) (f : FileDescriptor) :
    (s.set_fd j f).fds.length = s.fds.length ∧
    (s.set_fd j f).vfs.inodes.length = s.vfs.inodes.length ∧
    (s.set_fd j f).vfs_initialized = s.vfs_initialized := by
  simp [VfsState.set_fd]

theorem set_inode_shape (s : VfsState) (i : Nat) (n : Inode) :
    (s.set_inode i n).fds.length = s.fds.length ∧
    (s.set_inode i n).vfs.inodes.length = s.vfs.inodes.length ∧
    (s.set_inode i n).vfs_initialized = s.vfs_initialized := by
  simp [VfsState.set_inode]

theorem created_shape (s : VfsState) (x : Nat) (name : List Int) :
    (created s x name).fds.length = s.fds.length ∧
    (created s x name).vfs.inodes.length = s.vfs.inodes.length ∧
    (created s x name).vfs_initialized = s.vfs_initialized := by
  simp [created, VfsState.set_inode]

/-! ## File-system lemmas: operations on descriptors and the listing -/

theorem used_in_range (s : VfsState) (y : Nat) (h : (s.fd y).used ≠ 0) : y < s.fds.length := by
  by_contra hl
  apply h
  simp only [VfsState.fd]
  rw [List.getD_eq_default _ _ (by omega)]
  rfl

theorem vfsShape_of_WF (s : VfsState) (h : VfsWF s) : VfsShape s :=
  ⟨h.2.1, h.2.2.1, h.2.2.2.1⟩

theorem vfsShape_inode (s : VfsState) (h : VfsShape s) (i : Nat) :
    (s.inode i).name.length = 32 ∧ (s.inode i).data.length = 128 := by
  rcases inode_mem_or_default s i with hm | hd
  · exact h.2.2 _ hm
  · rw [hd]; exact ⟨rfl, rfl⟩

theorem vfs_create_file_rejected (s : VfsState) (name : List Int)
    (h : s.vfs.inodes_used ≥ (MAX_INODES : Int) ∨ ∀ i, i < MAX_INODES → (s.inode i).used ≠ 0) :
    vfs_create_file s name = (s, -1) := by
  unfold vfs_create_file
  split_ifs with h1 h2
  · rfl
  · rfl
  · rcases h with h | h
    · exact absurd h h2
    · exact vfs_create_file_loop_full name s MAX_INODES 0 (fun j _ hj => h j (by omega))

theorem vfs_open_file_not_found (s : VfsState) (name : List Int)
    (h : ∀ i, i < MAX_INODES → (s.inode i).used ≠ 0 →
      c_string (s.inode i).name ≠ c_string name) :
    vfs_open_file s name = (s, -1) := by
  unfold vfs_open_file
  split_ifs with h1
  · rfl
  · apply vfs_open_file_loop_none
    rintro j _ hj ⟨hu, hs⟩
    exact h j (by omega) hu ((strcmp_eq_zero_iff _ _).mp hs)

theorem vfs_open_file_no_fd (s : VfsState) (name : List Int)
    (hm : ∃ i, i < MAX_INODES ∧ (s.inode i).used ≠ 0 ∧ c_string (s.inode i).name = c_string name)
    (hfull : ∀ j, j < MAX_FILES → (s.fd j).used ≠ 0) :
    vfs_open_file s name = (s, -1) := by
  unfold vfs_open_file
  split_ifs with h1
  · rfl
  · obtain ⟨x, hx, hmx, hlow⟩ := exists_lowest
      (fun i => (s.inode i).used ≠ 0 ∧ strcmp (s.inode i).name name = 0) MAX_INODES
      (by
        obtain ⟨i, hi, hu, hc⟩ := hm
        exact ⟨i, hi, hu, (strcmp_eq_zero_iff _ _).mpr hc⟩)
    rw [vfs_open_file_loop_first name s x hmx MAX_INODES 0 (Nat.zero_le x) (by omega)
      (fun j _ hj => hlow j hj)]
    exact vfs_open_file_fds_full x s MAX_FILES 0 (fun j _ hj => hfull j (by omega))

theorem c_string_length_le : ∀ l : List Int, (c_string l).length ≤ l.length := by
  intro l
  induction l with
  | nil => simp [c_string]
  | cons c cs ih =>
    by_cases hc : c = 0
    · simp [c_string, hc]
    · simp only [c_string, if_neg hc, List.length_cons]
      omega

theorem c_string_getD : ∀ (l : List Int) (i : Nat), i < (c_string l).length →
    l.getD i 0 = (c_string l).getD i 0 ∧ l.getD i 0 ≠ 0 := by
  intro l
  induction l with
  | nil => intro i hi; simp [c_string] at hi
  | cons c cs ih =>
    intro i hi
    by_cases hc : c = 0
    · simp [c_string, hc] at hi
    · simp only [c_string, if_neg hc] at hi ⊢
      cases i with
      | zero => exact ⟨rfl, hc⟩
      | succ i =>
        simp only [List.length_cons, Nat.add_lt_add_iff_right] at hi
        simpa using ih i hi

theorem c_string_stop : ∀ l : List Int, l.getD (c_string l).length 0 = 0 := by
  intro l
  induction l with
  | nil => rfl
  | cons c cs ih =>
    by_cases hc : c = 0
    · simp [c_string, hc]
    · simp only [c_string, if_neg hc, List.length_cons, List.getD_cons_succ]
      exact ih

theorem c_string_nonzero : ∀ (l : List Int), ∀ c ∈ c_string l, c ≠ 0 := by
  intro l
  induction l with
  | nil => intro c hc; simp [c_string] at hc
  | cons a as ih =>
    intro c hc
    by_cases ha : a = 0
    · simp [c_string, ha] at hc
    · simp only [c_string, if_neg ha, List.mem_cons] at hc
      rcases hc with e | e
      · rw [e]; exact ha
      · exact ih c e

theorem getD_take (l : List Int) (n i : Nat) (h : i < n) :
    (l.take n).getD i 0 = l.getD i 0 := by
  simp [List.getD_eq_getElem?_getD, List.getElem?_take, h]

theorem getD_append (a b : List Int) (i : Nat) :
    (a ++ b).getD i 0 = if i < a.length then a.getD i 0 else b.getD (i - a.length) 0 := by
  by_cases h : i < a.length
  · simp [List.getD_eq_getElem?_getD, List.getElem?_append_left, h]
  · simp [List.getD_eq_getElem?_getD, List.getElem?_append_right, Nat.le_of_not_lt h, h]

theorem list_ext_getD (a b : List Int) (hl : a.length = b.length)
    (h : ∀ i, i < a.length → a.getD i 0 = b.getD i 0) : a = b := by
  apply List.ext_getElem hl
  intro i h1 h2
  have := h i h1
  rwa [List.getD_eq_getElem _ _ h1, List.getD_eq_getElem _ _ h2] at this

theorem stored_name_spec (name dest : List Int) (hdest : dest.length = 32) :
    (copy_name name 32 0 dest).2 = min (c_string name).length 31 ∧
    ((copy_name name 32 0 dest).1.set (copy_name name 32 0 dest).2 0).length = 32 ∧
    ((copy_name name 32 0 dest).1.set (copy_name name 32 0 dest).2 0).take
        (min (c_string name).length 31 + 1) = (c_string name).take 31 ++ [0] ∧
    c_string ((copy_name name 32 0 dest).1.set (copy_name name 32 0 dest).2 0) =
      (c_string name).take 31 ∧
    ∀ i, min (c_string name).length 31 < i →
      ((copy_name name 32 0 dest).1.set (copy_name name 32 0 dest).2 0).getD i 0 =
        dest.getD i 0 := by
  have hm : min (c_string name).length 31 ≤ 31 := Nat.min_le_right _ _
  have hstop : min (c_string name).length 31 = 31 ∨
      name.getD (min (c_string name).length 31) 0 = 0 := by
    by_cases h : (c_string name).length ≤ 31
    · right
      rw [Nat.min_eq_left h]
      exact c_string_stop name
    · left
      exact Nat.min_eq_right (by omega)
  obtain ⟨c1, c2, c3⟩ := copy_name_spec name _ hm hstop 32 0 dest (Nat.zero_le _) (by omega)
    (fun i _ hi => (c_string_getD name i (by omega)).2)
  generalize hst : (copy_name name 32 0 dest).1.set (copy_name name 32 0 dest).2 0 = stored
  generalize hmdef : min (c_string name).length 31 = m at *
  have hmle : m ≤ (c_string name).length := by rw [← hmdef]; exact Nat.min_le_left _ _
  have hlen : stored.length = 32 := by rw [← hst, List.length_set, c2, hdest]
  have hlow : ∀ i, i < m → stored.getD i 0 = ((c_string name).take 31).getD i 0 := by
    intro i hi
    rw [← hst, c1, getD_set, if_neg (by omega), c3 i, if_pos ⟨Nat.zero_le i, hi, by omega⟩,
      (c_string_getD name i (by omega)).1, getD_take _ _ _ (by omega)]
  have hat : stored.getD m 0 = 0 := by
    rw [← hst, c1, getD_set, if_pos ⟨rfl, by rw [c2]; omega⟩]
  have htl : ((c_string name).take 31).length = m := by
    rw [List.length_take, Nat.min_comm]; exact hmdef
  refine ⟨c1, hlen, ?_, ?_, ?_⟩
  · apply list_ext_getD
    · rw [List.length_take, List.length_append, htl, hlen]
      simp only [List.length_singleton]
      omega
    · intro i h1
      rw [List.length_take, hlen] at h1
      rw [getD_take _ _ _ (by omega), getD_append, htl]
      by_cases hi : i < m
      · rw [if_pos hi]; exact hlow i hi
      · have hi2 : i = m := by omega
        rw [if_neg hi, hi2, hat]
        simp
  · apply c_string_of_pointwise _ _ (fun c hc => c_string_nonzero name c (List.mem_of_mem_take hc))
    · intro i hi
      rw [htl] at hi
      exact hlow i hi
    · rw [htl]; exact hat
  · intro i hi
    rw [← hst, c1, getD_set, if_neg (by omega), c3 i, if_neg (by omega)]

theorem set_getD_self {α : Type} (d : α) :
    ∀ (l : List α) (i : Nat), l.set i (l.getD i d) = l := by
  intro l
  induction l with
  | nil => intro i; rfl
  | cons a as ih =>
    intro i
    cases i with
    | zero => rfl
    | succ i => simp only [List.getD_cons_succ, List.set_cons_succ, ih i]

theorem set_fd_self (s : VfsState) (y : Nat) : s.set_fd y (s.fd y) = s := by
  simp only [VfsState.set_fd, VfsState.fd]
  rw [set_getD_self]

theorem vfs_read_file_spec (s : VfsState) (y : Nat) (buf : List Int) (L : Int)
    (hinit : s.vfs_initialized ≠ 0) (hd : DescOK s y) :
    ∃ (k : Nat) (buf' : List Int),
      (k : Int) = min (max L 0)
        (max (min (s.inode (s.fd y).inode_id.toNat).size 128 - (s.fd y).offset) 0) ∧
      vfs_read_file s (y : Int) buf L =
        (s.set_fd y { s.fd y with offset := (s.fd y).offset + (k : Int) }, buf', (k : Int)) ∧
      buf'.length = buf.length ∧
      ∀ idx, buf'.getD idx 0 =
        if idx < k ∧ idx < buf.length then
          (s.inode (s.fd y).inode_id.toNat).data.getD ((s.fd y).offset.toNat + idx) 0
        else buf.getD idx 0 := by
  obtain ⟨hy, hused, _, _, hin, ho⟩ := hd
  have hv := vfs_read_file_valid s y buf L hinit hy hused hin
  generalize hnode : s.inode (s.fd y).inode_id.toNat = node at *
  obtain ⟨o, hoeq⟩ : ∃ o : Nat, (s.fd y).offset = (o : Int) := ⟨(s.fd y).offset.toNat, by omega⟩
  by_cases hearly : node.size = 0 ∨ (s.fd y).offset ≥ node.size
  · rw [if_pos hearly] at hv
    refine ⟨0, buf, by omega, ?_, rfl, fun idx => by rw [if_neg (by omega)]⟩
    rw [hv]
    have e : ({ s.fd y with offset := (s.fd y).offset + ((0 : Nat) : Int) } : FileDescriptor) =
        s.fd y := by
      simp
    rw [e, set_fd_self]
    rfl
  · rw [if_neg hearly] at hv
    obtain ⟨k, hk⟩ : ∃ k : Nat,
        (k : Int) = min (max L 0) (max (min node.size 128 - (s.fd y).offset) 0) :=
      ⟨(min (max L 0) (max (min node.size 128 - (s.fd y).offset) 0)).toNat, by omega⟩
    have hfuel : (128 - (s.fd y).offset).toNat = 128 - o := by omega
    rw [hfuel, hoeq] at hv
    obtain ⟨r1, r2, r3, r4⟩ := vfs_read_file_loop_spec node L (128 - o) k 0 o buf (by omega)
      (by omega) (by omega)
    simp only [Nat.cast_zero, Nat.zero_add, Nat.sub_zero] at r1 r2 r3 r4
    refine ⟨k, _, hk, ?_, r3, ?_⟩
    · rw [hv, r1, r2, hoeq]
      push_cast
      rfl
    · intro idx
      rw [r4 idx, hoeq]
      simp only [Int.toNat_ofNat, Nat.zero_le, true_and]

theorem vfs_write_file_spec (s : VfsState) (y : Nat) (buf : List Int) (N : Int)
    (hinit : s.vfs_initialized ≠ 0) (hd : DescOK s y) :
    ∃ (k : Nat) (data' : List Int),
      (k : Int) = min (max N 0) (max (128 - (s.fd y).offset) 0) ∧
      vfs_write_file s (y : Int) buf N =
        ((s.set_fd y { s.fd y with offset := (s.fd y).offset + (k : Int) }).set_inode
          (s.fd y).inode_id.toNat
          { s.inode (s.fd y).inode_id.toNat with
            data := data',
            size := max (s.inode (s.fd y).inode_id.toNat).size ((s.fd y).offset + (k : Int)) },
          (k : Int)) ∧
      data'.length = (s.inode (s.fd y).inode_id.toNat).data.length ∧
      ∀ idx, data'.getD idx 0 =
        if (s.fd y).offset.toNat ≤ idx ∧ idx < (s.fd y).offset.toNat + k ∧
            idx < (s.inode (s.fd y).inode_id.toNat).data.length then
          buf.getD (idx - (s.fd y).offset.toNat) 0
        else (s.inode (s.fd y).inode_id.toNat).data.getD idx 0 := by
  obtain ⟨hy, hused, _, _, hin, ho⟩ := hd
  have hv := vfs_write_file_valid s y buf N hinit hy hused hin
  generalize hnode : s.inode (s.fd y).inode_id.toNat = node at *
  obtain ⟨o, hoeq⟩ : ∃ o : Nat, (s.fd y).offset = (o : Int) := ⟨(s.fd y).offset.toNat, by omega⟩
  obtain ⟨k, hk⟩ : ∃ k : Nat, (k : Int) = min (max N 0) (max (128 - (s.fd y).offset) 0) :=
    ⟨(min (max N 0) (max (128 - (s.fd y).offset) 0)).toNat, by omega⟩
  have hfuel : (128 - (s.fd y).offset).toNat = 128 - o := by omega
  rw [hfuel, hoeq] at hv
  obtain ⟨r1, r2, r3, r4⟩ := vfs_write_file_loop_spec buf N (128 - o) k 0 o node.data (by omega)
    (by omega) (by omega)
  simp only [Nat.cast_zero, Nat.zero_add, Nat.sub_zero] at r1 r2 r3 r4
  refine ⟨k, _, hk, ?_, r3, ?_⟩
  · rw [hv, r1, r2, hoeq]
    have hmax : (if ((o + k : Nat) : Int) > node.size then ((o + k : Nat) : Int) else node.size) =
        max node.size ((o : Int) + (k : Int)) := by
      split_ifs <;> omega
    rw [hmax]
    push_cast
    rfl
  · intro idx
    rw [r4 idx, hoeq]
    simp only [Int.toNat_ofNat]

theorem inode_used_in_range (s : VfsState) (x : Nat) (h : (s.inode x).used ≠ 0) :
    x < s.vfs.inodes.length := by
  by_contra hl
  apply h
  simp only [VfsState.inode]
  rw [List.getD_eq_default _ _ (by omega)]
  rfl

theorem vfs_open_file_desc (s : VfsState) (name : List Int) (hinit : s.vfs_initialized ≠ 0)
    (hmatch : ∃ i, i < MAX_INODES ∧ (s.inode i).used ≠ 0 ∧
      c_string (s.inode i).name = c_string name)
    (hfree : ∃ j, j < MAX_FILES ∧ (s.fd j).used = 0) :
    ∃ x y : Nat, x < MAX_INODES ∧ y < MAX_FILES ∧
      ((s.inode x).used ≠ 0 ∧ c_string (s.inode x).name = c_string name) ∧
      (∀ i, i < x → ¬ ((s.inode i).used ≠ 0 ∧ c_string (s.inode i).name = c_string name)) ∧
      (s.fd y).used = 0 ∧ (∀ j, j < y → (s.fd j).used ≠ 0) ∧
      vfs_open_file s name =
        (s.set_fd y { used := 1, inode_id := (x : Int), offset := 0 }, (y : Int)) := by
  obtain ⟨x, hx, hmx, hxlow⟩ := exists_lowest
    (fun i => (s.inode i).used ≠ 0 ∧ c_string (s.inode i).name = c_string name) MAX_INODES hmatch
  obtain ⟨y, hy, hfy, hylow⟩ := exists_lowest (fun j => (s.fd j).used = 0) MAX_FILES hfree
  exact ⟨x, y, hx, hy, hmx, hxlow, hfy, hylow,
    vfs_open_file_success s name x y hinit hx hy ⟨hmx.1, (strcmp_eq_zero_iff _ _).mpr hmx.2⟩
      (fun j hj h => hxlow j hj ⟨h.1, (strcmp_eq_zero_iff _ _).mp h.2⟩) hfy hylow⟩

theorem vfs_read_file_other (u : VfsState) (a : Int) (b : Nat) (buf : List Int) (len : Int)
    (hab : a ≠ (b : Int)) : (vfs_read_file u a buf len).1.fd b = u.fd b := by
  unfold vfs_read_file
  dsimp only
  split_ifs with h1 h2 h3 h4
  · rfl
  · rfl
  · rfl
  · rfl
  · show (u.set_fd a.toNat _).fd b = _
    rw [fd_set_fd, if_neg (fun e => hab (by omega))]

theorem vfs_write_file_other (u : VfsState) (a : Int) (b : Nat) (buf : List Int) (len : Int)
    (hab : a ≠ (b : Int)) : (vfs_write_file u a buf len).1.fd b = u.fd b := by
  unfold vfs_write_file
  dsimp only
  split_ifs with h1 h2 h3 h4
  · rfl
  · rfl
  · rfl
  · show ((u.set_fd a.toNat _).set_inode _ _).fd b = _
    rw [fd_set_inode, fd_set_fd, if_neg (fun e => hab (by omega))]
  · show ((u.set_fd a.toNat _).set_inode _ _).fd b = _
    rw [fd_set_inode, fd_set_fd, if_neg (fun e => hab (by omega))]

theorem write_then_read (u : VfsState) (a b : Nat) (buf rbuf : List Int) (N L : Int)
    (hinit : u.vfs_initialized ≠ 0) (hshape : VfsShape u) (ha : DescOK u a) (hb : DescOK u b)
    (hab : a ≠ b) (hsame : (u.fd a).inode_id = (u.fd b).inode_id)
    (hrbuf : L ≤ (rbuf.length : Int)) :
    ∀ p : Nat, (u.fd a).offset ≤ (p : Int) →
      (p : Int) < (u.fd a).offset + (vfs_write_file u (a : Int) buf N).2 →
      (u.fd b).offset ≤ (p : Int) →
      (p : Int) < (u.fd b).offset +
        (vfs_read_file (vfs_write_file u (a : Int) buf N).1 (b : Int) rbuf L).2.2 →
      (vfs_read_file (vfs_write_file u (a : Int) buf N).1 (b : Int) rbuf L).2.1.getD
          (p - (u.fd b).offset.toNat) 0 = buf.getD (p - (u.fd a).offset.toNat) 0 := by
  obtain ⟨kw, data', hkw, hweq, hwlen, hwpt⟩ := vfs_write_file_spec u a buf N hinit ha
  have hxl := inode_used_in_range u _ ha.2.2.2.2.1
  have hdl := (vfsShape_inode u hshape (u.fd a).inode_id.toNat).2
  generalize hw : (vfs_write_file u (a : Int) buf N).1 = w at *
  have hwst : w = (u.set_fd a { u.fd a with offset := (u.fd a).offset + (kw : Int) }).set_inode
      (u.fd a).inode_id.toNat
      { u.inode (u.fd a).inode_id.toNat with
        data := data',
        size := max (u.inode (u.fd a).inode_id.toNat).size ((u.fd a).offset + (kw : Int)) } := by
    rw [← hw, hweq]
  have hwb : w.fd b = u.fd b := by
    rw [hwst, fd_set_inode, fd_set_fd, if_neg (fun e => hab e.1)]
  have hwnode : w.inode (u.fd b).inode_id.toNat =
      { u.inode (u.fd a).inode_id.toNat with
        data := data',
        size := max (u.inode (u.fd a).inode_id.toNat).size ((u.fd a).offset + (kw : Int)) } := by
    rw [hwst, ← hsame, inode_set_inode,
      if_pos ⟨rfl, by rw [(set_fd_shape _ _ _).2.1]; exact hxl⟩]
  have hwinit : w.vfs_initialized ≠ 0 := by
    rw [hwst, (set_inode_shape _ _ _).2.2, (set_fd_shape _ _ _).2.2]; exact hinit
  have hwd : DescOK w b := by
    obtain ⟨b1, b2, b3, b4, b5, b6⟩ := hb
    refine ⟨b1, by rw [hwb]; exact b2, by rw [hwb]; exact b3, by rw [hwb]; exact b4, ?_,
      by rw [hwb]; exact b6⟩
    rw [hwb, hwnode]
    exact ha.2.2.2.2.1
  obtain ⟨kr, rbuf', hkr, hreq, _, hrpt⟩ := vfs_read_file_spec w b rbuf L hwinit hwd
  intro p h1 h2 h3 h4
  rw [hweq] at h2
  rw [hreq] at h4 ⊢
  simp only at h2 h4 ⊢
  rw [hwb] at hrpt
  have hao := ha.2.2.2.2.2
  have hbo := hb.2.2.2.2.2
  rw [hrpt, if_pos ⟨by omega, by omega⟩, hwnode]
  show data'.getD _ 0 = _
  rw [hwpt, if_pos ⟨by omega, by omega, by omega⟩]
  congr 1
  omega


theorem drop_cons_getD : ∀ (l : List Int) (j : Nat), l.getD j 0 ≠ 0 →
    l.drop j = l.getD j 0 :: l.drop (j + 1) := by
  intro l
  induction l with
  | nil => intro j h; simp at h
  | cons a as ih =>
    intro j h
    cases j with
    | zero => rfl
    | succ j =>
      simp only [List.getD_cons_succ] at h
      simp only [List.drop_succ_cons, List.getD_cons_succ]
      exact ih j h

theorem c_string_drop_zero : ∀ (l : List Int) (j : Nat), l.getD j 0 = 0 →
    c_string (l.drop j) = [] := by
  intro l
  induction l with
  | nil => intro j _; simp [c_string]
  | cons a as ih =>
    intro j h
    cases j with
    | zero =>
      simp only [List.getD_cons_zero] at h
      simp [c_string, h]
    | succ j =>
      simp only [List.getD_cons_succ] at h
      simp only [List.drop_succ_cons]
      exact ih j h

theorem emitted_push (buf0 out : List Int) (pos : Nat) (buf : List Int) (c : Int)
    (h : Emitted buf0 out pos buf) (hpos : pos < 255) (hcap : 255 ≤ buf0.length) :
    Emitted buf0 (out ++ [c]) (pos + 1) (buf.set pos c) := by
  obtain ⟨h1, h2, h3⟩ := h
  have hlen : out.length = pos := by omega
  refine ⟨by rw [List.length_append, List.length_singleton]; omega, by rw [List.length_set, h2],
    fun idx => ?_⟩
  rw [getD_set, h3 idx, getD_append, hlen]
  by_cases hi : pos = idx
  · subst hi
    rw [if_pos ⟨rfl, by omega⟩, if_pos (by omega), if_neg (by omega)]
    simp
  · have hn : ¬ (pos = idx ∧ pos < buf.length) := fun e => hi e.1
    rw [if_neg hn]
    by_cases hlt : idx < pos
    · rw [if_pos hlt, if_pos (by omega), if_pos hlt]
    · rw [if_neg hlt, if_neg (by omega)]

theorem emitted_saturated (buf0 out extra : List Int) (pos : Nat) (buf : List Int)
    (h : Emitted buf0 out pos buf) (hpos : ¬ pos < 255) :
    Emitted buf0 (out ++ extra) pos buf := by
  obtain ⟨h1, h2, h3⟩ := h
  refine ⟨by rw [List.length_append]; omega, h2, fun idx => ?_⟩
  rw [h3 idx, getD_append]
  by_cases hlt : idx < pos
  · rw [if_pos hlt, if_pos hlt, if_pos (by omega)]
  · rw [if_neg hlt, if_neg hlt]

theorem vfs_list_files_name_spec (buf0 name : List Int) (hcap : 255 ≤ buf0.length) (n : Nat) :
    ∀ (j pos : Nat) (out buf : List Int), 31 - j ≤ n → Emitted buf0 out pos buf →
      Emitted buf0 (out ++ ((c_string (name.drop j)).take (31 - j)).filter printable)
        (vfs_list_files_name name n j pos buf).1 (vfs_list_files_name name n j pos buf).2 := by
  induction n with
  | zero =>
    intro j pos out buf hn h
    have h0 : 31 - j = 0 := by omega
    simp only [vfs_list_files_name, h0, List.take_zero, List.filter_nil, List.append_nil]
    exact h
  | succ n ih =>
    intro j pos out buf hn h
    simp only [vfs_list_files_name]
    by_cases hg : name.getD j 0 ≠ 0 ∧ j < 31 ∧ pos < 255
    · rw [if_pos hg]
      obtain ⟨hc, hj, hpos⟩ := hg
      have hdrop := drop_cons_getD name j hc
      have h31 : 31 - j = (31 - (j + 1)) + 1 := by omega
      have hexp : ((c_string (name.drop j)).take (31 - j)).filter printable =
          (if printable (name.getD j 0) then [name.getD j 0] else []) ++
            ((c_string (name.drop (j + 1))).take (31 - (j + 1))).filter printable := by
        rw [hdrop, h31]
        simp only [c_string, if_neg hc, List.take_succ_cons, List.filter_cons]
        split_ifs <;> simp
      rw [hexp, ← List.append_assoc]
      by_cases hp : name.getD j 0 ≥ 32 ∧ name.getD j 0 ≤ 126
      · rw [if_pos hp]
        have hpr : printable (name.getD j 0) = true := by
          simp only [printable, decide_eq_true_eq]
          omega
        rw [hpr, if_pos rfl]
        exact ih (j + 1) (pos + 1) _ _ (by omega) (emitted_push buf0 out pos buf _ h hpos hcap)
      · rw [if_neg hp]
        have hpr : printable (name.getD j 0) = false := by
          simp only [printable, decide_eq_false_iff_not]
          omega
        rw [hpr]
        simp only [Bool.false_eq_true, if_false, List.append_nil]
        exact ih (j + 1) pos _ _ (by omega) h
    · rw [if_neg hg]
      by_cases hpos : pos < 255
      · have hnil : ((c_string (name.drop j)).take (31 - j)).filter printable = [] := by
          by_cases hj : j < 31
          · have hc : name.getD j 0 = 0 := by
              by_contra hc
              exact hg ⟨hc, hj, hpos⟩
            rw [c_string_drop_zero name j hc]
            simp
          · have h0 : 31 - j = 0 := by omega
            rw [h0]
            rfl
        rw [hnil, List.append_nil]
        exact h
      · exact emitted_saturated buf0 out _ pos buf h hpos

theorem vfs_list_files_inode_spec (s : VfsState) (buf0 : List Int) (hcap : 255 ≤ buf0.length)
    (hname : ∀ i, (c_string (s.inode i).name).length ≤ 31)
    (i pos : Nat) (out buf : List Int) (h : Emitted buf0 out pos buf) :
    Emitted buf0 (out ++ listing_entry s i) (vfs_list_files_inode s (pos, buf) i).1
      (vfs_list_files_inode s (pos, buf) i).2 := by
  unfold vfs_list_files_inode listing_entry
  by_cases hu : (s.inode i).used ≠ 0
  · rw [if_pos hu, if_pos hu]
    have hl := vfs_list_files_name_spec buf0 (s.inode i).name hcap 32 0 pos out buf (by omega) h
    simp only [List.drop_zero, Nat.sub_zero] at hl
    rw [List.take_of_length_le (hname i)] at hl
    dsimp only
    rw [← List.append_assoc]
    by_cases hpos : (vfs_list_files_name (s.inode i).name 32 0 pos buf).1 < 255
    · rw [if_pos hpos]
      exact emitted_push buf0 _ _ _ 32 hl hpos hcap
    · rw [if_neg hpos]
      exact emitted_saturated buf0 _ _ _ _ hl hpos
  · rw [if_neg hu, if_neg hu, List.append_nil]
    exact h

theorem vfs_list_files_fold_spec (s : VfsState) (buf0 : List Int) (hcap : 255 ≤ buf0.length)
    (hname : ∀ i, (c_string (s.inode i).name).length ≤ 31) (is : List Nat) :
    ∀ (st : Nat × List Int) (out : List Int), Emitted buf0 out st.1 st.2 →
      Emitted buf0 (out ++ listing_of s is) (is.foldl (vfs_list_files_inode s) st).1
        (is.foldl (vfs_list_files_inode s) st).2 := by
  induction is with
  | nil =>
    intro st out h
    simp only [listing_of, List.append_nil, List.foldl_nil]
    exact h
  | cons i is ih =>
    intro st out h
    simp only [listing_of, List.foldl_cons]
    rw [← List.append_assoc]
    exact ih _ _ (vfs_list_files_inode_spec s buf0 hcap hname i st.1 out st.2 h)

theorem nameInv_inode (s : VfsState) (h : NameInv s) (i : Nat) :
    (c_string (s.inode i).name).length ≤ 31 := by
  rcases inode_mem_or_default s i with hm | hd
  · exact h _ hm
  · rw [hd]; decide

theorem nameInv_step {s s' : VfsState} (hs : VStep s s') (hwf : VfsWF s) (h : NameInv s) :
    NameInv s' := by
  cases hs with
  | create name =>
    rcases vfs_create_file_state s name with e | ⟨x, _, _, e⟩
    · rw [e]; exact h
    · rw [e]
      intro n hn
      simp only [created, VfsState.set_inode] at hn
      rcases List.mem_or_eq_of_mem_set hn with hm | he
      · exact h n hm
      · rw [he]
        obtain ⟨_, _, _, n4, _⟩ := stored_name_spec name (s.inode x).name (vfsWF_inode s hwf x).1
        simp only
        rw [n4, List.length_take]
        omega
  | open_ name =>
    rcases vfs_open_file_state s name with e | ⟨y, f, e⟩
    · rw [e]; exact h
    · rw [e]; exact h
  | read fd buf len =>
    rcases vfs_read_file_state s fd buf len with e | ⟨y, f, e⟩
    · rw [e]; exact h
    · rw [e]; exact h
  | write fd buf len =>
    rcases vfs_write_file_state s fd buf len with e | ⟨y, f, id, data', size', _, e⟩
    · rw [e]; exact h
    · rw [e]
      intro n hn
      simp only [VfsState.set_inode, VfsState.set_fd] at hn
      rcases List.mem_or_eq_of_mem_set hn with hm | he
      · exact h n hm
      · rw [he]
        exact nameInv_inode s h id
  | close fd =>
    rcases vfs_close_file_state s fd with e | ⟨y, f, e⟩
    · rw [e]; exact h
    · rw [e]; exact h

theorem nameInv_reach {s : VfsState} (hr : VReach s) : NameInv s := by
  induction hr with
  | init =>
    unfold NameInv
    decide
  | step hp hs ih => exact nameInv_step hs (vfsWF_reach hp) ih


/-! ## Scheduler bounds, file-system invariants, page structures and gates -/

theorem pick_negative (k : Kernel)
    (h : ∀ j, j < MAX_PROCESSES → (k.proc j).state = 0 → (k.proc j).priority ≤ -1) :
    pick k = -1 := by
  rcases pick_spec k with h1 | ⟨x, _, hx, hs, hp, _, _⟩
  · exact h1.1
  · have := h x hx hs
    omega

theorem curInv_step {k k' : Kernel} (hs : Step k k')
    (h : CurInv k) : CurInv k' := by
  cases hs with
  | create task priority privilege =>
    rcases create_process_cases k task priority privilege with e | ⟨x, _, _, _, e⟩
    · rw [e]; exact h
    · rw [e]
      by_cases hp : privilege = 3
      · simp only [if_pos hp]; exact h
      · simp only [if_neg hp]; exact h
  | kill pid =>
    unfold CurInv
    rw [(kill_process_frame k pid).1]
    exact h
  | sched =>
    by_cases hn : pick k = -1 ∨ pick k = k.current_process
    · rw [schedule_noswitch k hn]; exact h
    · have h1 : pick k ≠ -1 := fun e => hn (Or.inl e)
      unfold CurInv
      rw [schedule_current k h1]
      rcases pick_spec k with h2 | ⟨x, hx, hlt, _⟩
      · exact absurd h2.1 h1
      · rw [hx]
        simp only [MAX_PROCESSES] at hlt ⊢
        omega

theorem length_step {k k' : Kernel} (hs : Step k k') :
    k'.processes.length = k.processes.length := by
  cases hs with
  | create task priority privilege =>
    rcases create_process_cases k task priority privilege with e | ⟨x, _, _, _, e⟩
    · rw [e]
    · rw [e]; simp
  | kill pid => exact (kill_process_frame k pid).2
  | sched => exact (schedule_proc k 0).2

theorem curInv_reach {k0 k : Kernel} (hr : Reach k0 k) (hl : k0.processes.length = MAX_PROCESSES)
    (h : CurInv k0) : CurInv k ∧ k.processes.length = MAX_PROCESSES := by
  induction hr with
  | init => exact ⟨h, hl⟩
  | step _ hs ih => exact ⟨curInv_step hs ih.1, by rw [length_step hs]; exact ih.2⟩

theorem set_state_priority (ps : List Process) (i j : Nat) (v : Int) :
    ((set_state ps i v).getD j default).priority = (ps.getD j default).priority := by
  rw [getD_set_state]
  split_ifs <;> rfl

theorem set_state_state (ps : List Process) (i j : Nat) (v : Int) :
    ((set_state ps i v).getD j default).state =
      if i = j ∧ i < ps.length then v else (ps.getD j default).state := by
  rw [getD_set_state]
  split_ifs <;> rfl

theorem schedule_priority (k : Kernel) (j : Nat) :
    ((schedule k).proc j).priority = (k.proc j).priority := by
  by_cases hn : pick k = -1 ∨ pick k = k.current_process
  · rw [schedule_noswitch k hn]
  · rw [schedule_switch k (fun e => hn (Or.inl e)) (fun e => hn (Or.inr e))]
    simp only [Kernel.proc, set_state_priority]

/-- After `schedule()`, a Ready slot other than the previously active one is
outranked by the active slot or has a negative priority. -/
theorem schedule_ready_bound (k : Kernel) (hc : CurInv k) (j : Nat) (hj : j < MAX_PROCESSES)
    (hne : (j : Int) ≠ k.current_process) (hr : ((schedule k).proc j).state = 0) :
    ((schedule k).proc j).priority ≤
        ((schedule k).proc (schedule k).current_process.toNat).priority ∨
      ((schedule k).proc j).priority < 0 := by
  rw [schedule_priority, schedule_priority]
  rcases pick_spec k with ⟨h1, hneg⟩ | ⟨x, hx, hxlt, hxs, hxp, hmax, _⟩
  · rw [schedule_noswitch k (Or.inl h1)] at hr ⊢
    right
    have := hneg j hj hr
    omega
  · by_cases hcur : pick k = k.current_process
    · rw [schedule_noswitch k (Or.inr hcur)] at hr ⊢
      left
      rw [← hcur, hx, Int.toNat_ofNat]
      exact hmax j hj hr
    · have h1 : pick k ≠ -1 := by rw [hx]; omega
      rw [schedule_switch k h1 hcur] at hr ⊢
      simp only [Kernel.proc, set_state_state, length_set_state] at hr
      rw [hx, Int.toNat_ofNat] at hr
      show (k.proc j).priority ≤ (k.proc (pick k).toNat).priority ∨ _
      rw [hx, Int.toNat_ofNat]
      have hjc : ¬ (k.current_process.toNat = j ∧ k.current_process.toNat < k.processes.length) := by
        rintro ⟨e, _⟩
        apply hne
        have := hc.1
        omega
      by_cases hxj : x = j ∧ x < k.processes.length
      · rw [if_pos hxj] at hr
        exact absurd hr (by decide)
      · rw [if_neg hxj, if_neg hjc] at hr
        left
        exact hmax j hj hr

theorem vreach_of_all {s : VfsState} (hr : VReachAll s) : VReach s := by
  induction hr with
  | init => exact VReach.init
  | step _ hc ih =>
    cases hc with
    | op hs => exact VReach.step ih hs
    | list buf => exact ih

theorem vreach_of_fresh {s : VfsState} (hr : VReachFresh s) : VReach s := by
  induction hr with
  | init => exact VReach.init
  | create name _ _ ih => exact VReach.step ih (VStep.create _ name)
  | open_ name _ ih => exact VReach.step ih (VStep.open_ _ name)
  | read fd buf len _ ih => exact VReach.step ih (VStep.read _ fd buf len)
  | write fd buf len _ ih => exact VReach.step ih (VStep.write _ fd buf len)
  | close fd _ ih => exact VReach.step ih (VStep.close _ fd)
  | list buf _ ih => exact ih

theorem files_step {s s' : VfsState} (hs : VStep s s') (h : s.vfs.files = s.vfs.inodes_used) :
    s'.vfs.files = s'.vfs.inodes_used := by
  cases hs with
  | create name =>
    rcases vfs_create_file_state s name with e | ⟨x, _, _, e⟩
    · rw [e]; exact h
    · rw [e]
      simp only [created, VfsState.set_inode]
      rw [h]
  | open_ name =>
    rcases vfs_open_file_state s name with e | ⟨y, f, e⟩
    · rw [e]; exact h
    · rw [e]; exact h
  | read fd buf len =>
    rcases vfs_read_file_state s fd buf len with e | ⟨y, f, e⟩
    · rw [e]; exact h
    · rw [e]; exact h
  | write fd buf len =>
    rcases vfs_write_file_state s fd buf len with e | ⟨y, f, id, data', size', _, e⟩
    · rw [e]; exact h
    · rw [e]; exact h
  | close fd =>
    rcases vfs_close_file_state s fd with e | ⟨y, f, e⟩
    · rw [e]; exact h
    · rw [e]; exact h

theorem files_reach {s : VfsState} (hr : VReach s) : s.vfs.files = s.vfs.inodes_used := by
  induction hr with
  | init => rfl
  | step _ hs ih => exact files_step hs ih

theorem names_unique_same (s s' : VfsState) (h : NamesUnique s)
    (e : ∀ j, (s'.inode j).name = (s.inode j).name ∧ (s'.inode j).used = (s.inode j).used) :
    NamesUnique s' := by
  intro i j hi hj hui huj hn
  rw [(e i).2] at hui
  rw [(e j).2] at huj
  rw [(e i).1, (e j).1] at hn
  exact h i j hi hj hui huj hn

theorem names_unique_created (s : VfsState) (x : Nat) (name : List Int) (hwf : VfsWF s)
    (h : NamesUnique s) (hf : Fresh s name) :
    NamesUnique (created s x name) := by
  obtain ⟨_, _, _, n4, _⟩ := stored_name_spec name (s.inode x).name (vfsWF_inode s hwf x).1
  intro i j hi hj hui huj hn
  rw [inode_created] at hui huj hn
  rw [inode_created] at hn
  by_cases hxi : x = i ∧ x < s.vfs.inodes.length
  · by_cases hxj : x = j ∧ x < s.vfs.inodes.length
    · omega
    · rw [if_neg hxj] at huj
      rw [if_pos hxi, if_neg hxj] at hn
      simp only at hn
      rw [n4] at hn
      exact absurd hn.symm (hf j hj huj)
  · rw [if_neg hxi] at hui
    by_cases hxj : x = j ∧ x < s.vfs.inodes.length
    · rw [if_neg hxi, if_pos hxj] at hn
      simp only at hn
      rw [n4] at hn
      exact absurd hn (hf i hi hui)
    · rw [if_neg hxj] at huj
      rw [if_neg hxi, if_neg hxj] at hn
      exact h i j hi hj hui huj hn

theorem names_unique_fresh {s : VfsState} (hr : VReachFresh s) : NamesUnique s := by
  induction hr with
  | init =>
    intro i j hi hj hui
    exfalso
    revert hui
    simp only [MAX_INODES] at hi
    interval_cases i <;> decide
  | @create s name hp hf ih =>
    rcases vfs_create_file_state s name with e | ⟨x, _, _, e⟩
    · rw [e]; exact ih
    · rw [e]
      exact names_unique_created s x name (vfsWF_reach (vreach_of_fresh hp)) ih hf
  | @open_ s name _ ih =>
    rcases vfs_open_file_state s name with e | ⟨y, f, e⟩
    · rw [e]; exact ih
    · rw [e]; exact names_unique_same _ _ ih (fun j => ⟨rfl, rfl⟩)
  | @read s fd buf len _ ih =>
    rcases vfs_read_file_state s fd buf len with e | ⟨y, f, e⟩
    · rw [e]; exact ih
    · rw [e]; exact names_unique_same _ _ ih (fun j => ⟨rfl, rfl⟩)
  | @write s fd buf len _ ih =>
    rcases vfs_write_file_state s fd buf len with e | ⟨y, f, id, data', size', _, e⟩
    · rw [e]; exact ih
    · rw [e]
      refine names_unique_same _ _ ih (fun j => ?_)
      rw [inode_set_inode]
      split_ifs with hc
      · rw [← hc.1]; exact ⟨rfl, rfl⟩
      · exact ⟨rfl, rfl⟩
  | @close s fd _ ih =>
    rcases vfs_close_file_state s fd with e | ⟨y, f, e⟩
    · rw [e]; exact ih
    · rw [e]; exact names_unique_same _ _ ih (fun j => ⟨rfl, rfl⟩)
  | list buf _ ih => exact ih

theorem descOK_of_inv (s : VfsState) (h : DescInv s) (y : Nat) (hy : y < MAX_FILES)
    (hu : (s.fd y).used ≠ 0) : DescOK s y := by
  obtain ⟨h1, h2, h3, h4, _⟩ := h.2 y hy hu
  exact ⟨hy, hu, h1, h2, h3, h4⟩

theorem vfs_open_file_fds_bound (i : Nat) (n : Nat) :
    ∀ (j : Nat) (s : VfsState), (vfs_open_file_fds i n j s).1 = s ∨
      ∃ y, (vfs_open_file_fds i n j s).1 =
        s.set_fd y { used := 1, inode_id := (i : Int), offset := 0 } := by
  induction n with
  | zero => intro j s; left; rfl
  | succ n ih =>
    intro j s
    simp only [vfs_open_file_fds]
    split_ifs
    · right; exact ⟨j, rfl⟩
    · exact ih (j + 1) s

theorem vfs_open_file_loop_bound (name : List Int) (n : Nat) :
    ∀ (i : Nat) (s : VfsState), (vfs_open_file_loop name n i s).1 = s ∨
      ∃ x y, x < i + n ∧ (s.inode x).used ≠ 0 ∧
        (vfs_open_file_loop name n i s).1 =
          s.set_fd y { used := 1, inode_id := (x : Int), offset := 0 } := by
  induction n with
  | zero => intro j s; left; rfl
  | succ n ih =>
    intro i s
    simp only [vfs_open_file_loop]
    split_ifs with h
    · rcases vfs_open_file_fds_bound i MAX_FILES 0 s with e | ⟨y, e⟩
      · left; exact e
      · right; exact ⟨i, y, by omega, h.1, e⟩
    · rcases ih (i + 1) s with e | ⟨x, y, hx, hu, e⟩
      · left; exact e
      · right; exact ⟨x, y, by omega, hu, e⟩

theorem vfs_open_file_bound (s : VfsState) (name : List Int) :
    (vfs_open_file s name).1 = s ∨
      ∃ x y, x < MAX_INODES ∧ (s.inode x).used ≠ 0 ∧
        (vfs_open_file s name).1 =
          s.set_fd y { used := 1, inode_id := (x : Int), offset := 0 } := by
  unfold vfs_open_file
  split_ifs
  · left; rfl
  · rcases vfs_open_file_loop_bound name MAX_INODES 0 s with e | ⟨x, y, hx, hu, e⟩
    · left; exact e
    · right; exact ⟨x, y, by omega, hu, e⟩

theorem descInv_created (s : VfsState) (x : Nat) (name : List Int)
    (hfree : (s.inode x).used = 0) (h : DescInv s) : DescInv (created s x name) := by
  constructor
  · intro i
    rw [inode_created]
    split_ifs
    · exact ⟨le_refl _, by show (0 : Int) ≤ 128; decide⟩
    · exact h.1 i
  · intro y hy hu
    rw [fd_created] at hu ⊢
    obtain ⟨h1, h2, h3, h4, h5⟩ := h.2 y hy hu
    rw [inode_created]
    have hne : ¬ (x = (s.fd y).inode_id.toNat ∧ x < s.vfs.inodes.length) := by
      rintro ⟨e, _⟩
      rw [← e] at h3
      exact h3 hfree
    rw [if_neg hne]
    exact ⟨h1, h2, h3, h4, h5⟩

theorem descInv_open (s : VfsState) (x y : Nat) (hx : x < MAX_INODES)
    (hu : (s.inode x).used ≠ 0) (h : DescInv s) :
    DescInv (s.set_fd y { used := 1, inode_id := (x : Int), offset := 0 }) := by
  constructor
  · intro i; exact h.1 i
  · intro y' hy' hu'
    rw [fd_set_fd] at hu' ⊢
    simp only [inode_set_fd]
    by_cases hc : y = y' ∧ y < s.fds.length
    · rw [if_pos hc]
      simp only [Int.toNat_ofNat]
      exact ⟨by omega, by omega, hu, le_refl _, (h.1 x).1⟩
    · rw [if_neg hc] at hu' ⊢
      exact h.2 y' hy' hu'

theorem descInv_close (s : VfsState) (y : Nat) (h : DescInv s) :
    DescInv (s.set_fd y { used := 0, inode_id := -1, offset := 0 }) := by
  constructor
  · intro i; exact h.1 i
  · intro y' hy' hu'
    rw [fd_set_fd] at hu' ⊢
    simp only [inode_set_fd]
    by_cases hc : y = y' ∧ y < s.fds.length
    · rw [if_pos hc] at hu'
      exact absurd rfl hu'
    · rw [if_neg hc] at hu' ⊢
      exact h.2 y' hy' hu'

theorem descInv_read (s : VfsState) (y : Nat) (k : Int) (hy : y < MAX_FILES)
    (hu : (s.fd y).used ≠ 0) (hk0 : 0 ≤ k)
    (hk : (s.fd y).offset + k ≤ (s.inode (s.fd y).inode_id.toNat).size) (h : DescInv s) :
    DescInv (s.set_fd y { s.fd y with offset := (s.fd y).offset + k }) := by
  constructor
  · intro i; exact h.1 i
  · intro y' hy' hu'
    rw [fd_set_fd] at hu' ⊢
    simp only [inode_set_fd]
    by_cases hc : y = y' ∧ y < s.fds.length
    · rw [if_pos hc]
      obtain ⟨h1, h2, h3, h4, _⟩ := h.2 y hy hu
      exact ⟨h1, h2, h3, by show 0 ≤ (s.fd y).offset + k; omega, hk⟩
    · rw [if_neg hc] at hu' ⊢
      exact h.2 y' hy' hu'

theorem descInv_write (s : VfsState) (y : Nat) (k : Int) (data' : List Int) (hy : y < MAX_FILES)
    (hu : (s.fd y).used ≠ 0) (hk0 : 0 ≤ k) (hk : (s.fd y).offset + k ≤ 128) (h : DescInv s) :
    DescInv
      ((s.set_fd y { s.fd y with offset := (s.fd y).offset + k }).set_inode
        (s.fd y).inode_id.toNat
        { s.inode (s.fd y).inode_id.toNat with
          data := data',
          size := max (s.inode (s.fd y).inode_id.toNat).size ((s.fd y).offset + k) }) := by
  obtain ⟨g1, g2, g3, g4, g5⟩ := h.2 y hy hu
  have hsize : ∀ i, 0 ≤ (((s.set_fd y { s.fd y with offset := (s.fd y).offset + k }).set_inode
        (s.fd y).inode_id.toNat
        { s.inode (s.fd y).inode_id.toNat with
          data := data',
          size := max (s.inode (s.fd y).inode_id.toNat).size ((s.fd y).offset + k) }).inode i).size ∧
      (((s.set_fd y { s.fd y with offset := (s.fd y).offset + k }).set_inode
        (s.fd y).inode_id.toNat
        { s.inode (s.fd y).inode_id.toNat with
          data := data',
          size := max (s.inode (s.fd y).inode_id.toNat).size ((s.fd y).offset + k) }).inode i).size
        ≤ 128 ∧
      (s.inode i).size ≤ (((s.set_fd y { s.fd y with offset := (s.fd y).offset + k }).set_inode
        (s.fd y).inode_id.toNat
        { s.inode (s.fd y).inode_id.toNat with
          data := data',
          size := max (s.inode (s.fd y).inode_id.toNat).size ((s.fd y).offset + k) }).inode i).size ∧
      (((s.set_fd y { s.fd y with offset := (s.fd y).offset + k }).set_inode
        (s.fd y).inode_id.toNat
        { s.inode (s.fd y).inode_id.toNat with
          data := data',
          size := max (s.inode (s.fd y).inode_id.toNat).size ((s.fd y).offset + k) }).inode i).used =
        (s.inode i).used := by
    intro i
    rw [inode_set_inode]
    have hi := h.1 i
    have hid := h.1 (s.fd y).inode_id.toNat
    by_cases hc : (s.fd y).inode_id.toNat = i ∧
        (s.fd y).inode_id.toNat < (s.set_fd y { s.fd y with offset := (s.fd y).offset + k }).vfs.inodes.length
    · rw [if_pos hc]
      rw [hc.1] at hid ⊢
      simp only
      exact ⟨by omega, by omega, by omega, trivial⟩
    · rw [if_neg hc]
      simp only [inode_set_fd]
      exact ⟨hi.1, hi.2, le_refl _, trivial⟩
  constructor
  · intro i; exact ⟨(hsize i).1, (hsize i).2.1⟩
  · intro y' hy' hu'
    rw [fd_set_inode, fd_set_fd] at hu' ⊢
    by_cases hc : y = y' ∧ y < s.fds.length
    · rw [if_pos hc]
      simp only
      refine ⟨g1, g2, ?_, by omega, ?_⟩
      · rw [(hsize _).2.2.2]; exact g3
      · rw [inode_set_inode]
        have hlen : (s.fd y).inode_id.toNat <
            (s.set_fd y { s.fd y with offset := (s.fd y).offset + k }).vfs.inodes.length :=
          inode_used_in_range s _ g3
        rw [if_pos ⟨rfl, hlen⟩]
        simp only
        omega
    · rw [if_neg hc] at hu' ⊢
      obtain ⟨f1, f2, f3, f4, f5⟩ := h.2 y' hy' hu'
      refine ⟨f1, f2, ?_, f4, ?_⟩
      · rw [(hsize _).2.2.2]; exact f3
      · exact le_trans f5 (hsize _).2.2.1

theorem descInv_step {s s' : VfsState} (hs : VStep s s') (hwf : VfsWF s) (h : DescInv s) :
    DescInv s' := by
  have hinit : s.vfs_initialized ≠ 0 := by rw [hwf.1]; decide
  cases hs with
  | create name =>
    rcases vfs_create_file_state s name with e | ⟨x, _, hfree, e⟩
    · rw [e]; exact h
    · rw [e]; exact descInv_created s x name hfree h
  | open_ name =>
    rcases vfs_open_file_bound s name with e | ⟨x, y, hx, hu, e⟩
    · rw [e]; exact h
    · rw [e]; exact descInv_open s x y hx hu h
  | read fd buf len =>
    by_cases hbad : fd < 0 ∨ fd ≥ (MAX_FILES : Int) ∨ (s.fd fd.toNat).used = 0
    · have e : vfs_read_file s fd buf len = (s, buf, -1) := by
        unfold vfs_read_file
        rw [if_neg hinit, if_pos hbad]
      rw [e]; exact h
    · have h0 : 0 ≤ fd := by by_contra hc; exact hbad (Or.inl (by omega))
      have h1 : fd < (MAX_FILES : Int) := by by_contra hc; exact hbad (Or.inr (Or.inl (by omega)))
      have h2 : (s.fd fd.toNat).used ≠ 0 := fun hc => hbad (Or.inr (Or.inr hc))
      have hy : fd.toNat < MAX_FILES := by omega
      have hfd : fd = ((fd.toNat : Nat) : Int) := by omega
      obtain ⟨g1, g2, g3, g4, g5⟩ := h.2 fd.toNat hy h2
      have gs := h.1 (s.fd fd.toNat).inode_id.toNat
      obtain ⟨k, buf', hk, e, _⟩ :=
        vfs_read_file_spec s fd.toNat buf len hinit (descOK_of_inv s h fd.toNat hy h2)
      rw [← hfd] at e
      rw [e]
      exact descInv_read s fd.toNat (k : Int) hy h2 (by omega) (by omega) h
  | write fd buf len =>
    by_cases hbad : fd < 0 ∨ fd ≥ (MAX_FILES : Int) ∨ (s.fd fd.toNat).used = 0
    · have e : vfs_write_file s fd buf len = (s, -1) := by
        unfold vfs_write_file
        rw [if_neg hinit, if_pos hbad]
      rw [e]; exact h
    · have h0 : 0 ≤ fd := by by_contra hc; exact hbad (Or.inl (by omega))
      have h1 : fd < (MAX_FILES : Int) := by by_contra hc; exact hbad (Or.inr (Or.inl (by omega)))
      have h2 : (s.fd fd.toNat).used ≠ 0 := fun hc => hbad (Or.inr (Or.inr hc))
      have hy : fd.toNat < MAX_FILES := by omega
      have hfd : fd = ((fd.toNat : Nat) : Int) := by omega
      obtain ⟨g1, g2, g3, g4, g5⟩ := h.2 fd.toNat hy h2
      have gs := h.1 (s.fd fd.toNat).inode_id.toNat
      obtain ⟨k, data', hk, e, _⟩ :=
        vfs_write_file_spec s fd.toNat buf len hinit (descOK_of_inv s h fd.toNat hy h2)
      rw [← hfd] at e
      rw [e]
      exact descInv_write s fd.toNat (k : Int) data' hy h2 (by omega) (by omega) h
  | close fd =>
    by_cases hok : fd ≥ 0 ∧ fd < (MAX_FILES : Int) ∧ (s.fd fd.toNat).used ≠ 0
    · have e : vfs_close_file s fd =
          s.set_fd fd.toNat { used := 0, inode_id := -1, offset := 0 } := by
        unfold vfs_close_file
        rw [if_neg hinit, if_pos hok]
      rw [e]; exact descInv_close s fd.toNat h
    · have e : vfs_close_file s fd = s := by
        unfold vfs_close_file
        rw [if_neg hinit, if_neg hok]
      rw [e]; exact h

theorem descInv_init : DescInv (init_vfs vfs_bss) := by
  constructor
  · intro i
    rcases inode_mem_or_default (init_vfs vfs_bss) i with hm | hd
    · have hall : ∀ n ∈ (init_vfs vfs_bss).vfs.inodes, 0 ≤ n.size ∧ n.size ≤ 128 := by decide
      exact hall _ hm
    · rw [hd]; decide
  · intro y hy hu
    have hall : ∀ y, y < MAX_FILES → ((init_vfs vfs_bss).fd y).used = 0 := by decide
    exact absurd (hall y hy) hu

theorem descInv_reach {s : VfsState} (hr : VReach s) : DescInv s := by
  induction hr with
  | init => exact descInv_init
  | step hp hs ih => exact descInv_step hs (vfsWF_reach hp) ih

theorem foldl_update_hit (f : Nat → Nat) (base : Nat) (n : Nat) (m : Nat → Nat) (i : Nat)
    (hi : i < n) :
    (List.range n).foldl (fun m j => Function.update m (base + 4 * j) (f j)) m (base + 4 * i) =
      f i := by
  induction n with
  | zero => omega
  | succ n ih =>
    rw [List.range_succ, List.foldl_append]
    simp only [List.foldl_cons, List.foldl_nil]
    by_cases h : i = n
    · subst h
      exact Function.update_same _ _ _
    · rw [Function.update_noteq (by omega)]
      exact ih (by omega)

theorem foldl_update_miss (f : Nat → Nat) (base : Nat) (n : Nat) (m : Nat → Nat) (a : Nat)
    (ha : ∀ i, i < n → a ≠ base + 4 * i) :
    (List.range n).foldl (fun m j => Function.update m (base + 4 * j) (f j)) m a = m a := by
  induction n with
  | zero => rfl
  | succ n ih =>
    rw [List.range_succ, List.foldl_append]
    simp only [List.foldl_cons, List.foldl_nil]
    rw [Function.update_noteq (ha n (by omega))]
    exact ih (fun i hi => ha i (by omega))

theorem init_paging_table (k : Kernel) (i : Nat) (hi : i < 1024) :
    (init_paging k).mem (0x101000 + 4 * i) = (i * 4096) ||| 0x3 := by
  unfold init_paging
  simp only [PAGE_SIZE]
  by_cases h : i = 184
  · subst h
    rw [Function.update_same]
  · rw [Function.update_noteq (by omega), Function.update_noteq (by omega),
      Function.update_noteq (by omega)]
    exact foldl_update_hit (fun j => (j * 4096) ||| 0x3) 0x101000 1024 _ i hi

theorem init_paging_dir (k : Kernel) (i : Nat) (hi : i < 1024) :
    (init_paging k).mem (0x100000 + 4 * i) =
      if i = 0 ∨ i = 768 then 0x101000 ||| 0x3 else 0 := by
  unfold init_paging
  simp only [PAGE_SIZE]
  rw [Function.update_noteq (by omega)]
  by_cases h768 : i = 768
  · subst h768
    rw [Function.update_same, if_pos (Or.inr rfl)]
  · rw [Function.update_noteq (by omega)]
    by_cases h0 : i = 0
    · subst h0
      rw [Function.update_same, if_pos (Or.inl rfl)]
    · rw [Function.update_noteq (by omega), if_neg (by omega)]
      refine Eq.trans
        (foldl_update_miss (fun j => (j * 4096) ||| 0x3) 0x101000 1024
          ((List.range 1024).foldl (zero_entry 0x100000) k.mem) (0x100000 + 4 * i)
          (fun j hj => by omega)) ?_
      exact foldl_update_hit (fun _ => 0) 0x100000 1024 _ i hi

theorem create_user_page_dir_eq (k : Kernel) :
    create_user_page_dir k =
      ({ k with
          mem := Function.update (user_tables k.mem) (0x200000 + 4 * 768)
            (user_tables k.mem ((k.kernel_page_dir + 4 * 768) % 2 ^ 32)) },
        0x200000) := rfl

theorem user_tables_table (m : Nat → Nat) (i : Nat) (hi : i < 1024) :
    user_tables m (0x201000 + 4 * i) = (i * 4096 + USER_BASE) ||| 0x7 := by
  unfold user_tables
  rw [Function.update_noteq (by omega)]
  exact foldl_update_hit (fun j => (j * PAGE_SIZE + USER_BASE) ||| 0x7) 0x201000 1024 _ i hi

theorem user_tables_dir (m : Nat → Nat) (i : Nat) (hi : i < 1024) :
    user_tables m (0x200000 + 4 * i) = if i = 0 then 0x201000 ||| 0x7 else 0 := by
  unfold user_tables
  by_cases h0 : i = 0
  · subst h0
    rw [Function.update_same, if_pos rfl]
  · rw [Function.update_noteq (by omega), if_neg h0]
    refine Eq.trans
      (foldl_update_miss (fun j => (j * PAGE_SIZE + USER_BASE) ||| 0x7) 0x201000 1024
        ((List.range 1024).foldl (zero_entry 0x200000) m) (0x200000 + 4 * i)
        (fun j hj => by omega)) ?_
    exact foldl_update_hit (fun _ => 0) 0x200000 1024 _ i hi

theorem user_tables_other (m : Nat → Nat) (a : Nat)
    (hd : ∀ i, i < 1024 → a ≠ 0x200000 + 4 * i) (ht : ∀ i, i < 1024 → a ≠ 0x201000 + 4 * i) :
    user_tables m a = m a := by
  unfold user_tables
  rw [Function.update_noteq (hd 0 (by decide))]
  refine Eq.trans
    (foldl_update_miss (fun j => (j * PAGE_SIZE + USER_BASE) ||| 0x7) 0x201000 1024
      ((List.range 1024).foldl (zero_entry 0x200000) m) a ht) ?_
  exact foldl_update_miss (fun _ => 0) 0x200000 1024 m a hd

theorem user_tables_congr (m m' : Nat → Nat)
    (h : ∀ a, (∀ i, i < 1024 → a ≠ 0x200000 + 4 * i) → (∀ i, i < 1024 → a ≠ 0x201000 + 4 * i) →
      m a = m' a) :
    user_tables m = user_tables m' := by
  funext a
  by_cases hd : ∃ i, i < 1024 ∧ a = 0x200000 + 4 * i
  · obtain ⟨i, hi, rfl⟩ := hd
    rw [user_tables_dir m i hi, user_tables_dir m' i hi]
  · by_cases ht : ∃ i, i < 1024 ∧ a = 0x201000 + 4 * i
    · obtain ⟨i, hi, rfl⟩ := ht
      rw [user_tables_table m i hi, user_tables_table m' i hi]
    · have hd' : ∀ i, i < 1024 → a ≠ 0x200000 + 4 * i := fun i hi e => hd ⟨i, hi, e⟩
      have ht' : ∀ i, i < 1024 → a ≠ 0x201000 + 4 * i := fun i hi e => ht ⟨i, hi, e⟩
      rw [user_tables_other m a hd' ht', user_tables_other m' a hd' ht']
      exact h a hd' ht'

theorem create_user_page_dir_twice (k : Kernel) :
    create_user_page_dir (create_user_page_dir k).1 = create_user_page_dir k := by
  have hc : user_tables (create_user_page_dir k).1.mem = user_tables k.mem := by
    apply user_tables_congr
    intro a hd ht
    rw [create_user_page_dir_eq]
    show Function.update (user_tables k.mem) (0x200000 + 4 * 768) _ a = k.mem a
    rw [Function.update_noteq (hd 768 (by decide))]
    exact user_tables_other k.mem a hd ht
  rw [create_user_page_dir_eq (create_user_page_dir k).1, hc]
  rfl

theorem create_user_page_dir_mem (k : Kernel) (a : Nat) :
    (create_user_page_dir k).1.mem a =
      if a = 0x200000 + 4 * 768 then user_tables k.mem ((k.kernel_page_dir + 4 * 768) % 2 ^ 32)
      else user_tables k.mem a := by
  rw [create_user_page_dir_eq]
  exact Function.update_apply _ _ _ _

theorem create_process_user_dir (k : Kernel) (task : Nat) (priority : Int) (i : Nat)
    (hlen : k.processes.length = MAX_PROCESSES)
    (hret : (create_process k task priority 3).2 = (i : Int)) :
    ((create_process k task priority 3).1.proc i).privilege = 3 ∧
    ((create_process k task priority 3).1.proc i).page_dir = 0x200000 := by
  rcases create_process_cases k task priority 3 with e | ⟨x, hx, _, _, e⟩
  · rw [e] at hret
    simp only at hret
    omega
  · rw [e] at hret ⊢
    simp only at hret
    have hxi : x = i := by omega
    subst hxi
    simp only [Kernel.proc]
    rw [getD_set, if_pos ⟨rfl, by omega⟩]
    exact ⟨rfl, rfl⟩

theorem pageDirInv_step {k k' : Kernel} (hs : Step k k') (h : PageDirInv k) : PageDirInv k' := by
  cases hs with
  | create task priority privilege =>
    intro j hp
    rcases create_process_proc k task priority privilege j with e | ⟨_, _, _, _, e⟩
    · rw [e] at hp ⊢; exact h j hp
    · rw [e] at hp ⊢
      have hp3 : privilege = 3 := hp
      subst hp3
      rfl
  | kill pid =>
    intro j hp
    rcases kill_process_proc k pid j with e | e
    · rw [e] at hp ⊢; exact h j hp
    · rw [e] at hp ⊢; exact h j hp
  | sched =>
    intro j hp
    by_cases hn : pick k = -1 ∨ pick k = k.current_process
    · rw [schedule_noswitch k hn] at hp ⊢; exact h j hp
    · rw [schedule_switch k (fun e => hn (Or.inl e)) (fun e => hn (Or.inr e))] at hp ⊢
      simp only [Kernel.proc, getD_set_state] at hp ⊢
      have key : ∀ p : Process, ∀ (c1 c2 : Prop) [Decidable c1] [Decidable c2],
          (if c1 then { (if c2 then { p with state := 0 } else p) with state := 1 }
            else (if c2 then { p with state := 0 } else p)).privilege = p.privilege ∧
          (if c1 then { (if c2 then { p with state := 0 } else p) with state := 1 }
            else (if c2 then { p with state := 0 } else p)).page_dir = p.page_dir := by
        intro p c1 c2 _ _
        split_ifs <;> exact ⟨rfl, rfl⟩
      rw [(key _ _ _).1] at hp
      rw [(key _ _ _).2]
      exact h j hp

theorem pageDirInv_reach {k0 k : Kernel} (hr : Reach k0 k) (h : PageDirInv k0) :
    PageDirInv k := by
  induction hr with
  | init => exact h
  | step _ hs ih => exact pageDirInv_step hs ih

theorem pageDirInv_kmain : PageDirInv kmain_state := by
  intro i
  by_cases hi : i < MAX_PROCESSES
  · simp only [MAX_PROCESSES] at hi
    interval_cases i <;> decide
  · intro hp
    exfalso
    have hl : kmain_state.processes.length = MAX_PROCESSES := by decide
    simp only [Kernel.proc] at hp
    rw [List.getD_eq_default _ _ (by omega)] at hp
    exact absurd hp (by decide)

theorem testBit_high (c i : Nat) (hc : c < 2 ^ 32) (hi : 32 ≤ i) : c.testBit i = false :=
  Nat.testBit_lt_two_pow (lt_of_lt_of_le hc (Nat.pow_le_pow_right (by decide) hi))

theorem testBit_upper_mask (i : Nat) : Nat.testBit 0xFFFF0000 i = decide (16 ≤ i ∧ i < 32) := by
  by_cases hi : i < 32
  · interval_cases i <;> rfl
  · rw [testBit_high _ i (by decide) (by omega)]
    simp [hi]

theorem testBit_lower_mask (i : Nat) : Nat.testBit 0xFFFF i = decide (i < 16) := by
  by_cases hi : i < 32
  · interval_cases i <;> rfl
  · rw [testBit_high _ i (by decide) (by omega)]
    simp
    omega

theorem testBit_selector (i : Nat) : Nat.testBit (0x08 <<< 16) i = decide (i = 19) := by
  by_cases hi : i < 32
  · interval_cases i <;> rfl
  · rw [testBit_high _ i (by decide) (by omega)]
    simp
    omega

theorem testBit_low16 (F i : Nat) (hF : F < 2 ^ 16) (hi : 16 ≤ i) : F.testBit i = false :=
  Nat.testBit_lt_two_pow (lt_of_lt_of_le hF (Nat.pow_le_pow_right (by decide) hi))

theorem gate_recover (h F : Nat) (hh : h < 2 ^ 32) (hF : F < 2 ^ 16) :
    (((h &&& 0xFFFF0000) ||| F) &&& 0xFFFF0000) ||| (((h &&& 0xFFFF) ||| (0x08 <<< 16)) &&& 0xFFFF)
      = h := by
  apply Nat.eq_of_testBit_eq
  intro i
  simp only [Nat.testBit_or, Nat.testBit_and, testBit_upper_mask, testBit_lower_mask,
    testBit_selector]
  by_cases hi16 : i < 16
  · have h1 : ¬ (16 ≤ i ∧ i < 32) := by omega
    have h2 : ¬ (i = 19) := by omega
    simp [hi16, h1, h2]
  · by_cases hi : i < 32
    · have h1 : 16 ≤ i ∧ i < 32 := by omega
      simp [hi16, h1, testBit_low16 F i hF (by omega)]
    · have h1 : ¬ (16 ≤ i ∧ i < 32) := by omega
      simp [hi16, h1, testBit_high h i hh (by omega)]

theorem gate_field (h F s m : Nat) (hs : s + m ≤ 16) :
    ((((h &&& 0xFFFF0000) ||| F) >>> s) &&& (2 ^ m - 1)) = ((F >>> s) &&& (2 ^ m - 1)) := by
  apply Nat.eq_of_testBit_eq
  intro i
  simp only [Nat.testBit_or, Nat.testBit_and, Nat.testBit_shiftRight, testBit_upper_mask,
    Nat.testBit_two_pow_sub_one]
  by_cases hi : i < m
  · have h1 : ¬ (16 ≤ s + i ∧ s + i < 32) := by omega
    simp [hi, h1]
  · simp [hi]

theorem idt_loop (handler : Nat) (n : Nat) (idt : Nat → Nat) (v : Nat) (hv : v < n) :
    (List.range n).foldl (idt_default handler) idt (v * 2) =
        (handler &&& 0xFFFF) ||| (0x08 <<< 16) ∧
    (List.range n).foldl (idt_default handler) idt (v * 2 + 1) =
        (handler &&& 0xFFFF0000) ||| 0x8E00 := by
  induction n with
  | zero => omega
  | succ n ih =>
    rw [List.range_succ, List.foldl_append]
    simp only [List.foldl_cons, List.foldl_nil, idt_default]
    by_cases h : v = n
    · subst h
      exact ⟨by rw [Function.update_noteq (by omega), Function.update_same],
        by rw [Function.update_same]⟩
    · rw [Function.update_noteq (by omega), Function.update_noteq (by omega),
        Function.update_noteq (by omega), Function.update_noteq (by omega)]
      exact ih (by omega)

theorem setup_idt_low (h : Handlers) (idt : Nat → Nat) (v : Nat) (hv : v < 256) :
    setup_idt h idt (2 * v) = (handler_of h v &&& 0xFFFF) ||| (0x08 <<< 16) := by
  have hl := (idt_loop h.default_handler_wrapper 256 idt v hv).1
  rw [Nat.mul_comm] at hl
  unfold setup_idt handler_of
  simp only [Function.update_apply]
  split_ifs <;> first | rfl | omega

theorem setup_idt_high (h : Handlers) (idt : Nat → Nat) (v : Nat) (hv : v < 256) :
    setup_idt h idt (2 * v + 1) = (handler_of h v &&& 0xFFFF0000) ||| gate_flags v := by
  have hl := (idt_loop h.default_handler_wrapper 256 idt v hv).2
  rw [Nat.mul_comm] at hl
  unfold setup_idt handler_of gate_flags
  simp only [Function.update_apply]
  split_ifs <;> first | rfl | omega

theorem kill_active (k : Kernel) (hlen : k.processes.length = MAX_PROCESSES)
    (hpid : ∀ i, i < MAX_PROCESSES → ∀ j, j < MAX_PROCESSES → (k.proc i).pid ≠ 0 →
      (k.proc i).pid = (k.proc j).pid → i = j)
    (hcur : 0 ≤ k.current_process) (hlive : (k.proc k.current_process.toNat).pid ≠ 0) :
    k.current_process.toNat < MAX_PROCESSES ∧
    kill_process k (k.proc k.current_process.toNat).pid =
      { k with
        processes := k.processes.set k.current_process.toNat
          { k.proc k.current_process.toNat with state := 2, pid := 0 },
        schedule_flag := 1 } := by
  have hc : k.current_process.toNat < MAX_PROCESSES := by
    by_contra hge
    apply hlive
    simp only [Kernel.proc]
    rw [List.getD_eq_default _ _ (by omega)]
    rfl
  refine ⟨hc, ?_⟩
  have hfirst := kill_process_loop_first (k.proc k.current_process.toNat).pid k
    k.current_process.toNat rfl MAX_PROCESSES 0 (Nat.zero_le _) (by omega)
    (fun j _ hj e => by
      have := hpid k.current_process.toNat hc j (by omega) hlive e.symm
      omega)
  unfold kill_process
  rw [hfirst, if_pos (by omega)]

theorem read_registers_num (regs : Reg → Nat) (o0 o1 o2 o3 : Reg) (h1 : o0 ≠ o1) (h2 : o0 ≠ o2)
    (h3 : o0 ≠ o3) : (read_registers regs o0 o1 o2 o3).1 = regs Reg.eax := by
  unfold read_registers
  simp only
  rw [Function.update_noteq h3, Function.update_noteq h2, Function.update_noteq h1,
    Function.update_same]

theorem syscall_exit_state (m : Machine) (regs : Reg → Nat) (o0 o1 o2 o3 : Reg)
    (h1 : o0 ≠ o1) (h2 : o0 ≠ o2) (h3 : o0 ≠ o3) (hnum : regs Reg.eax = SYS_EXIT)
    (hlen : m.kernel.processes.length = MAX_PROCESSES)
    (hpid : ∀ i, i < MAX_PROCESSES → ∀ j, j < MAX_PROCESSES → (m.kernel.proc i).pid ≠ 0 →
      (m.kernel.proc i).pid = (m.kernel.proc j).pid → i = j)
    (hcur : 0 ≤ m.kernel.current_process)
    (hlive : (m.kernel.proc m.kernel.current_process.toNat).pid ≠ 0) :
    (syscall_dispatch m (read_registers regs o0 o1 o2 o3).1 (read_registers regs o0 o1 o2 o3).2.1
      (read_registers regs o0 o1 o2 o3).2.2.1 (read_registers regs o0 o1 o2 o3).2.2.2).2 = 0 ∧
    syscall_handler m regs o0 o1 o2 o3 =
      ({ m with
          kernel :=
            { m.kernel with
              processes := m.kernel.processes.set m.kernel.current_process.toNat
                { m.kernel.proc m.kernel.current_process.toNat with state := 2, pid := 0 },
              schedule_flag := 1 } }, 0x20) := by
  obtain ⟨_, hk⟩ := kill_active m.kernel hlen hpid hcur hlive
  have hn := read_registers_num regs o0 o1 o2 o3 h1 h2 h3
  rw [hnum] at hn
  have e : ∀ a1 a2 a3, syscall_dispatch m SYS_EXIT a1 a2 a3 =
      ({ m with
          kernel :=
            { m.kernel with
              processes := m.kernel.processes.set m.kernel.current_process.toNat
                { m.kernel.proc m.kernel.current_process.toNat with state := 2, pid := 0 },
              schedule_flag := 1 } }, 0) := by
    intro a1 a2 a3
    rw [← hk]
    rfl
  constructor
  · rw [hn, e]
  · unfold syscall_handler
    simp only
    rw [hn, e]
    exact Prod.ext rfl (by norm_num)

/-! ## Selection policy -/

/-- C2: with a Ready unit present and no Ready unit of negative priority, after
`schedule()` the active index is a Ready slot of maximal priority among the
Ready slots, and every Ready slot below it has strictly smaller priority. -/
theorem schedule_selects_max (k : Kernel)
    (hready : ∃ i, i < MAX_PROCESSES ∧ (k.proc i).state = 0)
    (hprio : ∀ i, i < MAX_PROCESSES → (k.proc i).state = 0 → 0 ≤ (k.proc i).priority) :
    ∃ c : Nat, (schedule k).current_process = (c : Int) ∧ c < MAX_PROCESSES ∧
      (k.proc c).state = 0 ∧
      (∀ j, j < MAX_PROCESSES → (k.proc j).state = 0 →
        (k.proc j).priority ≤ (k.proc c).priority) ∧
      (∀ j, j < c → (k.proc j).state = 0 → (k.proc j).priority < (k.proc c).priority) := by
  rcases pick_spec k with ⟨_, hall⟩ | ⟨x, hx, hxi, hxs, _, hmax, hlow⟩
  · obtain ⟨i, hi, hs⟩ := hready
    have h1 := hall i hi hs
    have h2 := hprio i hi hs
    omega
  · refine ⟨x, ?_, hxi, hxs, hmax, hlow⟩
    rw [schedule_current k (by omega), hx]

/-- C2 at the table with equal priorities 5, 5 at slots 1, 2 (slot 1 is chosen)
and at the table with priorities 5, 3, 2 at slots 0, 1, 2 (slot 0 is chosen). -/
theorem schedule_selects_max_witness :
    (∃ c : Nat, (schedule table_55).current_process = (c : Int) ∧ c < MAX_PROCESSES ∧
      (table_55.proc c).state = 0 ∧
      (∀ j, j < MAX_PROCESSES → (table_55.proc j).state = 0 →
        (table_55.proc j).priority ≤ (table_55.proc c).priority) ∧
      (∀ j, j < c → (table_55.proc j).state = 0 →
        (table_55.proc j).priority < (table_55.proc c).priority)) ∧
    (schedule table_55).current_process = 1 ∧ (schedule table_532).current_process = 0 :=
  ⟨schedule_selects_max table_55 ⟨1, by decide, by decide⟩ (by decide), by decide, by decide⟩

/-- C3 (counterexample): on the table built by kmain a second `schedule()`
changes the active unit again (slot 1 after the first call, slot 0 after the
second). -/
theorem schedule_not_idempotent :
    (schedule (schedule kmain_state)).current_process ≠ (schedule kmain_state).current_process ∧
    (schedule kmain_state).current_process = 1 ∧
    (schedule (schedule kmain_state)).current_process = 0 := by
  decide

/-- C3 (amended): on a table of `MAX_PROCESSES` slots, `schedule()` twice equals
`schedule()` once exactly when the first call changes nothing or leaves no Ready
unit of non-negative priority. -/
theorem schedule_twice_iff (k : Kernel) (hlen : k.processes.length = MAX_PROCESSES) :
    schedule (schedule k) = schedule k ↔
      (schedule k = k ∨
        ∀ j, j < MAX_PROCESSES → ((schedule k).proc j).state = 0 →
          ((schedule k).proc j).priority < 0) := by
  constructor
  · intro h
    by_cases hs : schedule k = k
    · exact Or.inl hs
    · right
      intro j hj hst
      by_contra hneg
      obtain ⟨hk1, hk2⟩ := schedule_changes k hs
      rcases pick_spec (schedule k) with ⟨_, hall⟩ | ⟨x, hx, _, hxs, _, _, _⟩
      · have := hall j hj hst
        omega
      · by_cases hc : pick (schedule k) = (schedule k).current_process
        · rcases pick_spec k with ⟨hm, _⟩ | ⟨y, hy, hyi, _, _, _, _⟩
          · exact hk1 hm
          · have hxy : x = y := by
              have := schedule_current k hk1
              omega
            subst hxy
            rw [schedule_switch k hk1 hk2] at hxs
            simp only [Kernel.proc, hy, Int.toNat_ofNat] at hxs
            rw [getD_set_state, if_pos ⟨rfl, by rw [length_set_state]; omega⟩] at hxs
            simp at hxs
        · have h1 := schedule_current (schedule k) (by omega)
          rw [h] at h1
          exact hc h1.symm
  · rintro (h | h)
    · rw [h, h]
    · apply schedule_noswitch
      rcases pick_spec (schedule k) with ⟨hm, _⟩ | ⟨x, _, hxi, hxs, hxp, _, _⟩
      · exact Or.inl hm
      · have := h x hxi hxs
        omega

/-- C3 (amended) at the table with Ready priorities 5, 3, 2 and slot 2 active. -/
theorem schedule_twice_iff_witness :
    schedule (schedule table_532) = schedule table_532 ↔
      (schedule table_532 = table_532 ∨
        ∀ j, j < MAX_PROCESSES → ((schedule table_532).proc j).state = 0 →
          ((schedule table_532).proc j).priority < 0) :=
  schedule_twice_iff table_532 (by decide)

/-! ## Creation -/

/-- C7: on a full table (`pid != 0` in every slot) `create_process` returns -1 and
leaves every global unchanged. -/
theorem create_process_full (k : Kernel) (task : Nat) (priority privilege : Int)
    (hfull : ∀ i, i < MAX_PROCESSES → (k.proc i).pid ≠ 0) :
    create_process k task priority privilege = (k, -1) :=
  create_process_loop_full task priority privilege k MAX_PROCESSES 0
    (fun j _ h => hfull j (by omega))

/-- C7 at a table holding pids 1..8. -/
theorem create_process_full_witness :
    (∀ i, i < MAX_PROCESSES → (table_full.proc i).pid ≠ 0) ∧
      create_process table_full 7 4 3 = (table_full, -1) :=
  ⟨by decide, create_process_full table_full 7 4 3 (by decide)⟩

/-- C6: when some slot is free, `create_process` returns the lowest free index
`i`, fills slot `i` (pid `i + 1`, state Ready, the given task, priority and
privilege, the user stack and directory chosen by the privilege) and leaves
every other slot, `current_process` and `schedule_flag` unchanged. -/
theorem create_process_success (k : Kernel) (task : Nat) (priority privilege : Int)
    (hlen : k.processes.length = MAX_PROCESSES)
    (hfree : ∃ i, i < MAX_PROCESSES ∧ (k.proc i).pid = 0) :
    ∃ i : Nat, i < MAX_PROCESSES ∧ (k.proc i).pid = 0 ∧ (∀ j, j < i → (k.proc j).pid ≠ 0) ∧
      (create_process k task priority privilege).2 = (i : Int) ∧
      ((create_process k task priority privilege).1.proc i).pid = (i : Int) + 1 ∧
      ((create_process k task priority privilege).1.proc i).state = 0 ∧
      ((create_process k task priority privilege).1.proc i).task = task ∧
      ((create_process k task priority privilege).1.proc i).priority = priority ∧
      ((create_process k task priority privilege).1.proc i).privilege = privilege ∧
      ((create_process k task priority privilege).1.proc i).user_stack =
        (if privilege = 3 then USER_BASE + 2 * PAGE_SIZE else 0) ∧
      ((create_process k task priority privilege).1.proc i).page_dir =
        (if privilege = 3 then (create_user_page_dir k).2 else k.kernel_page_dir) ∧
      (∀ j, j ≠ i → (create_process k task priority privilege).1.proc j = k.proc j) ∧
      (create_process k task priority privilege).1.current_process = k.current_process ∧
      (create_process k task priority privilege).1.schedule_flag = k.schedule_flag := by
  obtain ⟨x, hx, hp, hlow⟩ := exists_lowest (fun i => (k.proc i).pid = 0) MAX_PROCESSES hfree
  have heq : create_process k task priority privilege = _ :=
    create_process_loop_first task priority privilege k x hp MAX_PROCESSES 0 (Nat.zero_le x)
      (by omega) (fun j _ hj => hlow j hj)
  have hproc : ∀ j, (create_process k task priority privilege).1.proc j =
      if x = j then created_slot k x task priority privilege else k.proc j := by
    intro j
    rw [heq]
    simp only [Kernel.proc]
    rw [getD_set]
    by_cases hxj : x = j
    · rw [if_pos ⟨hxj, by omega⟩, if_pos hxj]
    · rw [if_neg (fun h => hxj h.1), if_neg hxj]
  refine ⟨x, hx, hp, hlow, by rw [heq], ?_, ?_, ?_, ?_, ?_, ?_, ?_, ?_, ?_, ?_⟩
  · rw [hproc, if_pos rfl]; rfl
  · rw [hproc, if_pos rfl]; rfl
  · rw [hproc, if_pos rfl]; rfl
  · rw [hproc, if_pos rfl]; rfl
  · rw [hproc, if_pos rfl]; rfl
  · rw [hproc, if_pos rfl]; simp [created_slot, Nat.mul_comm]
  · rw [hproc, if_pos rfl]; rfl
  · intro j hj; rw [hproc, if_neg (fun h => hj h.symm)]
  · rw [heq]; split_ifs <;> rfl
  · rw [heq]; split_ifs <;> rfl

/-- C6 at the kmain table, creating a user unit: slot 3 is the lowest free slot. -/
theorem create_process_success_witness :
    ∃ i : Nat, i < MAX_PROCESSES ∧ (kmain_state.proc i).pid = 0 ∧
      (∀ j, j < i → (kmain_state.proc j).pid ≠ 0) ∧
      (create_process kmain_state 9 4 3).2 = (i : Int) ∧
      ((create_process kmain_state 9 4 3).1.proc i).pid = (i : Int) + 1 ∧
      ((create_process kmain_state 9 4 3).1.proc i).state = 0 ∧
      ((create_process kmain_state 9 4 3).1.proc i).task = 9 ∧
      ((create_process kmain_state 9 4 3).1.proc i).priority = 4 ∧
      ((create_process kmain_state 9 4 3).1.proc i).privilege = 3 ∧
      ((create_process kmain_state 9 4 3).1.proc i).user_stack =
        (if (3 : Int) = 3 then USER_BASE + 2 * PAGE_SIZE else 0) ∧
      ((create_process kmain_state 9 4 3).1.proc i).page_dir =
        (if (3 : Int) = 3 then (create_user_page_dir kmain_state).2
          else kmain_state.kernel_page_dir) ∧
      (∀ j, j ≠ i → (create_process kmain_state 9 4 3).1.proc j = kmain_state.proc j) ∧
      (create_process kmain_state 9 4 3).1.current_process = kmain_state.current_process ∧
      (create_process kmain_state 9 4 3).1.schedule_flag = kmain_state.schedule_flag :=
  create_process_success kmain_state 9 4 3 (by decide) ⟨3, by decide, by decide⟩

/-! ## Termination -/

/-- C8: on a table with `pid ∈ {0, index + 1}` in every slot, `kill_process` of a
non-zero pid held by slot `i` marks slot `i` Terminated and free, leaves the other
slots and `current_process` unchanged, frees exactly one more slot and sets
`schedule_flag` to 1 when `i` is the active index (else keeps it). -/
theorem kill_process_existing (k : Kernel) (pid : Int) (i : Nat)
    (hlen : k.processes.length = MAX_PROCESSES)
    (hinv : ∀ j, j < MAX_PROCESSES → (k.proc j).pid = 0 ∨ (k.proc j).pid = (j : Int) + 1)
    (hpid : pid ≠ 0) (hi : i < MAX_PROCESSES) (hheld : (k.proc i).pid = pid) :
    ((kill_process k pid).proc i).state = 2 ∧ ((kill_process k pid).proc i).pid = 0 ∧
    (∀ j, j ≠ i → (kill_process k pid).proc j = k.proc j) ∧
    free_count (kill_process k pid) = free_count k + 1 ∧
    (kill_process k pid).schedule_flag =
      (if (i : Int) = k.current_process then 1 else k.schedule_flag) ∧
    (kill_process k pid).current_process = k.current_process := by
  have hlow : ∀ j, j < i → (k.proc j).pid ≠ pid := by
    intro j hj hp
    rcases hinv j (by omega) with h0 | h1
    · exact hpid (by rw [← hp, h0])
    · rcases hinv i hi with h0' | h1'
      · exact hpid (by rw [← hheld, h0'])
      · omega
  have heq : kill_process k pid = _ :=
    kill_process_loop_first pid k i hheld MAX_PROCESSES 0 (Nat.zero_le i) (by omega)
      (fun j _ hj => hlow j hj)
  have hproc : ∀ j, (kill_process k pid).proc j =
      if i = j then { k.proc i with state := 2, pid := 0 } else k.proc j := by
    intro j
    rw [heq]
    simp only [Kernel.proc]
    rw [getD_set]
    by_cases hij : i = j
    · rw [if_pos ⟨hij, by omega⟩, if_pos hij]
    · rw [if_neg (fun h => hij h.1), if_neg hij]
  refine ⟨?_, ?_, ?_, ?_, ?_, ?_⟩
  · rw [hproc, if_pos rfl]
  · rw [hproc, if_pos rfl]
  · intro j hj; rw [hproc, if_neg (fun h => hj h.symm)]
  · rw [heq]
    unfold free_count
    apply countP_set_gain _ default
    · omega
    · have : (k.processes.getD i default).pid ≠ 0 := by
        have h := hheld
        simp only [Kernel.proc] at h
        rw [h]; exact hpid
      simpa using this
    · simp
  · rw [heq]
  · rw [heq]

/-- C8 at the kmain table, killing pid 2. -/
theorem kill_process_existing_witness :
    ((kill_process kmain_state 2).proc 1).state = 2 ∧
    ((kill_process kmain_state 2).proc 1).pid = 0 ∧
    (∀ j, j ≠ 1 → (kill_process kmain_state 2).proc j = kmain_state.proc j) ∧
    free_count (kill_process kmain_state 2) = free_count kmain_state + 1 ∧
    (kill_process kmain_state 2).schedule_flag =
      (if ((1 : Nat) : Int) = kmain_state.current_process then 1
        else kmain_state.schedule_flag) ∧
    (kill_process kmain_state 2).current_process = kmain_state.current_process :=
  kill_process_existing kmain_state 2 1 (by decide) (by decide) (by decide) (by decide)
    (by decide)

/-- C9 (counterexample): pid 0 is held by no live unit, yet `kill_process(0)` on
the table whose units have all been killed matches free slot 0, which is the
active index, and raises `schedule_flag` from 0 to 1. -/
theorem kill_process_zero_not_noop :
    (∀ i, i < MAX_PROCESSES → (all_killed.proc i).pid = 0) ∧
    all_killed.current_process = 0 ∧ all_killed.schedule_flag = 0 ∧
    (kill_process all_killed 0).schedule_flag = 1 := by
  decide

/-- C9 (amended): `kill_process(pid)` changes nothing when no slot of the table,
live or free, has `pid` in its pid field (for pid 0: when the table is full). -/
theorem kill_process_absent (k : Kernel) (pid : Int)
    (habs : ∀ i, i < MAX_PROCESSES → (k.proc i).pid ≠ pid) :
    kill_process k pid = k :=
  kill_process_loop_none pid k MAX_PROCESSES 0 (fun j _ h => habs j (by omega))

/-- C9 (amended) at the kmain table with pid 7, which no slot holds. -/
theorem kill_process_absent_witness :
    (∀ i, i < MAX_PROCESSES → (kmain_state.proc i).pid ≠ 7) ∧
      kill_process kmain_state 7 = kmain_state :=
  ⟨by decide, kill_process_absent kmain_state 7 (by decide)⟩

/-- C10 (code evaluated at the failing input): killing the active unit of the
kmain table leaves slot 0 Terminated and free; the following `schedule()` turns
that slot back to Ready, and one more `schedule()` makes it Running, its pid
still 0. -/
theorem terminated_slot_revived :
    Reach kmain_state (kill_process kmain_state 1) ∧
    ((kill_process kmain_state 1).proc 0).state = 2 ∧
    ((kill_process kmain_state 1).proc 0).pid = 0 ∧
    ((schedule (kill_process kmain_state 1)).proc 0).state = 0 ∧
    ((schedule (kill_process kmain_state 1)).proc 0).pid = 0 ∧
    ((schedule (schedule (kill_process kmain_state 1))).proc 0).state = 1 ∧
    ((schedule (schedule (kill_process kmain_state 1))).proc 0).pid = 0 :=
  ⟨Reach.step Reach.init (Step.kill kmain_state 1), by decide, by decide, by decide, by decide,
    by decide, by decide⟩

/-! ## Invariants over reachable states -/

/-- C4: in every state reachable from the table built by kmain, a Running slot is
the one indexed by `current_process`, so at most one slot is Running. -/
theorem at_most_one_running (task1 task2 user_task : Nat) (k0 s : Kernel)
    (hlen : k0.processes.length = MAX_PROCESSES) (hcur : k0.current_process = 0)
    (hr : Reach (kmain_processes task1 task2 user_task k0) s) :
    (∀ i, i < MAX_PROCESSES → (s.proc i).state = 1 → (i : Int) = s.current_process) ∧
    (∀ i j, i < MAX_PROCESSES → j < MAX_PROCESSES → (s.proc i).state = 1 →
      (s.proc j).state = 1 → i = j) := by
  have h := runningInv_reach hr (kmain_running task1 task2 user_task k0 hlen hcur)
  refine ⟨fun i _ hi => h i hi, ?_⟩
  intro i j _ _ hi hj
  have h1 := h i hi
  have h2 := h j hj
  omega

/-- C4 at the state one `schedule()` after kmain. -/
theorem at_most_one_running_witness :
    (∀ i, i < MAX_PROCESSES → ((schedule kmain_state).proc i).state = 1 →
      (i : Int) = (schedule kmain_state).current_process) ∧
    (∀ i j, i < MAX_PROCESSES → j < MAX_PROCESSES → ((schedule kmain_state).proc i).state = 1 →
      ((schedule kmain_state).proc j).state = 1 → i = j) :=
  at_most_one_running 1 2 3 boot (schedule kmain_state) (by decide) (by decide)
    (Reach.step Reach.init (Step.sched _))

/-- C5: from an all-free table, every reachable state has in each slot pid 0 or
slot index + 1, so live pids are non-zero and pairwise distinct; and eight
successive `create_process` calls return slots 0..7 and leave pids 1..8. -/
theorem pid_unique (k0 : Kernel) (hlen : k0.processes.length = MAX_PROCESSES)
    (hfree : ∀ i, i < MAX_PROCESSES → (k0.proc i).pid = 0) :
    (∀ s, Reach k0 s →
      (∀ i, i < MAX_PROCESSES → (s.proc i).pid = 0 ∨ (s.proc i).pid = (i : Int) + 1) ∧
      (∀ i j, i < MAX_PROCESSES → j < MAX_PROCESSES → (s.proc i).pid ≠ 0 →
        (s.proc i).pid = (s.proc j).pid → i = j)) ∧
    (∀ args : List (Nat × Int × Int), args.length = MAX_PROCESSES →
      (create_all k0 args).2 = [0, 1, 2, 3, 4, 5, 6, 7] ∧
      ∀ i, i < MAX_PROCESSES → ((create_all k0 args).1.proc i).pid = (i : Int) + 1) := by
  constructor
  · intro s hr
    have h0 : PidInv k0 := by
      refine ⟨hlen, fun i => ?_⟩
      by_cases hi : i < MAX_PROCESSES
      · exact Or.inl (hfree i hi)
      · left
        simp only [Kernel.proc]
        rw [List.getD_eq_default _ _ (by omega)]
        rfl
    obtain ⟨_, hp⟩ := pidInv_reach hr h0
    refine ⟨fun i _ => hp i, ?_⟩
    intro i j _ _ hne heq
    rcases hp i with h1 | h1
    · exact absurd h1 hne
    · rcases hp j with h2 | h2
      · rw [heq] at hne; exact absurd h2 hne
      · omega
  · intro args hargs
    obtain ⟨h1, h2⟩ := create_all_filled args 0 k0 (by omega)
      ⟨hlen, fun j hj => by omega, fun j _ hj => hfree j hj⟩
    refine ⟨?_, fun i hi => h2.2.1 i hi⟩
    rw [h1, hargs]
    rfl

/-- C5 from the table right after the loop of kmain that frees every slot. -/
theorem pid_unique_witness :
    (∀ s, Reach free_table s →
      (∀ i, i < MAX_PROCESSES → (s.proc i).pid = 0 ∨ (s.proc i).pid = (i : Int) + 1) ∧
      (∀ i j, i < MAX_PROCESSES → j < MAX_PROCESSES → (s.proc i).pid ≠ 0 →
        (s.proc i).pid = (s.proc j).pid → i = j)) ∧
    (∀ args : List (Nat × Int × Int), args.length = MAX_PROCESSES →
      (create_all free_table args).2 = [0, 1, 2, 3, 4, 5, 6, 7] ∧
      ∀ i, i < MAX_PROCESSES → ((create_all free_table args).1.proc i).pid = (i : Int) + 1) :=
  pid_unique free_table (by decide) (by decide)

/-! ## File-system round trip -/

/-- C1: in every state reachable from `init_vfs()` with a free inode and a free
descriptor, for a NUL-free name of at most 31 bytes that no used inode carries
and `n <= 128` bytes `d`, the sequence create, open, write, close, open, read
returns `n` from the read with `buf[0..n)` equal to `d`; the write returns `n`
and leaves the inode's size at `n`. -/
theorem vfs_round_trip (s : VfsState) (name d buf : List Int)
    (hreach : VReach s)
    (hinode : ∃ i, i < MAX_INODES ∧ (s.inode i).used = 0)
    (hfd : ∃ j, j < MAX_FILES ∧ (s.fd j).used = 0)
    (hnz : ∀ c ∈ name, c ≠ 0) (hlen : name.length ≤ 31)
    (hnew : ∀ i, i < MAX_INODES → (s.inode i).used ≠ 0 → c_string (s.inode i).name ≠ name)
    (hd : d.length ≤ 128) (hbuf : d.length ≤ buf.length) :
    (round_trip s name d buf).read = (d.length : Int) ∧
    (round_trip s name d buf).buf.take d.length = d ∧
    (round_trip s name d buf).size_after_write = (d.length : Int) ∧
    (round_trip s name d buf).written = (d.length : Int) ∧
    0 ≤ (round_trip s name d buf).inode_id ∧ 0 ≤ (round_trip s name d buf).fd ∧
    (round_trip s name d buf).fd2 = (round_trip s name d buf).fd := by
  have hwf := vfsWF_reach hreach
  obtain ⟨x, hx, hxfree, hxlow⟩ := exists_lowest (fun i => (s.inode i).used = 0) MAX_INODES hinode
  obtain ⟨y, hy, hyfree, hylow⟩ := exists_lowest (fun j => (s.fd j).used = 0) MAX_FILES hfd
  have hinit : s.vfs_initialized ≠ 0 := by rw [hwf.1]; decide
  have hilen : s.vfs.inodes.length = MAX_INODES := hwf.2.1
  have hflen : s.fds.length = MAX_FILES := hwf.2.2.1
  have hc := vfs_create_file_success s name x hwf hx hxfree hxlow
  have hnamelen := (vfsWF_inode s hwf x).1
  have hdatalen := (vfsWF_inode s hwf x).2
  obtain ⟨c1, c2, c3⟩ := copy_name_spec name name.length hlen
    (Or.inr (List.getD_eq_default _ _ (le_refl _))) 32 0 (s.inode x).name (Nat.zero_le _)
    (by omega)
    (fun i _ hi => by rw [List.getD_eq_getElem _ _ hi]; exact hnz _ (List.getElem_mem hi))
  generalize hstored : (copy_name name 32 0 (s.inode x).name).1.set
    (copy_name name 32 0 (s.inode x).name).2 0 = stored
  have hcs : c_string stored = name := by
    apply c_string_of_pointwise name stored hnz
    · intro i hi
      rw [← hstored, c1, getD_set, if_neg (by omega), c3 i, if_pos ⟨by omega, hi, by omega⟩]
    · rw [← hstored, c1, getD_set, if_pos ⟨rfl, by rw [c2]; omega⟩]
  have hstr : strcmp stored name = 0 :=
    (strcmp_eq_zero_iff _ _).mpr (by rw [hcs, c_string_of_nonzero name hnz])
  have h1x : (created s x name).inode x =
      { s.inode x with used := 1, id := (x : Int), size := 0, name := stored } := by
    rw [inode_created, if_pos ⟨rfl, by omega⟩, hstored]
  have h1j : ∀ j, j ≠ x → (created s x name).inode j = s.inode j := by
    intro j hj
    rw [inode_created, if_neg (fun e => hj e.1.symm)]
  have hnomatch : ∀ j, j < x →
      ¬ ((s.inode j).used ≠ 0 ∧ strcmp (s.inode j).name name = 0) := by
    rintro j hj ⟨hu, hs⟩
    apply hnew j (by omega) hu
    rw [← c_string_of_nonzero name hnz]
    exact (strcmp_eq_zero_iff _ _).mp hs
  have ho1 := vfs_open_file_success (created s x name) name x y hinit hx hy
    (by rw [h1x]; exact ⟨by show (1 : Int) ≠ 0; decide, hstr⟩)
    (by intro j hj; rw [h1j j (by omega)]; exact hnomatch j hj) hyfree
    (fun j hj => hylow j hj)
  generalize hs2 : (created s x name).set_fd y
    { used := 1, inode_id := (x : Int), offset := 0 } = s2 at ho1
  have h2fd : s2.fd y = { used := 1, inode_id := (x : Int), offset := 0 } := by
    rw [← hs2, fd_set_fd, if_pos ⟨rfl, by show y < s.fds.length; omega⟩]
  have h2j : ∀ j, j ≠ y → s2.fd j = s.fd j := by
    intro j hj
    rw [← hs2, fd_set_fd, if_neg (fun e => hj e.1.symm)]
    rfl
  have h2in : ∀ j, s2.inode j = (created s x name).inode j := by
    intro j; rw [← hs2]; rfl
  have h2init : s2.vfs_initialized ≠ 0 := by rw [← hs2]; exact hinit
  have hw := vfs_write_file_valid s2 y d d.length h2init hy
    (by rw [h2fd]; show (1 : Int) ≠ 0; decide)
    (by rw [h2fd]; simp only [Int.toNat_ofNat]; rw [h2in, h1x]; show (1 : Int) ≠ 0; decide)
  rw [h2fd] at hw
  simp only [Int.toNat_ofNat, h2in, h1x] at hw
  have e128 : (128 - (0 : Int)).toNat = 128 := by decide
  rw [e128] at hw
  obtain ⟨w1, w2, w3, w4⟩ := vfs_write_file_loop_spec d d.length 128 d.length 0 0
    (s.inode x).data hd (Or.inr ⟨by simp, by omega⟩) (by omega)
  simp only [Nat.cast_zero, Nat.zero_add, Nat.sub_zero] at w1 w2 w3 w4
  generalize vfs_write_file_loop d (d.length : Int) 128 0 0 (s.inode x).data = L at hw w1 w2 w3 w4
  obtain ⟨Lb, Lo, Ld⟩ := L
  simp only at hw w1 w2 w3 w4
  subst w1 w2
  have hsize : (if (d.length : Int) > 0 then (d.length : Int) else 0) = (d.length : Int) := by
    split_ifs <;> omega
  rw [hsize] at hw
  generalize hs3 : (s2.set_fd y { used := 1, inode_id := (x : Int), offset := (d.length : Int) }).set_inode
    x { id := (x : Int), name := stored, size := (d.length : Int), used := 1, data := Ld } = s3 at hw
  have h2flen : s2.fds.length = MAX_FILES := by
    rw [← hs2, (set_fd_shape _ _ _).1, (created_shape _ _ _).1]; exact hflen
  have h2ilen : s2.vfs.inodes.length = MAX_INODES := by
    rw [← hs2, (set_fd_shape _ _ _).2.1, (created_shape _ _ _).2.1]; exact hilen
  have h3fd : s3.fd y = { used := 1, inode_id := (x : Int), offset := (d.length : Int) } := by
    rw [← hs3, fd_set_inode, fd_set_fd, if_pos ⟨rfl, by omega⟩]
  have h3j : ∀ j, j ≠ y → s3.fd j = s.fd j := by
    intro j hj
    rw [← hs3, fd_set_inode, fd_set_fd, if_neg (fun e => hj e.1.symm), h2j j hj]
  have h3x : s3.inode x =
      { id := (x : Int), name := stored, size := (d.length : Int), used := 1, data := Ld } := by
    rw [← hs3, inode_set_inode, if_pos ⟨rfl, by rw [(set_fd_shape _ _ _).2.1]; omega⟩]
  have h3i : ∀ j, j ≠ x → s3.inode j = s.inode j := by
    intro j hj
    rw [← hs3, inode_set_inode, if_neg (fun e => hj e.1.symm), inode_set_fd, h2in, h1j j hj]
  have h3init : s3.vfs_initialized ≠ 0 := by
    rw [← hs3, (set_inode_shape _ _ _).2.2, (set_fd_shape _ _ _).2.2]; exact h2init
  have h3flen : s3.fds.length = MAX_FILES := by
    rw [← hs3, (set_inode_shape _ _ _).1, (set_fd_shape _ _ _).1]; exact h2flen
  have hcl := vfs_close_file_valid s3 y h3init hy (by rw [h3fd]; show (1 : Int) ≠ 0; decide)
  generalize hs4 : s3.set_fd y { used := 0, inode_id := -1, offset := 0 } = s4 at hcl
  have h4fd : s4.fd y = { used := 0, inode_id := -1, offset := 0 } := by
    rw [← hs4, fd_set_fd, if_pos ⟨rfl, by omega⟩]
  have h4j : ∀ j, j ≠ y → s4.fd j = s.fd j := by
    intro j hj
    rw [← hs4, fd_set_fd, if_neg (fun e => hj e.1.symm), h3j j hj]
  have h4in : ∀ j, s4.inode j = s3.inode j := by
    intro j; rw [← hs4]; rfl
  have h4init : s4.vfs_initialized ≠ 0 := by
    rw [← hs4, (set_fd_shape _ _ _).2.2]; exact h3init
  have h4flen : s4.fds.length = MAX_FILES := by
    rw [← hs4, (set_fd_shape _ _ _).1]; exact h3flen
  have ho2 := vfs_open_file_success s4 name x y h4init hx hy
    (by rw [h4in, h3x]; exact ⟨by show (1 : Int) ≠ 0; decide, hstr⟩)
    (by intro j hj; rw [h4in, h3i j (by omega)]; exact hnomatch j hj)
    (by rw [h4fd])
    (by intro j hj; rw [h4j j (by omega)]; exact hylow j hj)
  generalize hs5 : s4.set_fd y { used := 1, inode_id := (x : Int), offset := 0 } = s5 at ho2
  have h5fd : s5.fd y = { used := 1, inode_id := (x : Int), offset := 0 } := by
    rw [← hs5, fd_set_fd, if_pos ⟨rfl, by omega⟩]
  have h5in : ∀ j, s5.inode j = s3.inode j := by
    intro j; rw [← hs5, inode_set_fd, h4in]
  have h5init : s5.vfs_initialized ≠ 0 := by
    rw [← hs5, (set_fd_shape _ _ _).2.2]; exact h4init
  have hr := vfs_read_file_valid s5 y buf d.length h5init hy
    (by rw [h5fd]; show (1 : Int) ≠ 0; decide)
    (by rw [h5fd]; simp only [Int.toNat_ofNat]; rw [h5in, h3x]; show (1 : Int) ≠ 0; decide)
  rw [h5fd] at hr
  simp only [Int.toNat_ofNat, h5in, h3x] at hr
  rw [e128] at hr
  have hrt : round_trip s name d buf =
      { inode_id := (x : Int), fd := (y : Int), written := (d.length : Int),
        size_after_write := (d.length : Int), fd2 := (y : Int),
        read := (vfs_read_file s5 (y : Int) buf (d.length : Int)).2.2,
        buf := (vfs_read_file s5 (y : Int) buf (d.length : Int)).2.1 } := by
    simp only [round_trip, hc, ho1, hw, hcl, ho2, Int.toNat_ofNat, h3x]
  rw [hrt]
  simp only
  by_cases hn : d.length = 0
  · rw [hr, if_pos (Or.inl (by omega))]
    have hd0 : d = [] := List.length_eq_zero.mp hn
    refine ⟨by simp only; omega, ?_, trivial, trivial, by omega, by omega, trivial⟩
    rw [hd0]
    rfl
  · rw [hr, if_neg (by omega)]
    obtain ⟨r1, _, r3, r4⟩ := vfs_read_file_loop_spec
      { id := (x : Int), name := stored, size := (d.length : Int), used := 1, data := Ld }
      d.length 128 d.length 0 0 buf hd (Or.inr ⟨by simp, by simp, by omega⟩) (by simp)
    simp only [Nat.cast_zero, Nat.zero_add, Nat.sub_zero] at r1 r3 r4
    refine ⟨r1, ?_, trivial, trivial, by omega, by omega, trivial⟩
    apply take_eq_of_pointwise _ _ (by rw [r3]; exact hbuf)
    intro idx hi
    rw [r4 idx, if_pos ⟨Nat.zero_le idx, hi, by omega⟩, w4 idx,
      if_pos ⟨Nat.zero_le idx, hi, by omega⟩]

/-- C1 right after `init_vfs()` with name "f" and data "abc". -/
theorem vfs_round_trip_witness :
    (round_trip (init_vfs vfs_bss) [102] [97, 98, 99] [0, 0, 0, 0]).read = 3 ∧
    (round_trip (init_vfs vfs_bss) [102] [97, 98, 99] [0, 0, 0, 0]).buf.take 3 = [97, 98, 99] ∧
    (round_trip (init_vfs vfs_bss) [102] [97, 98, 99] [0, 0, 0, 0]).size_after_write = 3 ∧
    (round_trip (init_vfs vfs_bss) [102] [97, 98, 99] [0, 0, 0, 0]).written = 3 ∧
    0 ≤ (round_trip (init_vfs vfs_bss) [102] [97, 98, 99] [0, 0, 0, 0]).inode_id ∧
    0 ≤ (round_trip (init_vfs vfs_bss) [102] [97, 98, 99] [0, 0, 0, 0]).fd ∧
    (round_trip (init_vfs vfs_bss) [102] [97, 98, 99] [0, 0, 0, 0]).fd2 =
      (round_trip (init_vfs vfs_bss) [102] [97, 98, 99] [0, 0, 0, 0]).fd :=
  vfs_round_trip (init_vfs vfs_bss) [102] [97, 98, 99] [0, 0, 0, 0] VReach.init
    ⟨0, by decide, by decide⟩ ⟨0, by decide, by decide⟩ (by decide) (by decide) (by decide)
    (by decide) (by decide)

/-! ## File-system operations -/

/-- C17: on an initialized file system, for a descriptor that is negative, at
least `MAX_FILES`, or unused, `vfs_read_file` and `vfs_write_file` return -1 and
leave the globals and the read buffer unchanged. -/
theorem invalid_descriptor (s : VfsState) (fd : Int) (buf wbuf : List Int) (len wlen : Int)
    (hinit : s.vfs_initialized ≠ 0)
    (hbad : fd < 0 ∨ fd ≥ (MAX_FILES : Int) ∨ (s.fd fd.toNat).used = 0) :
    vfs_read_file s fd buf len = (s, buf, -1) ∧ vfs_write_file s fd wbuf wlen = (s, -1) := by
  constructor
  · unfold vfs_read_file
    rw [if_neg hinit, if_pos hbad]
  · unfold vfs_write_file
    rw [if_neg hinit, if_pos hbad]

/-- C17 on the state holding file "f" with "abc": descriptor -1, descriptor 32 and
the unused descriptor 5. -/
theorem invalid_descriptor_witness :
    (vfs_read_file vfs_abc (-1) [7, 7] 2 = (vfs_abc, [7, 7], -1) ∧
      vfs_write_file vfs_abc (-1) [1] 1 = (vfs_abc, -1)) ∧
    (vfs_read_file vfs_abc 32 [7, 7] 2 = (vfs_abc, [7, 7], -1) ∧
      vfs_write_file vfs_abc 32 [1] 1 = (vfs_abc, -1)) ∧
    (vfs_read_file vfs_abc 5 [7, 7] 2 = (vfs_abc, [7, 7], -1) ∧
      vfs_write_file vfs_abc 5 [1] 1 = (vfs_abc, -1)) :=
  ⟨invalid_descriptor vfs_abc (-1) [7, 7] [1] 2 1 (by decide) (Or.inl (by decide)),
    invalid_descriptor vfs_abc 32 [7, 7] [1] 2 1 (by decide) (Or.inr (Or.inl (by decide))),
    invalid_descriptor vfs_abc 5 [7, 7] [1] 2 1 (by decide) (Or.inr (Or.inr (by decide)))⟩

/-- C18: on an initialized file system, closing a used descriptor resets that
descriptor to `used = 0, inode_id = -1, offset = 0` and changes no other
descriptor and nothing of the mount; closing an unused or out-of-range
descriptor changes nothing; and closing twice equals closing once. -/
theorem close_resets_idempotent (s : VfsState) (hinit : s.vfs_initialized ≠ 0) :
    (∀ y : Nat, y < MAX_FILES → (s.fd y).used ≠ 0 →
      (vfs_close_file s (y : Int)).fd y = { used := 0, inode_id := -1, offset := 0 } ∧
      (∀ j, j ≠ y → (vfs_close_file s (y : Int)).fd j = s.fd j) ∧
      (vfs_close_file s (y : Int)).vfs = s.vfs ∧
      (vfs_close_file s (y : Int)).fds.length = s.fds.length) ∧
    (∀ fd : Int, (fd < 0 ∨ fd ≥ (MAX_FILES : Int) ∨ (s.fd fd.toNat).used = 0) →
      vfs_close_file s fd = s) ∧
    (∀ fd : Int, vfs_close_file (vfs_close_file s fd) fd = vfs_close_file s fd) := by
  have hbadclose : ∀ (t : VfsState) (fd : Int),
      (fd < 0 ∨ fd ≥ (MAX_FILES : Int) ∨ (t.fd fd.toNat).used = 0) → vfs_close_file t fd = t := by
    intro t fd hbad
    unfold vfs_close_file
    split_ifs with h1 h2
    · rfl
    · exfalso
      rcases hbad with h | h | h
      · omega
      · omega
      · exact h2.2.2 h
    · rfl
  refine ⟨?_, hbadclose s, ?_⟩
  · intro y hy hused
    rw [vfs_close_file_valid s y hinit hy hused]
    refine ⟨?_, ?_, rfl, (set_fd_shape _ _ _).1⟩
    · rw [fd_set_fd, if_pos ⟨rfl, used_in_range s y hused⟩]
    · intro j hj
      rw [fd_set_fd, if_neg (fun e => hj e.1.symm)]
  · intro fd
    by_cases hbad : fd < 0 ∨ fd ≥ (MAX_FILES : Int) ∨ (s.fd fd.toNat).used = 0
    · rw [hbadclose s fd hbad, hbadclose s fd hbad]
    · have h0 : 0 ≤ fd := by
        by_contra h; exact hbad (Or.inl (by omega))
      have h1 : fd < (MAX_FILES : Int) := by
        by_contra h; exact hbad (Or.inr (Or.inl (by omega)))
      have h2 : (s.fd fd.toNat).used ≠ 0 := fun h => hbad (Or.inr (Or.inr h))
      apply hbadclose
      right; right
      have hfd : fd = ((fd.toNat : Nat) : Int) := by omega
      have hy : fd.toNat < MAX_FILES := by
        have : (MAX_FILES : Int) = 32 := rfl
        have : MAX_FILES = 32 := rfl
        omega
      rw [hfd, vfs_close_file_valid s fd.toNat hinit hy h2]
      simp only [Int.toNat_ofNat]
      rw [fd_set_fd, if_pos ⟨rfl, used_in_range s _ h2⟩]

/-- C18 on the state holding file "f" with "abc", whose descriptor 0 is used. -/
theorem close_resets_idempotent_witness :
    (vfs_close_file vfs_abc 0).fd 0 = { used := 0, inode_id := -1, offset := 0 } ∧
    vfs_close_file vfs_abc 7 = vfs_abc ∧
    vfs_close_file (vfs_close_file vfs_abc 0) 0 = vfs_close_file vfs_abc 0 :=
  ⟨((close_resets_idempotent vfs_abc (by decide)).1 0 (by decide) (by decide)).1,
    (close_resets_idempotent vfs_abc (by decide)).2.1 7 (Or.inr (Or.inr (by decide))),
    (close_resets_idempotent vfs_abc (by decide)).2.2 0⟩

/-- C12: on an initialized file system `vfs_create_file` returns -1 when every
inode is used (or the counter has reached `MAX_INODES`), and `vfs_open_file`
returns -1 when no used inode holds the name, or one does but every descriptor is
used; in each case the globals are unchanged. -/
theorem rejected_atomic (s : VfsState) (name : List Int) (hinit : s.vfs_initialized ≠ 0) :
    ((∀ i, i < MAX_INODES → (s.inode i).used ≠ 0) → vfs_create_file s name = (s, -1)) ∧
    (s.vfs.inodes_used ≥ (MAX_INODES : Int) → vfs_create_file s name = (s, -1)) ∧
    ((∀ i, i < MAX_INODES → (s.inode i).used ≠ 0 →
        c_string (s.inode i).name ≠ c_string name) → vfs_open_file s name = (s, -1)) ∧
    ((∃ i, i < MAX_INODES ∧ (s.inode i).used ≠ 0 ∧
        c_string (s.inode i).name = c_string name) →
      (∀ j, j < MAX_FILES → (s.fd j).used ≠ 0) → vfs_open_file s name = (s, -1)) := by
  have _ := hinit
  exact ⟨fun h => vfs_create_file_rejected s name (Or.inr h),
    fun h => vfs_create_file_rejected s name (Or.inl h),
    vfs_open_file_not_found s name, vfs_open_file_no_fd s name⟩

/-- C12 with eight files and a ninth create, an open of the missing name "z", and
an open of "f" when all 32 descriptors are used. -/
theorem rejected_atomic_witness :
    vfs_create_file vfs_full_inodes [122] = (vfs_full_inodes, -1) ∧
    vfs_open_file vfs_abc [122] = (vfs_abc, -1) ∧
    vfs_open_file vfs_full_fds [102] = (vfs_full_fds, -1) :=
  ⟨(rejected_atomic vfs_full_inodes [122] (by decide)).1 (by decide),
    (rejected_atomic vfs_abc [122] (by decide)).2.2.1 (by decide),
    (rejected_atomic vfs_full_fds [102] (by decide)).2.2.2 ⟨0, by decide, by decide, by decide⟩
      (by decide)⟩

/-- C13: on an initialized file system where a used inode holds the name and a
descriptor is free, `vfs_open_file` returns the lowest free descriptor index and
sets that descriptor to used, bound to the lowest used inode holding the name,
with offset 0; other descriptors and the whole mount are unchanged. -/
theorem vfs_open_file_ok (s : VfsState) (name : List Int) (hinit : s.vfs_initialized ≠ 0)
    (hlen : s.fds.length = MAX_FILES)
    (hmatch : ∃ i, i < MAX_INODES ∧ (s.inode i).used ≠ 0 ∧
      c_string (s.inode i).name = c_string name)
    (hfree : ∃ j, j < MAX_FILES ∧ (s.fd j).used = 0) :
    ∃ x y : Nat, x < MAX_INODES ∧ y < MAX_FILES ∧
      ((s.inode x).used ≠ 0 ∧ c_string (s.inode x).name = c_string name) ∧
      (∀ i, i < x → ¬ ((s.inode i).used ≠ 0 ∧ c_string (s.inode i).name = c_string name)) ∧
      (s.fd y).used = 0 ∧ (∀ j, j < y → (s.fd j).used ≠ 0) ∧
      (vfs_open_file s name).2 = (y : Int) ∧
      (vfs_open_file s name).1.fd y = { used := 1, inode_id := (x : Int), offset := 0 } ∧
      (∀ j, j ≠ y → (vfs_open_file s name).1.fd j = s.fd j) ∧
      (vfs_open_file s name).1.vfs = s.vfs ∧
      (vfs_open_file s name).1.fds.length = s.fds.length ∧
      (vfs_open_file s name).1.vfs_initialized = s.vfs_initialized := by
  obtain ⟨x, y, hx, hy, hmx, hxlow, hfy, hylow, heq⟩ :=
    vfs_open_file_desc s name hinit hmatch hfree
  refine ⟨x, y, hx, hy, hmx, hxlow, hfy, hylow, by rw [heq], ?_, ?_, by rw [heq]; rfl,
    by rw [heq]; exact (set_fd_shape _ _ _).1, by rw [heq]; rfl⟩
  · rw [heq, fd_set_fd, if_pos ⟨rfl, by omega⟩]
  · intro j hj
    rw [heq, fd_set_fd, if_neg (fun e => hj e.1.symm)]


/-- C13 on the state holding file "f" with "abc": descriptor 0 is used, so the open
returns descriptor 1 bound to inode 0. -/
theorem vfs_open_file_ok_witness :
    ∃ x y : Nat, x < MAX_INODES ∧ y < MAX_FILES ∧
      ((vfs_abc.inode x).used ≠ 0 ∧ c_string (vfs_abc.inode x).name = c_string [102]) ∧
      (∀ i, i < x →
        ¬ ((vfs_abc.inode i).used ≠ 0 ∧ c_string (vfs_abc.inode i).name = c_string [102])) ∧
      (vfs_abc.fd y).used = 0 ∧ (∀ j, j < y → (vfs_abc.fd j).used ≠ 0) ∧
      (vfs_open_file vfs_abc [102]).2 = (y : Int) ∧
      (vfs_open_file vfs_abc [102]).1.fd y = { used := 1, inode_id := (x : Int), offset := 0 } ∧
      (∀ j, j ≠ y → (vfs_open_file vfs_abc [102]).1.fd j = vfs_abc.fd j) ∧
      (vfs_open_file vfs_abc [102]).1.vfs = vfs_abc.vfs ∧
      (vfs_open_file vfs_abc [102]).1.fds.length = vfs_abc.fds.length ∧
      (vfs_open_file vfs_abc [102]).1.vfs_initialized = vfs_abc.vfs_initialized :=
  vfs_open_file_ok vfs_abc [102] (by decide) (by decide) ⟨0, by decide, by decide, by decide⟩
    ⟨1, by decide, by decide⟩

/-- C11: on an initialized file system with `inodes_used < MAX_INODES` and an
unused inode, `vfs_create_file` returns the lowest unused index `x`, marks inode
`x` used with id `x` and size 0, stores the first `min(len, 31)` bytes of the
name followed by NUL, adds 1 to `inodes_used` and to `files`, and leaves the
other inodes and the descriptor table unchanged. -/
theorem vfs_create_file_ok (s : VfsState) (name : List Int) (hinit : s.vfs_initialized ≠ 0)
    (hshape : VfsShape s) (hcount : s.vfs.inodes_used < (MAX_INODES : Int))
    (hfree : ∃ i, i < MAX_INODES ∧ (s.inode i).used = 0) :
    ∃ x : Nat, x < MAX_INODES ∧ (s.inode x).used = 0 ∧ (∀ j, j < x → (s.inode j).used ≠ 0) ∧
      (vfs_create_file s name).2 = (x : Int) ∧
      ((vfs_create_file s name).1.inode x).used = 1 ∧
      ((vfs_create_file s name).1.inode x).id = (x : Int) ∧
      ((vfs_create_file s name).1.inode x).size = 0 ∧
      ((vfs_create_file s name).1.inode x).data = (s.inode x).data ∧
      ((vfs_create_file s name).1.inode x).name.length = 32 ∧
      ((vfs_create_file s name).1.inode x).name.take (min (c_string name).length 31 + 1) =
        (c_string name).take 31 ++ [0] ∧
      c_string ((vfs_create_file s name).1.inode x).name = (c_string name).take 31 ∧
      (vfs_create_file s name).1.vfs.inodes_used = s.vfs.inodes_used + 1 ∧
      (vfs_create_file s name).1.vfs.files = s.vfs.files + 1 ∧
      (∀ j, j ≠ x → (vfs_create_file s name).1.inode j = s.inode j) ∧
      (vfs_create_file s name).1.fds = s.fds ∧
      (vfs_create_file s name).1.vfs_initialized = s.vfs_initialized := by
  obtain ⟨x, hx, hfx, hxlow⟩ := exists_lowest (fun i => (s.inode i).used = 0) MAX_INODES hfree
  have heq : vfs_create_file s name = (created s x name, (x : Int)) := by
    unfold vfs_create_file
    rw [if_neg hinit, if_neg (by omega)]
    exact vfs_create_file_loop_first name s x hfx MAX_INODES 0 (Nat.zero_le x) (by omega)
      (fun j _ hj => hxlow j hj)
  obtain ⟨_, n2, n3, n4, _⟩ := stored_name_spec name (s.inode x).name (vfsShape_inode s hshape x).1
  have hnode := inode_created s x x name
  rw [if_pos ⟨rfl, by rw [hshape.1]; exact hx⟩] at hnode
  refine ⟨x, hx, hfx, hxlow, by rw [heq], ?_, ?_, ?_, ?_, ?_, ?_, ?_, by rw [heq]; rfl,
    by rw [heq]; rfl, ?_, by rw [heq]; rfl, by rw [heq]; rfl⟩
  · rw [heq, hnode]
  · rw [heq, hnode]
  · rw [heq, hnode]
  · rw [heq, hnode]
  · rw [heq, hnode]; exact n2
  · rw [heq, hnode]; exact n3
  · rw [heq, hnode]; exact n4
  · intro j hj
    rw [heq]
    show (created s x name).inode j = s.inode j
    rw [inode_created, if_neg (fun e => hj e.1.symm)]

/-- C11 on the state holding file "f": creating "g" claims inode 1. -/
theorem vfs_create_file_ok_witness :
    ∃ x : Nat, x < MAX_INODES ∧ (vfs_abc.inode x).used = 0 ∧
      (∀ j, j < x → (vfs_abc.inode j).used ≠ 0) ∧
      (vfs_create_file vfs_abc [103]).2 = (x : Int) ∧
      ((vfs_create_file vfs_abc [103]).1.inode x).used = 1 ∧
      ((vfs_create_file vfs_abc [103]).1.inode x).id = (x : Int) ∧
      ((vfs_create_file vfs_abc [103]).1.inode x).size = 0 ∧
      ((vfs_create_file vfs_abc [103]).1.inode x).data = (vfs_abc.inode x).data ∧
      ((vfs_create_file vfs_abc [103]).1.inode x).name.length = 32 ∧
      ((vfs_create_file vfs_abc [103]).1.inode x).name.take
          (min (c_string [103]).length 31 + 1) = (c_string [103]).take 31 ++ [0] ∧
      c_string ((vfs_create_file vfs_abc [103]).1.inode x).name = (c_string [103]).take 31 ∧
      (vfs_create_file vfs_abc [103]).1.vfs.inodes_used = vfs_abc.vfs.inodes_used + 1 ∧
      (vfs_create_file vfs_abc [103]).1.vfs.files = vfs_abc.vfs.files + 1 ∧
      (∀ j, j ≠ x → (vfs_create_file vfs_abc [103]).1.inode j = vfs_abc.inode j) ∧
      (vfs_create_file vfs_abc [103]).1.fds = vfs_abc.fds ∧
      (vfs_create_file vfs_abc [103]).1.vfs_initialized = vfs_abc.vfs_initialized :=
  vfs_create_file_ok vfs_abc [103] (by decide) ⟨by decide, by decide, by decide⟩ (by decide)
    ⟨1, by decide, by decide⟩
/-- C14: on an initialized file system, for a used descriptor `y` with offset
`o >= 0` bound to a used inode of size `sz <= 128`, and a buffer of at least `L`
bytes, `vfs_read_file(y, buf, L)` returns `k = min(max(L, 0), max(sz - o, 0))`,
copies `data[o..o+k)` to `buf[0..k)`, leaves the rest of `buf` alone, advances the
offset to `o + k` and changes nothing else; when `o >= sz` or `sz == 0` it
returns 0 and changes nothing. -/
theorem vfs_read_file_result (s : VfsState) (y : Nat) (buf : List Int) (L : Int)
    (hinit : s.vfs_initialized ≠ 0) (hd : DescOK s y)
    (hsz : (s.inode (s.fd y).inode_id.toNat).size ≤ 128) (hbuf : L ≤ (buf.length : Int)) :
    ∃ k : Nat,
      (k : Int) = min (max L 0)
        (max ((s.inode (s.fd y).inode_id.toNat).size - (s.fd y).offset) 0) ∧
      (vfs_read_file s (y : Int) buf L).2.2 = (k : Int) ∧
      (∀ t, t < k → (vfs_read_file s (y : Int) buf L).2.1.getD t 0 =
        (s.inode (s.fd y).inode_id.toNat).data.getD ((s.fd y).offset.toNat + t) 0) ∧
      (∀ t, k ≤ t → (vfs_read_file s (y : Int) buf L).2.1.getD t 0 = buf.getD t 0) ∧
      (vfs_read_file s (y : Int) buf L).2.1.length = buf.length ∧
      (vfs_read_file s (y : Int) buf L).1.fd y =
        { s.fd y with offset := (s.fd y).offset + (k : Int) } ∧
      (∀ j, j ≠ y → (vfs_read_file s (y : Int) buf L).1.fd j = s.fd j) ∧
      (vfs_read_file s (y : Int) buf L).1.vfs = s.vfs ∧
      (vfs_read_file s (y : Int) buf L).1.fds.length = s.fds.length ∧
      (((s.inode (s.fd y).inode_id.toNat).size = 0 ∨
          (s.fd y).offset ≥ (s.inode (s.fd y).inode_id.toNat).size) →
        vfs_read_file s (y : Int) buf L = (s, buf, 0)) := by
  obtain ⟨k, buf', hk, heq, hlen, hpt⟩ := vfs_read_file_spec s y buf L hinit hd
  have hyl := used_in_range s y hd.2.1
  refine ⟨k, by omega, by rw [heq], ?_, ?_, by rw [heq]; exact hlen, ?_, ?_, by rw [heq]; rfl,
    by rw [heq]; exact (set_fd_shape _ _ _).1, ?_⟩
  · intro t ht
    rw [heq]
    show buf'.getD t 0 = _
    rw [hpt t, if_pos ⟨ht, by omega⟩]
  · intro t ht
    rw [heq]
    show buf'.getD t 0 = _
    rw [hpt t, if_neg (by omega)]
  · rw [heq]
    show (s.set_fd y _).fd y = _
    rw [fd_set_fd, if_pos ⟨rfl, hyl⟩]
  · intro j hj
    rw [heq]
    show (s.set_fd y _).fd j = _
    rw [fd_set_fd, if_neg (fun e => hj e.1.symm)]
  · intro hearly
    have hv := vfs_read_file_valid s y buf L hinit hd.1 hd.2.1 hd.2.2.2.2.1
    rw [if_pos hearly] at hv
    exact hv

/-- C14 on `vfs_abc_two`: reading 2 bytes through descriptor 1 (offset 0, size 3)
returns 2 and the bytes "ab"; reading through descriptor 0 (offset 3) returns 0. -/
theorem vfs_read_file_result_witness :
    (∃ k : Nat,
      (k : Int) = min (max 2 0)
        (max ((vfs_abc_two.inode (vfs_abc_two.fd 1).inode_id.toNat).size -
          (vfs_abc_two.fd 1).offset) 0) ∧
      (vfs_read_file vfs_abc_two ((1 : Nat) : Int) [7, 7, 7] 2).2.2 = (k : Int) ∧
      (∀ t, t < k → (vfs_read_file vfs_abc_two ((1 : Nat) : Int) [7, 7, 7] 2).2.1.getD t 0 =
        (vfs_abc_two.inode (vfs_abc_two.fd 1).inode_id.toNat).data.getD
          ((vfs_abc_two.fd 1).offset.toNat + t) 0) ∧
      (∀ t, k ≤ t → (vfs_read_file vfs_abc_two ((1 : Nat) : Int) [7, 7, 7] 2).2.1.getD t 0 =
        ([7, 7, 7] : List Int).getD t 0) ∧
      (vfs_read_file vfs_abc_two ((1 : Nat) : Int) [7, 7, 7] 2).2.1.length =
        ([7, 7, 7] : List Int).length ∧
      (vfs_read_file vfs_abc_two ((1 : Nat) : Int) [7, 7, 7] 2).1.fd 1 =
        { vfs_abc_two.fd 1 with offset := (vfs_abc_two.fd 1).offset + (k : Int) } ∧
      (∀ j, j ≠ 1 →
        (vfs_read_file vfs_abc_two ((1 : Nat) : Int) [7, 7, 7] 2).1.fd j = vfs_abc_two.fd j) ∧
      (vfs_read_file vfs_abc_two ((1 : Nat) : Int) [7, 7, 7] 2).1.vfs = vfs_abc_two.vfs ∧
      (vfs_read_file vfs_abc_two ((1 : Nat) : Int) [7, 7, 7] 2).1.fds.length =
        vfs_abc_two.fds.length ∧
      (((vfs_abc_two.inode (vfs_abc_two.fd 1).inode_id.toNat).size = 0 ∨
          (vfs_abc_two.fd 1).offset ≥
            (vfs_abc_two.inode (vfs_abc_two.fd 1).inode_id.toNat).size) →
        vfs_read_file vfs_abc_two ((1 : Nat) : Int) [7, 7, 7] 2 =
          (vfs_abc_two, [7, 7, 7], 0))) ∧
    (vfs_read_file vfs_abc_two 1 [7, 7, 7] 2).2 = ([97, 98, 7], 2) ∧
    vfs_read_file vfs_abc_two 0 [7, 7, 7] 2 = (vfs_abc_two, [7, 7, 7], 0) :=
  ⟨vfs_read_file_result vfs_abc_two 1 [7, 7, 7] 2 (by decide)
      ⟨by decide, by decide, by decide, by decide, by decide, by decide⟩ (by decide) (by decide),
    by decide, by decide⟩


/-- C15: on an initialized file system, for a used descriptor `y` with offset
`0 <= o <= 128` bound to a used inode, `vfs_write_file(y, buf, N)` returns
`k = min(max(N, 0), 128 - o)`, stores `buf[0..k)` at `data[o..o+k)` and leaves
every other data byte, advances the offset to `o + k`, sets size to
`max(size, o + k)` (so size never decreases) and changes no other inode, no
other descriptor and no counter. -/
theorem vfs_write_file_result (s : VfsState) (y : Nat) (buf : List Int) (N : Int)
    (hinit : s.vfs_initialized ≠ 0) (hshape : VfsShape s) (hd : DescOK s y)
    (ho : (s.fd y).offset ≤ 128) :
    ∃ k : Nat,
      (k : Int) = min (max N 0) (128 - (s.fd y).offset) ∧
      (vfs_write_file s (y : Int) buf N).2 = (k : Int) ∧
      (∀ t, t < k →
        ((vfs_write_file s (y : Int) buf N).1.inode (s.fd y).inode_id.toNat).data.getD
          ((s.fd y).offset.toNat + t) 0 = buf.getD t 0) ∧
      (∀ idx, idx < (s.fd y).offset.toNat ∨ (s.fd y).offset.toNat + k ≤ idx →
        ((vfs_write_file s (y : Int) buf N).1.inode (s.fd y).inode_id.toNat).data.getD idx 0 =
          (s.inode (s.fd y).inode_id.toNat).data.getD idx 0) ∧
      ((vfs_write_file s (y : Int) buf N).1.inode (s.fd y).inode_id.toNat).data.length = 128 ∧
      ((vfs_write_file s (y : Int) buf N).1.inode (s.fd y).inode_id.toNat).size =
        max (s.inode (s.fd y).inode_id.toNat).size ((s.fd y).offset + (k : Int)) ∧
      (s.inode (s.fd y).inode_id.toNat).size ≤
        ((vfs_write_file s (y : Int) buf N).1.inode (s.fd y).inode_id.toNat).size ∧
      ((vfs_write_file s (y : Int) buf N).1.inode (s.fd y).inode_id.toNat).used =
        (s.inode (s.fd y).inode_id.toNat).used ∧
      ((vfs_write_file s (y : Int) buf N).1.inode (s.fd y).inode_id.toNat).name =
        (s.inode (s.fd y).inode_id.toNat).name ∧
      ((vfs_write_file s (y : Int) buf N).1.inode (s.fd y).inode_id.toNat).id =
        (s.inode (s.fd y).inode_id.toNat).id ∧
      (vfs_write_file s (y : Int) buf N).1.fd y =
        { s.fd y with offset := (s.fd y).offset + (k : Int) } ∧
      (∀ j, j ≠ y → (vfs_write_file s (y : Int) buf N).1.fd j = s.fd j) ∧
      (∀ i, i ≠ (s.fd y).inode_id.toNat →
        (vfs_write_file s (y : Int) buf N).1.inode i = s.inode i) ∧
      (vfs_write_file s (y : Int) buf N).1.vfs.inodes_used = s.vfs.inodes_used ∧
      (vfs_write_file s (y : Int) buf N).1.vfs.files = s.vfs.files := by
  obtain ⟨k, data', hk, heq, hlen, hpt⟩ := vfs_write_file_spec s y buf N hinit hd
  have hyl := used_in_range s y hd.2.1
  have hxl := inode_used_in_range s _ hd.2.2.2.2.1
  have hdl := (vfsShape_inode s hshape (s.fd y).inode_id.toNat).2
  have hnode : (vfs_write_file s (y : Int) buf N).1.inode (s.fd y).inode_id.toNat =
      { s.inode (s.fd y).inode_id.toNat with
        data := data',
        size := max (s.inode (s.fd y).inode_id.toNat).size ((s.fd y).offset + (k : Int)) } := by
    rw [heq]
    show ((s.set_fd y _).set_inode _ _).inode _ = _
    rw [inode_set_inode, if_pos ⟨rfl, by rw [(set_fd_shape _ _ _).2.1]; exact hxl⟩]
  have ho0 := hd.2.2.2.2.2
  refine ⟨k, by omega, by rw [heq], ?_, ?_, ?_, ?_, ?_, ?_, ?_, ?_, ?_, ?_, ?_, by rw [heq]; rfl,
    by rw [heq]; rfl⟩
  · intro t ht
    rw [hnode]
    show data'.getD _ 0 = _
    rw [hpt, if_pos ⟨by omega, by omega, by omega⟩]
    congr 1
    omega
  · intro idx hidx
    rw [hnode]
    show data'.getD _ 0 = _
    rw [hpt, if_neg (by omega)]
  · rw [hnode]
    show data'.length = 128
    rw [hlen, hdl]
  · rw [hnode]
  · rw [hnode]
    exact le_max_left _ _
  · rw [hnode]
  · rw [hnode]
  · rw [hnode]
  · rw [heq]
    show ((s.set_fd y _).set_inode _ _).fd y = _
    rw [fd_set_inode, fd_set_fd, if_pos ⟨rfl, hyl⟩]
  · intro j hj
    rw [heq]
    show ((s.set_fd y _).set_inode _ _).fd j = _
    rw [fd_set_inode, fd_set_fd, if_neg (fun e => hj e.1.symm)]
  · intro i hi
    rw [heq]
    show ((s.set_fd y _).set_inode _ _).inode i = _
    rw [inode_set_inode, if_neg (fun e => hi e.1.symm), inode_set_fd]

/-- C16 (counterexample): on `vfs_abc`, descriptor 0 is used and sits at offset 3,
the size of its inode; `vfs_write_file(0, buf, 200)` with a buffer of 200 bytes
returns 125 and leaves size 128, not 3 + 200. -/
theorem vfs_write_file_truncated :
    (vfs_abc.fd 0).used ≠ 0 ∧ (vfs_abc.fd 0).inode_id = 0 ∧ (vfs_abc.fd 0).offset = 3 ∧
    (vfs_abc.inode 0).size = 3 ∧
    (vfs_write_file vfs_abc 0 (List.replicate 200 120) 200).2 = 125 ∧
    ((vfs_write_file vfs_abc 0 (List.replicate 200 120) 200).1.inode 0).size = 128 ∧
    ((vfs_write_file vfs_abc 0 (List.replicate 200 120) 200).1.inode 0).size ≠
      (vfs_abc.fd 0).offset + 200 := by
  have hd : DescOK vfs_abc 0 := ⟨by decide, by decide, by decide, by decide, by decide, by decide⟩
  obtain ⟨k, data', hk, heq, _, _⟩ :=
    vfs_write_file_spec vfs_abc 0 (List.replicate 200 120) 200 (by decide) hd
  have ho : (vfs_abc.fd 0).offset = 3 := by decide
  have hi : (vfs_abc.fd 0).inode_id = 0 := by decide
  have hs : (vfs_abc.inode 0).size = 3 := by decide
  have hl : vfs_abc.vfs.inodes.length = 8 := by decide
  have e : vfs_write_file vfs_abc 0 (List.replicate 200 120) 200 =
      vfs_write_file vfs_abc ((0 : Nat) : Int) (List.replicate 200 120) 200 := rfl
  rw [ho] at hk
  have hk125 : (k : Int) = 125 := by omega
  have hsize : ((vfs_write_file vfs_abc 0 (List.replicate 200 120) 200).1.inode 0).size = 128 := by
    rw [e, heq]
    show (((vfs_abc.set_fd 0 _).set_inode _ _).inode 0).size = _
    rw [hi, inode_set_inode]
    rw [if_pos ⟨rfl, by rw [(set_fd_shape _ _ _).2.1, hl]; decide⟩]
    show max (vfs_abc.inode (0 : Int).toNat).size ((vfs_abc.fd 0).offset + (k : Int)) = 128
    rw [ho, hk125]
    have hs' : (vfs_abc.inode (0 : Int).toNat).size = 3 := hs
    rw [hs']
    decide
  refine ⟨by decide, hi, ho, hs, ?_, hsize, ?_⟩
  · rw [e, heq]
    exact hk125
  · rw [hsize, ho]
    decide

/-- C16 (amended): on an initialized file system, for a used descriptor whose
offset `o` is at or beyond the size of its (used) inode and every `N >= 0` with
`o + N <= 128`, `vfs_write_file(y, buf, N)` returns `N` and the size of the inode
is `o + N` afterwards. -/
theorem vfs_write_file_extends (s : VfsState) (y : Nat) (buf : List Int) (N : Int)
    (hinit : s.vfs_initialized ≠ 0) (hd : DescOK s y) (hN : 0 ≤ N)
    (hbeyond : (s.inode (s.fd y).inode_id.toNat).size ≤ (s.fd y).offset)
    (hfit : (s.fd y).offset + N ≤ 128) :
    (vfs_write_file s (y : Int) buf N).2 = N ∧
    ((vfs_write_file s (y : Int) buf N).1.inode (s.fd y).inode_id.toNat).size =
      (s.fd y).offset + N := by
  obtain ⟨k, data', hk, heq, _, _⟩ := vfs_write_file_spec s y buf N hinit hd
  have hxl := inode_used_in_range s _ hd.2.2.2.2.1
  have ho := hd.2.2.2.2.2
  have hkN : (k : Int) = N := by omega
  rw [heq]
  refine ⟨hkN, ?_⟩
  show (((s.set_fd y _).set_inode _ _).inode _).size = _
  rw [inode_set_inode, if_pos ⟨rfl, by rw [(set_fd_shape _ _ _).2.1]; exact hxl⟩]
  simp only
  omega

/-- C15 on `vfs_abc_two`: writing "xy" through descriptor 1 (offset 0, size 3)
returns 2, overwrites the first two bytes and keeps size 3. -/
theorem vfs_write_file_result_witness :
    (∃ k : Nat,
      (k : Int) = min (max 2 0) (128 - (vfs_abc_two.fd 1).offset) ∧
      (vfs_write_file vfs_abc_two ((1 : Nat) : Int) [120, 121] 2).2 = (k : Int)) ∧
    (vfs_write_file vfs_abc_two 1 [120, 121] 2).2 = 2 ∧
    ((vfs_write_file vfs_abc_two 1 [120, 121] 2).1.inode 0).data.take 4 = [120, 121, 99, 0] ∧
    ((vfs_write_file vfs_abc_two 1 [120, 121] 2).1.inode 0).size = 3 ∧
    ((vfs_write_file vfs_abc_two 1 [120, 121] 2).1.fd 1).offset = 2 := by
  obtain ⟨k, h1, h2, _⟩ := vfs_write_file_result vfs_abc_two 1 [120, 121] 2 (by decide)
    ⟨by decide, by decide, by decide⟩
    ⟨by decide, by decide, by decide, by decide, by decide, by decide⟩ (by decide)
  exact ⟨⟨k, h1, h2⟩, by decide, by decide, by decide, by decide⟩

/-- C16 (amended) on `vfs_abc`: descriptor 0 is at offset 3, the size of its
inode; writing 2 bytes returns 2 and leaves size 5. -/
theorem vfs_write_file_extends_witness :
    ((vfs_write_file vfs_abc ((0 : Nat) : Int) [100, 101] 2).2 = 2 ∧
      ((vfs_write_file vfs_abc ((0 : Nat) : Int) [100, 101] 2).1.inode
        (vfs_abc.fd 0).inode_id.toNat).size = (vfs_abc.fd 0).offset + 2) ∧
    ((vfs_write_file vfs_abc 0 [100, 101] 2).1.inode 0).size = 5 :=
  ⟨vfs_write_file_extends vfs_abc 0 [100, 101] 2 (by decide)
      ⟨by decide, by decide, by decide, by decide, by decide, by decide⟩ (by decide) (by decide)
      (by decide),
    by decide⟩

/-- C20: on an initialized file system holding the name, with two free
descriptors, two successive `vfs_open_file` calls return distinct descriptors
bound to the same inode at offset 0; a read or write through one descriptor
leaves every other descriptor as it was; and in any state where two used
descriptors share a used inode, bytes written through one are what a following
read through the other returns at the same file positions. -/
theorem shared_inode_descriptors (s : VfsState) (name : List Int)
    (hinit : s.vfs_initialized ≠ 0) (hlen : s.fds.length = MAX_FILES)
    (hmatch : ∃ i, i < MAX_INODES ∧ (s.inode i).used ≠ 0 ∧
      c_string (s.inode i).name = c_string name)
    (hfree : ∃ a b, a < b ∧ b < MAX_FILES ∧ (s.fd a).used = 0 ∧ (s.fd b).used = 0) :
    (∃ x f1 f2 : Nat, x < MAX_INODES ∧ f1 < MAX_FILES ∧ f2 < MAX_FILES ∧ f1 ≠ f2 ∧
      (s.inode x).used ≠ 0 ∧ c_string (s.inode x).name = c_string name ∧
      (vfs_open_file s name).2 = (f1 : Int) ∧
      (vfs_open_file (vfs_open_file s name).1 name).2 = (f2 : Int) ∧
      (vfs_open_file (vfs_open_file s name).1 name).1.fd f1 =
        { used := 1, inode_id := (x : Int), offset := 0 } ∧
      (vfs_open_file (vfs_open_file s name).1 name).1.fd f2 =
        { used := 1, inode_id := (x : Int), offset := 0 } ∧
      (vfs_open_file (vfs_open_file s name).1 name).1.vfs = s.vfs) ∧
    (∀ (u : VfsState) (a : Int) (b : Nat) (buf : List Int) (len : Int), a ≠ (b : Int) →
      (vfs_read_file u a buf len).1.fd b = u.fd b ∧
      (vfs_write_file u a buf len).1.fd b = u.fd b) ∧
    (∀ (u : VfsState) (a b : Nat) (buf rbuf : List Int) (N L : Int),
      u.vfs_initialized ≠ 0 → VfsShape u → DescOK u a → DescOK u b → a ≠ b →
      (u.fd a).inode_id = (u.fd b).inode_id → L ≤ (rbuf.length : Int) →
      ∀ p : Nat, (u.fd a).offset ≤ (p : Int) →
        (p : Int) < (u.fd a).offset + (vfs_write_file u (a : Int) buf N).2 →
        (u.fd b).offset ≤ (p : Int) →
        (p : Int) < (u.fd b).offset +
          (vfs_read_file (vfs_write_file u (a : Int) buf N).1 (b : Int) rbuf L).2.2 →
        (vfs_read_file (vfs_write_file u (a : Int) buf N).1 (b : Int) rbuf L).2.1.getD
            (p - (u.fd b).offset.toNat) 0 = buf.getD (p - (u.fd a).offset.toNat) 0) := by
  refine ⟨?_, fun u a b buf len hab =>
    ⟨vfs_read_file_other u a b buf len hab, vfs_write_file_other u a b buf len hab⟩,
    fun u a b buf rbuf N L h1 h2 h3 h4 h5 h6 h7 =>
      write_then_read u a b buf rbuf N L h1 h2 h3 h4 h5 h6 h7⟩
  obtain ⟨a, b, hab, hb, hfa, hfb⟩ := hfree
  obtain ⟨x, f1, hx, hf1, hmx, hxlow, hf1free, hf1low, heq1⟩ :=
    vfs_open_file_desc s name hinit hmatch ⟨a, by omega, hfa⟩
  have hf1a : f1 ≤ a := by
    by_contra h
    exact hf1low a (by omega) hfa
  generalize hs1 : s.set_fd f1 { used := 1, inode_id := (x : Int), offset := 0 } = s1 at heq1
  have h1fd : ∀ j, j ≠ f1 → s1.fd j = s.fd j := by
    intro j hj
    rw [← hs1, fd_set_fd, if_neg (fun e => hj e.1.symm)]
  have h1f1 : s1.fd f1 = { used := 1, inode_id := (x : Int), offset := 0 } := by
    rw [← hs1, fd_set_fd, if_pos ⟨rfl, by omega⟩]
  have h1in : ∀ i, s1.inode i = s.inode i := by
    intro i; rw [← hs1]; rfl
  have h1init : s1.vfs_initialized ≠ 0 := by rw [← hs1]; exact hinit
  have h1len : s1.fds.length = MAX_FILES := by
    rw [← hs1, (set_fd_shape _ _ _).1]; exact hlen
  obtain ⟨x2, f2, _, hf2, hmx2, hx2low, hf2free, _, heq2⟩ :=
    vfs_open_file_desc s1 name h1init
      ⟨x, hx, by rw [h1in]; exact hmx.1, by rw [h1in]; exact hmx.2⟩
      ⟨b, hb, by rw [h1fd b (by omega)]; exact hfb⟩
  have hxx : x2 = x := by
    rw [h1in] at hmx2
    rcases Nat.lt_trichotomy x2 x with h | h | h
    · exact absurd hmx2 (hxlow x2 h)
    · exact h
    · exact absurd (by rw [h1in]; exact hmx) (hx2low x h)
  subst hxx
  have hne : f1 ≠ f2 := by
    intro e
    rw [← e, h1f1] at hf2free
    exact absurd (show (1 : Int) = 0 from hf2free) (by decide)
  refine ⟨x2, f1, f2, hx, hf1, hf2, hne, hmx.1, hmx.2, by rw [heq1], by rw [heq1, heq2], ?_, ?_,
    ?_⟩
  · rw [heq1, heq2]
    show (s1.set_fd f2 _).fd f1 = _
    rw [fd_set_fd, if_neg (fun e => hne e.1.symm), h1f1]
  · rw [heq1, heq2]
    show (s1.set_fd f2 _).fd f2 = _
    rw [fd_set_fd, if_pos ⟨rfl, by omega⟩]
  · rw [heq1, heq2, ← hs1]
    rfl


/-- C20 on the state holding file "f" with no descriptor used: the two opens
return descriptors 0 and 1 on inode 0, and "abc" written through descriptor 0 is
read back through descriptor 1. -/
theorem shared_inode_descriptors_witness :
    (∃ x f1 f2 : Nat, x < MAX_INODES ∧ f1 < MAX_FILES ∧ f2 < MAX_FILES ∧ f1 ≠ f2 ∧
      (vfs_f.inode x).used ≠ 0 ∧ c_string (vfs_f.inode x).name = c_string [102] ∧
      (vfs_open_file vfs_f [102]).2 = (f1 : Int) ∧
      (vfs_open_file (vfs_open_file vfs_f [102]).1 [102]).2 = (f2 : Int) ∧
      (vfs_open_file (vfs_open_file vfs_f [102]).1 [102]).1.fd f1 =
        { used := 1, inode_id := (x : Int), offset := 0 } ∧
      (vfs_open_file (vfs_open_file vfs_f [102]).1 [102]).1.fd f2 =
        { used := 1, inode_id := (x : Int), offset := 0 } ∧
      (vfs_open_file (vfs_open_file vfs_f [102]).1 [102]).1.vfs = vfs_f.vfs) ∧
    (vfs_open_file vfs_f [102]).2 = 0 ∧
    (vfs_open_file (vfs_open_file vfs_f [102]).1 [102]).2 = 1 ∧
    (vfs_read_file
      (vfs_write_file (vfs_open_file (vfs_open_file vfs_f [102]).1 [102]).1 0 [97, 98, 99] 3).1
      1 [0, 0, 0] 3).2 = ([97, 98, 99], 3) :=
  ⟨(shared_inode_descriptors vfs_f [102] (by decide) (by decide)
      ⟨0, by decide, by decide, by decide⟩ ⟨0, 1, by decide, by decide, by decide, by decide⟩).1,
    by decide, by decide, by decide⟩

/-- C19: in every state reachable from `init_vfs()`, with a buffer of at least
256 bytes, `vfs_list_files` stores in `*len` the length of the listing capped at
255, writes the first 255 bytes of the listing (per used inode in slot order:
the printable bytes of its name, then a space) followed by NUL, and touches no
byte after the NUL. -/
theorem vfs_list_files_output (s : VfsState) (buf : List Int) (hreach : VReach s)
    (hbuf : 256 ≤ buf.length) :
    (vfs_list_files s buf).2 = ((min 255 (listing s).length : Nat) : Int) ∧
    (vfs_list_files s buf).2 ≤ 255 ∧
    (vfs_list_files s buf).1.take (min 255 (listing s).length) = (listing s).take 255 ∧
    (vfs_list_files s buf).1.getD (min 255 (listing s).length) 0 = 0 ∧
    (vfs_list_files s buf).1.length = buf.length ∧
    (∀ idx, min 255 (listing s).length < idx →
      (vfs_list_files s buf).1.getD idx 0 = buf.getD idx 0) := by
  have hwf := vfsWF_reach hreach
  have hname := nameInv_inode s (nameInv_reach hreach)
  have h0 : Emitted buf [] 0 buf := ⟨rfl, rfl, fun idx => by rw [if_neg (by omega)]⟩
  have hf := vfs_list_files_fold_spec s buf (by omega) hname (List.range MAX_INODES) (0, buf) [] h0
  simp only [List.nil_append] at hf
  have heq : vfs_list_files s buf =
      (((List.range MAX_INODES).foldl (vfs_list_files_inode s) (0, buf)).2.set
          ((List.range MAX_INODES).foldl (vfs_list_files_inode s) (0, buf)).1 0,
        ((((List.range MAX_INODES).foldl (vfs_list_files_inode s) (0, buf)).1 : Nat) : Int)) := by
    unfold vfs_list_files
    rw [if_neg (by rw [hwf.1]; decide)]
  generalize (List.range MAX_INODES).foldl (vfs_list_files_inode s) (0, buf) = r at hf heq
  obtain ⟨pos, fbuf⟩ := r
  simp only at hf heq
  obtain ⟨h1, h2, h3⟩ := hf
  change pos = min 255 (listing s).length at h1
  rw [heq]
  simp only
  rw [← h1]
  refine ⟨rfl, by omega, ?_, ?_, by rw [List.length_set, h2], ?_⟩
  · apply list_ext_getD
    · rw [List.length_take, List.length_take, List.length_set, h2]
      omega
    · intro i hi
      rw [List.length_take, List.length_set, h2] at hi
      rw [getD_take _ _ _ (by omega), getD_take _ _ _ (by omega), getD_set,
        if_neg (by omega), h3 i, if_pos (by omega)]
      rfl
  · rw [getD_set, if_pos ⟨rfl, by omega⟩]
  · intro idx hidx
    rw [getD_set, if_neg (by omega), h3 idx, if_neg (by omega)]

set_option maxRecDepth 16384 in
/-- C19 on eight files with 31-byte printable names: the listing has 256 bytes,
`*len` is 255 and byte 255 of the buffer is the NUL. -/
theorem vfs_list_files_output_witness :
    ((vfs_list_files vfs_long_names (List.replicate 256 7)).2 =
        ((min 255 (listing vfs_long_names).length : Nat) : Int) ∧
      (vfs_list_files vfs_long_names (List.replicate 256 7)).2 ≤ 255) ∧
    (listing vfs_long_names).length = 256 ∧
    (vfs_list_files vfs_long_names (List.replicate 256 7)).2 = 255 ∧
    (vfs_list_files vfs_long_names (List.replicate 256 7)).1.getD 255 7 = 0 ∧
    (vfs_list_files vfs_abc (List.replicate 256 7)).1.take 3 = [102, 32, 0] ∧
    (vfs_list_files vfs_abc (List.replicate 256 7)).2 = 2 := by
  have hr : VReach vfs_long_names :=
    VReach.step (VReach.step (VReach.step (VReach.step (VReach.step (VReach.step (VReach.step
      (VReach.step VReach.init (VStep.create _ _)) (VStep.create _ _)) (VStep.create _ _))
      (VStep.create _ _)) (VStep.create _ _)) (VStep.create _ _)) (VStep.create _ _))
      (VStep.create _ _)
  obtain ⟨w1, w2, _⟩ := vfs_list_files_output vfs_long_names (List.replicate 256 7) hr
    (by decide)
  exact ⟨⟨w1, w2⟩, by decide, by decide, by decide, by decide, by decide⟩

/-! ## Invariants of the file system, the gates and the page structures -/

/-- C21: in every state reachable from `init_vfs()` by the six file-system calls,
`vfs.inodes_used` is the number of inodes whose `used` flag is set, and
`vfs.files` equals `vfs.inodes_used`. -/
theorem inodes_used_counts (s : VfsState) (hr : VReachAll s) :
    s.vfs.inodes_used = ((s.vfs.inodes.countP (fun n => n.used ≠ 0) : Nat) : Int) ∧
    s.vfs.files = s.vfs.inodes_used :=
  ⟨(vfsWF_reach (vreach_of_all hr)).2.2.2.2, files_reach (vreach_of_all hr)⟩

/-- C21 after "f" and "g" are created and the files are listed: both counters
are 2 and two inodes are used. -/
theorem inodes_used_counts_witness :
    VReachAll vfs_f_g ∧ vfs_f_g.vfs.inodes_used = 2 ∧
    vfs_f_g.vfs.inodes.countP (fun n => n.used ≠ 0) = 2 ∧
    (vfs_f_g.vfs.inodes_used =
        ((vfs_f_g.vfs.inodes.countP (fun n => n.used ≠ 0) : Nat) : Int) ∧
      vfs_f_g.vfs.files = vfs_f_g.vfs.inodes_used) :=
  have hr : VReachAll vfs_f_g :=
    VReachAll.step
      (VReachAll.step (VReachAll.step VReachAll.init (VCall.op (VStep.create _ [102])))
        (VCall.op (VStep.create _ [103])))
      (VCall.list _ (List.replicate 256 0))
  ⟨hr, by decide, by decide, inodes_used_counts vfs_f_g hr⟩

/-- C22 (counterexample): after `vfs_create_file("f")` is called twice from the
initial state, inodes 0 and 1 are both used and both hold the name "f". -/
theorem duplicate_names :
    VReachAll vfs_two_f ∧
    (vfs_create_file (init_vfs vfs_bss) [102]).2 = 0 ∧
    (vfs_create_file (vfs_create_file (init_vfs vfs_bss) [102]).1 [102]).2 = 1 ∧
    (vfs_two_f.inode 0).used ≠ 0 ∧ (vfs_two_f.inode 1).used ≠ 0 ∧
    (vfs_two_f.inode 0).name = (vfs_two_f.inode 1).name ∧
    c_string (vfs_two_f.inode 0).name = [102] ∧ ¬ NamesUnique vfs_two_f :=
  ⟨VReachAll.step (VReachAll.step VReachAll.init (VCall.op (VStep.create _ [102])))
      (VCall.op (VStep.create _ [102])),
    by decide, by decide, by decide, by decide, by decide, by decide,
    fun h => absurd (h 0 1 (by decide) (by decide) (by decide) (by decide) (by decide))
      (by decide)⟩

/-- C22 (amended): in every state reachable from `init_vfs()` by file-system
calls among which each `vfs_create_file(name)` is made while no used inode holds
the first 31 bytes of `name`, no two used inodes have the same name. -/
theorem names_unique_when_fresh (s : VfsState) (hr : VReachFresh s) : NamesUnique s :=
  names_unique_fresh hr

/-- C22 (amended) after "f" and then "g" are created: the two used inodes hold
different names. -/
theorem names_unique_when_fresh_witness :
    VReachFresh vfs_f_g ∧ c_string (vfs_f_g.inode 0).name = [102] ∧
    c_string (vfs_f_g.inode 1).name = [103] ∧ NamesUnique vfs_f_g :=
  have hr : VReachFresh vfs_f_g :=
    VReachFresh.create [103] (VReachFresh.create [102] VReachFresh.init (by unfold Fresh; decide))
      (by unfold Fresh; decide)
  ⟨hr, by decide, by decide, names_unique_when_fresh vfs_f_g hr⟩

/-- C23: on the kmain table (slot 0 active, pid 1) with the file system right
after `init_vfs()`, `syscall_handler` entered with eax = 3 (exit) stores state 2
and pid 0 in slot 0, leaves slots 1 and 2, `current_process` and the file system
unchanged and sets `schedule_flag` to 1, and its variable `result` is 0; but eax
holds 0x20 when it returns, because the end-of-interrupt sequence overwrites the
low byte after `result` has been moved to eax.  This holds for every choice of
output registers that keeps `syscall_num` apart from the other three. -/
theorem syscall_exit_result_overwritten :
    (kmain_machine.kernel.proc 0).pid = 1 ∧ kmain_machine.kernel.current_process = 0 ∧
    exit_regs Reg.eax = 3 ∧
    ∀ o0 o1 o2 o3 : Reg, o0 ≠ o1 → o0 ≠ o2 → o0 ≠ o3 →
      (syscall_dispatch kmain_machine (read_registers exit_regs o0 o1 o2 o3).1
        (read_registers exit_regs o0 o1 o2 o3).2.1 (read_registers exit_regs o0 o1 o2 o3).2.2.1
        (read_registers exit_regs o0 o1 o2 o3).2.2.2).2 = 0 ∧
      (syscall_handler kmain_machine exit_regs o0 o1 o2 o3).2 = 0x20 ∧
      (syscall_handler kmain_machine exit_regs o0 o1 o2 o3).2 ≠ 0 ∧
      (syscall_handler kmain_machine exit_regs o0 o1 o2 o3).1.fs = kmain_machine.fs ∧
      (syscall_handler kmain_machine exit_regs o0 o1 o2 o3).1.kernel.schedule_flag = 1 ∧
      (syscall_handler kmain_machine exit_regs o0 o1 o2 o3).1.kernel.current_process = 0 ∧
      ((syscall_handler kmain_machine exit_regs o0 o1 o2 o3).1.kernel.proc 0).state = 2 ∧
      ((syscall_handler kmain_machine exit_regs o0 o1 o2 o3).1.kernel.proc 0).pid = 0 ∧
      (syscall_handler kmain_machine exit_regs o0 o1 o2 o3).1.kernel.proc 1 =
        kmain_machine.kernel.proc 1 ∧
      (syscall_handler kmain_machine exit_regs o0 o1 o2 o3).1.kernel.proc 2 =
        kmain_machine.kernel.proc 2 := by
  refine ⟨by decide, by decide, rfl, ?_⟩
  intro o0 o1 o2 o3 h1 h2 h3
  obtain ⟨hres, e⟩ := syscall_exit_state kmain_machine exit_regs o0 o1 o2 o3 h1 h2 h3 rfl
    (by decide) (by decide) (by decide) (by decide)
  rw [e]
  exact ⟨hres, rfl, by decide, rfl, rfl, rfl, by decide, by decide, by decide, by decide⟩

/-- C24: after `setup_idt`, for every vector `v` in 0..255 with handler `h(v)`
(double fault for 0x08, timer for 0x20, keyboard for 0x21, syscall for 0x80,
default otherwise), `idt[2v] = (h(v) & 0xFFFF) | (0x08 << 16)` and
`idt[2v+1] = (h(v) & 0xFFFF0000) | f(v)` with `f(0x80) = 0xEE00` and
`f(v) = 0x8E00` otherwise; a 32-bit handler address is recovered as
`(idt[2v+1] & 0xFFFF0000) | (idt[2v] & 0xFFFF)`; every gate is present (bit 15)
and a 32-bit interrupt gate (type 0xE); and the privilege field (bits 13-14) is
3 for vector 0x80 and 0 for every other vector. -/
theorem setup_idt_entries (h : Handlers) (idt : Nat → Nat) (v : Nat) (hv : v < 256) :
    setup_idt h idt (2 * v) = (handler_of h v &&& 0xFFFF) ||| (0x08 <<< 16) ∧
    setup_idt h idt (2 * v + 1) = (handler_of h v &&& 0xFFFF0000) ||| gate_flags v ∧
    (handler_of h v < 2 ^ 32 →
      (setup_idt h idt (2 * v + 1) &&& 0xFFFF0000) ||| (setup_idt h idt (2 * v) &&& 0xFFFF) =
        handler_of h v) ∧
    (setup_idt h idt (2 * v + 1) >>> 15) &&& 1 = 1 ∧
    (setup_idt h idt (2 * v + 1) >>> 8) &&& 0x1F = 0xE ∧
    (setup_idt h idt (2 * v + 1) >>> 13) &&& 3 = (if v = 0x80 then 3 else 0) ∧
    ((setup_idt h idt (2 * v + 1) >>> 13) &&& 3 = 3 ↔ v = 0x80) := by
  have hflags : gate_flags v < 2 ^ 16 := by
    unfold gate_flags
    split_ifs <;> decide
  have hdpl : (setup_idt h idt (2 * v + 1) >>> 13) &&& 3 = (if v = 0x80 then 3 else 0) := by
    rw [setup_idt_high h idt v hv]
    refine (gate_field (handler_of h v) (gate_flags v) 13 2 (by decide)).trans ?_
    unfold gate_flags
    split_ifs <;> rfl
  refine ⟨setup_idt_low h idt v hv, setup_idt_high h idt v hv, ?_, ?_, ?_, hdpl, ?_⟩
  · intro hh
    rw [setup_idt_low h idt v hv, setup_idt_high h idt v hv]
    exact gate_recover (handler_of h v) (gate_flags v) hh hflags
  · rw [setup_idt_high h idt v hv]
    refine (gate_field (handler_of h v) (gate_flags v) 15 1 (by decide)).trans ?_
    unfold gate_flags
    split_ifs <;> rfl
  · rw [setup_idt_high h idt v hv]
    refine (gate_field (handler_of h v) (gate_flags v) 8 5 (by decide)).trans ?_
    unfold gate_flags
    split_ifs <;> rfl
  · rw [hdpl]
    split_ifs with hc
    · exact ⟨fun _ => hc, fun _ => rfl⟩
    · exact ⟨fun e => absurd e (by decide), fun e => absurd e hc⟩

/-- C24 with sample handler addresses on a zero-filled table: the words of the
syscall vector 0x80 and of the timer vector 0x20. -/
theorem setup_idt_entries_witness :
    handler_of sample_handlers 0x80 = 0xC0105B04 ∧
    setup_idt sample_handlers (fun _ => 0) (2 * 0x80) = 0x00085B04 ∧
    setup_idt sample_handlers (fun _ => 0) (2 * 0x80 + 1) = 0xC010EE00 ∧
    (setup_idt sample_handlers (fun _ => 0) (2 * 0x80 + 1) &&& 0xFFFF0000) |||
        (setup_idt sample_handlers (fun _ => 0) (2 * 0x80) &&& 0xFFFF) =
      handler_of sample_handlers 0x80 ∧
    (setup_idt sample_handlers (fun _ => 0) (2 * 0x80 + 1) >>> 13) &&& 3 = 3 ∧
    setup_idt sample_handlers (fun _ => 0) (2 * 0x20) = 0x00082468 ∧
    setup_idt sample_handlers (fun _ => 0) (2 * 0x20 + 1) = 0x00108E00 ∧
    (setup_idt sample_handlers (fun _ => 0) (2 * 0x20 + 1) >>> 13) &&& 3 = 0 :=
  have s := setup_idt_entries sample_handlers (fun _ => 0) 0x80 (by decide)
  have t := setup_idt_entries sample_handlers (fun _ => 0) 0x20 (by decide)
  ⟨rfl, s.1, s.2.1, s.2.2.1 (by decide), s.2.2.2.2.2.1, t.1, t.2.1, t.2.2.2.2.2.1⟩

/-- C25: after `init_paging()`, page-table entry `i` is `(i * 4096) | 0x3` for
every `i` in 0..1023, the entry 184 of the VGA frame 0xB8000 included; directory
entries 0 and 768 (`KERNEL_BASE >> 22`) both hold the table's address `| 0x3`,
and every other directory entry is 0. -/
theorem init_paging_layout (k : Kernel) :
    (init_paging k).kernel_page_dir = 0x100000 ∧
    (∀ i, i < 1024 → (init_paging k).mem (0x101000 + 4 * i) = (i * 4096) ||| 0x3) ∧
    0xB8000 / PAGE_SIZE = 184 ∧
    (init_paging k).mem (0x101000 + 4 * 184) = 0xB8000 ||| 0x3 ∧
    KERNEL_BASE >>> 22 = 768 ∧
    (init_paging k).mem (0x100000 + 4 * 0) = 0x101000 ||| 0x3 ∧
    (init_paging k).mem (0x100000 + 4 * 768) = 0x101000 ||| 0x3 ∧
    (∀ i, i < 1024 → i ≠ 0 → i ≠ 768 → (init_paging k).mem (0x100000 + 4 * i) = 0) := by
  refine ⟨rfl, init_paging_table k, by decide, ?_, by decide, ?_, ?_, ?_⟩
  · rw [init_paging_table k 184 (by decide)]
  · rw [init_paging_dir k 0 (by decide), if_pos (Or.inl rfl)]
  · rw [init_paging_dir k 768 (by decide), if_pos (Or.inr rfl)]
  · intro i hi h0 h768
    rw [init_paging_dir k i hi, if_neg (by omega)]

/-- C25 on the zero-filled globals: table entries 5 and 1023, and directory
entry 1. -/
theorem init_paging_layout_witness :
    (init_paging boot).mem (0x101000 + 4 * 5) = (5 * 4096) ||| 0x3 ∧
    (init_paging boot).mem (0x101000 + 4 * 1023) = (1023 * 4096) ||| 0x3 ∧
    (init_paging boot).mem (0x100000 + 4 * 1) = 0 :=
  ⟨(init_paging_layout boot).2.1 5 (by decide), (init_paging_layout boot).2.1 1023 (by decide),
    (init_paging_layout boot).2.2.2.2.2.2.2 1 (by decide) (by decide) (by decide)⟩

/-- C26: in every state reachable from `init_vfs()` by the file-system calls,
every inode has `0 <= size <= 128`, and every used descriptor has
`0 <= inode_id < MAX_INODES`, refers to a used inode and has
`0 <= offset <= size`; so on a used descriptor `vfs_read_file` and
`vfs_write_file` never return -1 (the "Inode not used" branch is not taken) and
the bytes they touch, `data[offset .. offset + result - 1]`, lie within the
valid bytes (read) and within the 128 bytes of `data` (write). -/
theorem vfs_well_formed (s : VfsState) (hr : VReachAll s) :
    (∀ i, 0 ≤ (s.inode i).size ∧ (s.inode i).size ≤ 128) ∧
    ∀ y, y < MAX_FILES → (s.fd y).used ≠ 0 →
      (0 ≤ (s.fd y).inode_id ∧ (s.fd y).inode_id < (MAX_INODES : Int) ∧
        (s.inode (s.fd y).inode_id.toNat).used ≠ 0 ∧
        0 ≤ (s.fd y).offset ∧ (s.fd y).offset ≤ (s.inode (s.fd y).inode_id.toNat).size) ∧
      (∀ buf len, 0 ≤ (vfs_read_file s (y : Int) buf len).2.2 ∧
        (s.fd y).offset + (vfs_read_file s (y : Int) buf len).2.2 ≤
          (s.inode (s.fd y).inode_id.toNat).size) ∧
      (∀ buf len, 0 ≤ (vfs_write_file s (y : Int) buf len).2 ∧
        (s.fd y).offset + (vfs_write_file s (y : Int) buf len).2 ≤ 128) := by
  have hv := vreach_of_all hr
  have h := descInv_reach hv
  have hinit : s.vfs_initialized ≠ 0 := by rw [(vfsWF_reach hv).1]; decide
  refine ⟨h.1, fun y hy hu => ⟨h.2 y hy hu, ?_, ?_⟩⟩
  · intro buf len
    obtain ⟨g1, g2, g3, g4, g5⟩ := h.2 y hy hu
    have gs := h.1 (s.fd y).inode_id.toNat
    obtain ⟨k, buf', hk, e, _⟩ := vfs_read_file_spec s y buf len hinit (descOK_of_inv s h y hy hu)
    rw [e]
    simp only
    omega
  · intro buf len
    obtain ⟨g1, g2, g3, g4, g5⟩ := h.2 y hy hu
    have gs := h.1 (s.fd y).inode_id.toNat
    obtain ⟨k, data', hk, e, _⟩ := vfs_write_file_spec s y buf len hinit (descOK_of_inv s h y hy hu)
    rw [e]
    simp only
    omega

/-- C26 on the state with file "f" holding "abc" and opened twice: descriptor 0
is bound to inode 0 at offset 3, the size of the file. -/
theorem vfs_well_formed_witness :
    VReachAll vfs_abc_two ∧ (vfs_abc_two.fd 0).used ≠ 0 ∧ (vfs_abc_two.fd 0).inode_id = 0 ∧
    (vfs_abc_two.fd 0).offset = 3 ∧ (vfs_abc_two.inode 0).size = 3 ∧
    ((0 ≤ (vfs_abc_two.fd 0).inode_id ∧ (vfs_abc_two.fd 0).inode_id < (MAX_INODES : Int) ∧
        (vfs_abc_two.inode (vfs_abc_two.fd 0).inode_id.toNat).used ≠ 0 ∧
        0 ≤ (vfs_abc_two.fd 0).offset ∧
        (vfs_abc_two.fd 0).offset ≤ (vfs_abc_two.inode (vfs_abc_two.fd 0).inode_id.toNat).size) ∧
      (∀ buf len, 0 ≤ (vfs_read_file vfs_abc_two ((0 : Nat) : Int) buf len).2.2 ∧
        (vfs_abc_two.fd 0).offset + (vfs_read_file vfs_abc_two ((0 : Nat) : Int) buf len).2.2 ≤
          (vfs_abc_two.inode (vfs_abc_two.fd 0).inode_id.toNat).size) ∧
      (∀ buf len, 0 ≤ (vfs_write_file vfs_abc_two ((0 : Nat) : Int) buf len).2 ∧
        (vfs_abc_two.fd 0).offset + (vfs_write_file vfs_abc_two ((0 : Nat) : Int) buf len).2 ≤
          128)) :=
  have hr : VReachAll vfs_abc_two :=
    VReachAll.step
      (VReachAll.step
        (VReachAll.step (VReachAll.step VReachAll.init (VCall.op (VStep.create _ [102])))
          (VCall.op (VStep.open_ _ [102])))
        (VCall.op (VStep.write _ 0 [97, 98, 99] 3)))
      (VCall.op (VStep.open_ _ [102]))
  ⟨hr, by decide, by decide, by decide, by decide,
    (vfs_well_formed vfs_abc_two hr).2 0 (by decide) (by decide)⟩

/-- C27 (counterexample): on the table built by kmain, right after `schedule()`
returns, slot 1 (priority 3) is the active, Running unit while slot 0
(priority 5) is Ready. -/
theorem ready_outranks_active :
    Reach kmain_state kmain_state ∧
    (schedule kmain_state).current_process = 1 ∧
    ((schedule kmain_state).proc 1).state = 1 ∧
    ((schedule kmain_state).proc 0).state = 0 ∧
    ((schedule kmain_state).proc 1).priority = 3 ∧
    ((schedule kmain_state).proc 0).priority = 5 ∧
    ((schedule kmain_state).proc 1).priority < ((schedule kmain_state).proc 0).priority :=
  ⟨Reach.init, by decide, by decide, by decide, by decide, by decide, by decide⟩

/-- C27 (amended): in every state reachable from the kmain table, right after
`schedule()` returns, every Ready unit other than the one that was active when
`schedule()` was called has a priority that is at most the active unit's, or
negative. -/
theorem schedule_outranks_ready (k : Kernel) (hr : Reach kmain_state k) (j : Nat)
    (hj : j < MAX_PROCESSES) (hne : (j : Int) ≠ k.current_process)
    (hs : ((schedule k).proc j).state = 0) :
    ((schedule k).proc j).priority ≤
        ((schedule k).proc (schedule k).current_process.toNat).priority ∨
      ((schedule k).proc j).priority < 0 :=
  schedule_ready_bound k (curInv_reach hr (by decide) ⟨by decide, by decide⟩).1 j hj hne hs

/-- C27 (amended), on the kmain table: after `schedule()` slot 2 is Ready with
priority 2, below the priority 3 of the active slot 1. -/
theorem schedule_outranks_ready_witness :
    ((schedule kmain_state).proc 2).state = 0 ∧
    ((schedule kmain_state).proc 2).priority = 2 ∧
    ((schedule kmain_state).proc (schedule kmain_state).current_process.toNat).priority = 3 ∧
    (((schedule kmain_state).proc 2).priority ≤
        ((schedule kmain_state).proc (schedule kmain_state).current_process.toNat).priority ∨
      ((schedule kmain_state).proc 2).priority < 0) :=
  ⟨by decide, by decide, by decide,
    schedule_outranks_ready kmain_state Reach.init 2 (by decide) (by decide) (by decide)⟩

/-- C28: when every Ready unit has priority at most -1, `schedule()` returns the
globals unchanged: every slot, `current_process` and all the rest. -/
theorem schedule_skips_negative (k : Kernel)
    (h : ∀ j, j < MAX_PROCESSES → (k.proc j).state = 0 → (k.proc j).priority ≤ -1) :
    schedule k = k ∧ pick k = -1 :=
  ⟨schedule_noswitch k (Or.inl (pick_negative k h)), pick_negative k h⟩

/-- C28 on a table whose only Ready unit, in slot 1, has priority -1. -/
theorem schedule_skips_negative_witness :
    (table_negative.proc 1).state = 0 ∧ (table_negative.proc 1).priority = -1 ∧
    (∀ j, j < MAX_PROCESSES → j ≠ 1 → (table_negative.proc j).state ≠ 0) ∧
    schedule table_negative = table_negative ∧ pick table_negative = -1 :=
  ⟨by decide, by decide, by decide, schedule_skips_negative table_negative (by decide)⟩

/-- C29: in every state reachable from `init_vfs()` every stored name has at most
31 bytes, so `vfs_open_file(name)` with a name of more than 31 bytes returns -1
and changes nothing, also right after `vfs_create_file(name)`. -/
theorem long_name_not_found (s : VfsState) (hr : VReachAll s) (name : List Int)
    (hlong : 31 < (c_string name).length) :
    (∀ i, (c_string (s.inode i).name).length ≤ 31) ∧
    vfs_open_file s name = (s, -1) ∧
    vfs_open_file (vfs_create_file s name).1 name = ((vfs_create_file s name).1, -1) := by
  have key : ∀ t : VfsState, VReach t → vfs_open_file t name = (t, -1) := by
    intro t ht
    apply vfs_open_file_not_found
    intro i _ _ e
    have := nameInv_inode t (nameInv_reach ht) i
    rw [e] at this
    omega
  exact ⟨nameInv_inode s (nameInv_reach (vreach_of_all hr)), key s (vreach_of_all hr),
    key _ (VReach.step (vreach_of_all hr) (VStep.create s name))⟩

/-- C29 right after `init_vfs()` with a name of 32 letters "a": the create
succeeds with inode 0, which stores 31 letters, and the open returns -1. -/
theorem long_name_not_found_witness :
    (vfs_create_file (init_vfs vfs_bss) (List.replicate 32 97)).2 = 0 ∧
    c_string ((vfs_create_file (init_vfs vfs_bss) (List.replicate 32 97)).1.inode 0).name =
      List.replicate 31 97 ∧
    ((∀ i, (c_string ((init_vfs vfs_bss).inode i).name).length ≤ 31) ∧
      vfs_open_file (init_vfs vfs_bss) (List.replicate 32 97) = (init_vfs vfs_bss, -1) ∧
      vfs_open_file (vfs_create_file (init_vfs vfs_bss) (List.replicate 32 97)).1
          (List.replicate 32 97) =
        ((vfs_create_file (init_vfs vfs_bss) (List.replicate 32 97)).1, -1)) :=
  ⟨by decide, by decide,
    long_name_not_found (init_vfs vfs_bss) VReachAll.init (List.replicate 32 97) (by decide)⟩

/-- C30: `create_user_page_dir` returns the directory address 0x200000 on every
call and rebuilds the same contents (table entry `i` is
`(i * 4096 + USER_BASE) | 0x7`, directory entry 0 is the table's address `| 0x7`,
entry 768 is copied from the kernel directory, the other entries are 0; a second
call changes nothing); hence every unit that `create_process` creates with
privilege 3 stores the same `page_dir`, 0x200000, which differs from the address
of the kernel directory set by `init_paging`, and in every table reachable from
the kmain table any two user units have equal `page_dir` values. -/
theorem user_page_dir_shared (k : Kernel) :
    (create_user_page_dir k).2 = 0x200000 ∧
    create_user_page_dir (create_user_page_dir k).1 = create_user_page_dir k ∧
    (∀ i, i < 1024 →
      (create_user_page_dir k).1.mem (0x201000 + 4 * i) = (i * 4096 + USER_BASE) ||| 0x7) ∧
    (create_user_page_dir k).1.mem (0x200000 + 4 * 0) = 0x201000 ||| 0x7 ∧
    (k.kernel_page_dir = 0x100000 →
      (create_user_page_dir k).1.mem (0x200000 + 4 * 768) = k.mem (0x100000 + 4 * 768)) ∧
    (∀ i, i < 1024 → i ≠ 0 → i ≠ 768 → (create_user_page_dir k).1.mem (0x200000 + 4 * i) = 0) ∧
    (∀ (k' : Kernel) (task task' : Nat) (priority priority' : Int) (i j : Nat),
      k.processes.length = MAX_PROCESSES → k'.processes.length = MAX_PROCESSES →
      (create_process k task priority 3).2 = (i : Int) →
      (create_process k' task' priority' 3).2 = (j : Int) →
      ((create_process k task priority 3).1.proc i).page_dir = 0x200000 ∧
      ((create_process k task priority 3).1.proc i).page_dir =
        ((create_process k' task' priority' 3).1.proc j).page_dir) ∧
    (∀ k0 : Kernel, (create_user_page_dir k).2 ≠ (init_paging k0).kernel_page_dir) ∧
    (Reach kmain_state k → ∀ i j, (k.proc i).privilege = 3 → (k.proc j).privilege = 3 →
      (k.proc i).page_dir = (k.proc j).page_dir) := by
  refine ⟨rfl, create_user_page_dir_twice k, ?_, ?_, ?_, ?_, ?_, ?_, ?_⟩
  · intro i hi
    rw [create_user_page_dir_mem, if_neg (by omega)]
    exact user_tables_table k.mem i hi
  · rw [create_user_page_dir_mem, if_neg (by omega), user_tables_dir k.mem 0 (by omega),
      if_pos rfl]
  · intro hk
    rw [create_user_page_dir_mem, if_pos rfl, hk]
    exact user_tables_other k.mem _ (fun i hi => by omega) (fun i hi => by omega)
  · intro i hi h0 h768
    rw [create_user_page_dir_mem, if_neg (by omega), user_tables_dir k.mem i hi, if_neg h0]
  · intro k' task task' priority priority' i j hl hl' hi hj
    have h1 := (create_process_user_dir k task priority i hl hi).2
    have h2 := (create_process_user_dir k' task' priority' j hl' hj).2
    exact ⟨h1, by rw [h1, h2]⟩
  · intro k0
    show (0x200000 : Nat) ≠ 0x100000
    decide
  · intro hr i j hi hj
    have h := pageDirInv_reach hr pageDirInv_kmain
    rw [h i hi, h j hj]

/-- C30 after `init_paging()` on the zero-filled globals, and on the kmain table
with a second user unit created: table entry 5, the copied entry 768, and the
user units in slots 2 and 3. -/
theorem user_page_dir_shared_witness :
    (create_user_page_dir (init_paging boot)).1.mem (0x201000 + 4 * 5) =
      (5 * 4096 + USER_BASE) ||| 0x7 ∧
    (create_user_page_dir (init_paging boot)).1.mem (0x200000 + 4 * 768) =
      (init_paging boot).mem (0x100000 + 4 * 768) ∧
    (create_user_page_dir (init_paging boot)).1.mem (0x200000 + 4 * 1) = 0 ∧
    (create_process kmain_state 4 1 3).2 = 3 ∧
    (((create_process kmain_state 4 1 3).1.proc 3).page_dir = 0x200000 ∧
      ((create_process kmain_state 4 1 3).1.proc 3).page_dir =
        ((create_process kmain_state 4 1 3).1.proc 3).page_dir) ∧
    (kmain_two_users.proc 2).privilege = 3 ∧ (kmain_two_users.proc 3).privilege = 3 ∧
    (kmain_two_users.proc 2).page_dir = (kmain_two_users.proc 3).page_dir :=
  ⟨(user_page_dir_shared (init_paging boot)).2.2.1 5 (by decide),
    (user_page_dir_shared (init_paging boot)).2.2.2.2.1 rfl,
    (user_page_dir_shared (init_paging boot)).2.2.2.2.2.1 1 (by decide) (by decide) (by decide),
    by decide,
    (user_page_dir_shared kmain_state).2.2.2.2.2.2.1 kmain_state 4 4 1 1 3 3 (by decide)
      (by decide) (by decide) (by decide),
    by decide, by decide,
    (user_page_dir_shared kmain_two_users).2.2.2.2.2.2.2.2
      (Reach.step Reach.init (Step.create kmain_state 4 1 3)) 2 3 (by decide) (by decide)⟩

end SabriaOS
